import Mathlib

/-!
# Game console: state-machine cores of the mini-games and the high-score ledger

Shallow embedding of `ConnectFour.hpp`, `TicTacToe.hpp`, `RockPaperScissors.hpp`
and `HighScore.hpp`, followed by the properties proved about them.
Rendering, fonts and window handling are left out; every definition below
follows the control flow of the member function whose name it carries.
The first half of the file holds the definitions, the second half the theorems.
-/

/-! ## ConnectFour.hpp -/

namespace ConnectFour

/-- Owner of a cell: `enum class Player { None, One, Two }`. -/
inductive Player
  | None
  | One
  | Two
  deriving DecidableEq

/-- Phase of the session: `enum class GameState { Playing, GameOver }`. -/
inductive GameState
  | Playing
  | GameOver
  deriving DecidableEq

/-- Number of rows: `static const int ROWS = 6`. -/
def ROWS : Nat := 6

/-- Number of columns: `static const int COLS = 7`. -/
def COLS : Nat := 7

/-- The member `std::array<std::array<Player, COLS>, ROWS> grid`, indexed
`grid[row][col]`; row 0 is the top row. -/
abbrev Grid := Fin 6 → Fin 7 → Player

/-- Read `grid[r][c]` with integer indices; `none` outside the array. -/
def cell? (g : Grid) (r c : Nat) : Option Player :=
  if h : r < 6 ∧ c < 7 then some (g ⟨r, h.1⟩ ⟨c, h.2⟩) else none

/-- The counting loop shared by the horizontal and the vertical scan of
`checkWin`: walk the cells in order, `count++` on a cell of the current
player (returning true as soon as `count == 4`), `count = 0` otherwise. -/
def countLoop (currentPlayer : Player) : List (Option Player) → Nat → Bool
  | [], _ => false
  | x :: rest, count =>
    if x = some currentPlayer then
      if count + 1 = 4 then true else countLoop currentPlayer rest (count + 1)
    else countLoop currentPlayer rest 0

/-- Cells `grid[row][c]` for `c = 0 .. COLS-1`, in loop order. -/
def rowCells (g : Grid) (row : Nat) : List (Option Player) :=
  (List.range COLS).map (fun c => cell? g row c)

/-- Cells `grid[r][col]` for `r = 0 .. ROWS-1`, in loop order. -/
def colCells (g : Grid) (col : Nat) : List (Option Player) :=
  (List.range ROWS).map (fun r => cell? g r col)

/-- First diagonal double loop of `checkWin`: `r` in `0 .. ROWS-4`, `c` in
`0 .. COLS-4`, window `(r,c),(r+1,c+1),(r+2,c+2),(r+3,c+3)`. -/
def diagDownLoop (g : Grid) (currentPlayer : Player) : Bool :=
  (List.range (ROWS - 3)).any fun r =>
    (List.range (COLS - 3)).any fun c =>
      cell? g r c = some currentPlayer &&
      cell? g (r + 1) (c + 1) = some currentPlayer &&
      cell? g (r + 2) (c + 2) = some currentPlayer &&
      cell? g (r + 3) (c + 3) = some currentPlayer

/-- Second diagonal double loop of `checkWin`: `r` in `3 .. ROWS-1`, `c` in
`0 .. COLS-4`, window `(r,c),(r-1,c+1),(r-2,c+2),(r-3,c+3)`. -/
def diagUpLoop (g : Grid) (currentPlayer : Player) : Bool :=
  ((List.range ROWS).filter (fun r => 3 ≤ r)).any fun r =>
    (List.range (COLS - 3)).any fun c =>
      cell? g r c = some currentPlayer &&
      cell? g (r - 1) (c + 1) = some currentPlayer &&
      cell? g (r - 2) (c + 2) = some currentPlayer &&
      cell? g (r - 3) (c + 3) = some currentPlayer

/-- The member function `bool checkWin(int row, int col)`, reading the members
`grid` and `currentPlayer`: horizontal scan of row `row`, vertical scan of
column `col`, then the two diagonal double loops over the whole board. -/
def checkWin (g : Grid) (currentPlayer : Player) (row : Fin 6) (col : Fin 7) : Bool :=
  if countLoop currentPlayer (rowCells g row) 0 then true
  else if countLoop currentPlayer (colCells g col) 0 then true
  else if diagDownLoop g currentPlayer then true
  else if diagUpLoop g currentPlayer then true
  else false

/-! ### Specification vocabulary for runs on the grid -/

/-- Four horizontally consecutive cells of row `row`, all owned by `p`. -/
def rowWindow (g : Grid) (p : Player) (row : Nat) : Prop :=
  ∃ c0, c0 + 3 < 7 ∧ ∀ i, i < 4 → cell? g row (c0 + i) = some p

/-- Four vertically consecutive cells of column `col`, all owned by `p`. -/
def colWindow (g : Grid) (p : Player) (col : Nat) : Prop :=
  ∃ r0, r0 + 3 < 6 ∧ ∀ i, i < 4 → cell? g (r0 + i) col = some p

/-- A down-right diagonal window of four cells owned by `p`, anywhere. -/
def diagDownWindow (g : Grid) (p : Player) : Prop :=
  ∃ r0 c0, r0 + 3 < 6 ∧ c0 + 3 < 7 ∧ ∀ i, i < 4 → cell? g (r0 + i) (c0 + i) = some p

/-- An up-right diagonal window of four cells owned by `p`, anywhere. -/
def diagUpWindow (g : Grid) (p : Player) : Prop :=
  ∃ r0 c0, 3 ≤ r0 ∧ r0 < 6 ∧ c0 + 3 < 7 ∧ ∀ i, i < 4 → cell? g (r0 - i) (c0 + i) = some p

/-- The board contains `k ≥ 4` consecutive cells owned by `p` in some row, some
column, or one of the two diagonal directions, starting at some `(r0, c0)`. -/
def boardHasRun (g : Grid) (p : Player) : Prop :=
  ∃ k, 4 ≤ k ∧ ∃ r0 c0,
    (∀ i, i < k → cell? g r0 (c0 + i) = some p) ∨
    (∀ i, i < k → cell? g (r0 + i) c0 = some p) ∨
    (∀ i, i < k → cell? g (r0 + i) (c0 + i) = some p) ∨
    (∀ i, i < k → i ≤ r0 ∧ cell? g (r0 - i) (c0 + i) = some p)

/-- As `boardHasRun`, with the horizontal run confined to row `row` and the
vertical run confined to column `col`; diagonal runs may lie anywhere. -/
def lastMoveRun (g : Grid) (p : Player) (row col : Nat) : Prop :=
  ∃ k, 4 ≤ k ∧ ∃ r0 c0,
    (∀ i, i < k → cell? g row (c0 + i) = some p) ∨
    (∀ i, i < k → cell? g (r0 + i) col = some p) ∨
    (∀ i, i < k → cell? g (r0 + i) (c0 + i) = some p) ∨
    (∀ i, i < k → i ≤ r0 ∧ cell? g (r0 - i) (c0 + i) = some p)

/-- The grid after `resetGrid`: every cell `None`. -/
def emptyGrid : Grid := fun _ _ => Player.None

/-- Board with player One on the bottom row in columns 0 to 3. -/
def bottomRowGrid : Grid := fun r c =>
  if r.val = 5 ∧ c.val < 4 then Player.One else Player.None

/-- Board with a finished run of One on the bottom row (columns 0 to 3), Two
on the bottom row in columns 4 to 6 and at row 4 column 4, and One at row 4
column 6. -/
def farRunGrid : Grid := fun r c =>
  if r.val = 5 then (if c.val < 4 then Player.One else Player.Two)
  else if r.val = 4 ∧ c.val = 4 then Player.Two
  else if r.val = 4 ∧ c.val = 6 then Player.One
  else Player.None

/-! ### Session state, clicks and the drop animation -/

/-- The constant `CELL_SIZE(80.0f)`, in pixels. -/
def CELL_SIZE : Int := 80

/-- The constant `GRID_OFFSET_X(200.0f)`, in pixels. -/
def GRID_OFFSET_X : Int := 200

/-- The constant `GRID_OFFSET_Y(100.0f)`, in pixels. -/
def GRID_OFFSET_Y : Int := 100

/-- Advance of the disc per tick, `DROP_SPEED * deltaTime = 500 / 60` pixels,
in thirds of a pixel. -/
def DROP_STEP : Int := 25

/-- The animation record `struct DroppingDisc`.  The two vertical positions are
`float` pixels in the source; they are kept here in thirds of a pixel, in exact
arithmetic. -/
structure DroppingDisc where
  col : Nat
  currentY : Int
  targetY : Int
  player : Player
  deriving DecidableEq

/-- Game-state members of the class, with the string shown by `statusText`. -/
structure State where
  currentState : GameState
  currentPlayer : Player
  grid : Grid
  shouldExit : Bool
  player1Score : Int
  player2Score : Int
  droppingDisc : Option DroppingDisc
  statusText : String

/-- The member function `bool isColumnFull(int col)`: `grid[0][col] != None`. -/
def isColumnFull (g : Grid) (col : Nat) : Bool :=
  cell? g 0 col ≠ some Player.None

/-- The member function `bool isBoardFull()`: every column is full. -/
def isBoardFull (g : Grid) : Bool :=
  (List.range COLS).all fun col => isColumnFull g col

/-- The loop of `getLowestEmptyRow` over the rows `n-1, n-2, ..., 0`. -/
def lowestEmptyFrom (g : Grid) (col : Nat) : Nat → Int
  | 0 => -1
  | n + 1 => if cell? g n col = some Player.None then (n : Int) else lowestEmptyFrom g col n

/-- The member function `int getLowestEmptyRow(int col)`: scan from row
`ROWS - 1` up to row 0, return the first empty row met, else -1. -/
def getLowestEmptyRow (g : Grid) (col : Nat) : Int :=
  lowestEmptyFrom g col ROWS

/-- The member function `int getColumnFromX(float x)`; the mouse coordinate is
an integer number of pixels and the division is applied to a non-negative
value. -/
def getColumnFromX (x : Int) : Int :=
  if x < GRID_OFFSET_X then -1
  else
    let col := (x - GRID_OFFSET_X) / CELL_SIZE
    if col ≥ (COLS : Int) then -1 else col

/-- The member function `void updateStatusText()`. -/
def updateStatusText (s : State) : State :=
  if s.currentState = GameState.GameOver then
    if isBoardFull s.grid then { s with statusText := "Game Over - Draw!" }
    else
      { s with statusText :=
          (if s.currentPlayer = Player.One then "Player 1" else "Player 2") ++ " Wins!" }
  else
    { s with statusText :=
        (if s.currentPlayer = Player.One then "Player 1" else "Player 2") ++ "'s Turn" }

/-- The member function `void makeMove(int col)`: start the drop animation
towards the lowest empty row of the column. -/
def makeMove (s : State) (col : Nat) : State :=
  let row := getLowestEmptyRow s.grid col
  if row ≥ 0 then
    let disc : DroppingDisc :=
      { col := col
        currentY := 3 * (GRID_OFFSET_Y - CELL_SIZE)
        targetY := 3 * (GRID_OFFSET_Y + row * CELL_SIZE)
        player := s.currentPlayer }
    { s with droppingDisc := some disc }
  else s

/-- The member function `void handleMouseClick(mouseButton)`: `x` is the
horizontal mouse coordinate, `onContinue` the result of
`checkButtonClick(mousePos, continueButton)`. -/
def handleMouseClick (s : State) (x : Int) (onContinue : Bool) : State :=
  match s.currentState with
  | GameState.Playing =>
    if s.droppingDisc.isNone then
      let col := getColumnFromX x
      if col ≥ 0 ∧ col < (COLS : Int) ∧ isColumnFull s.grid col.toNat = false then
        makeMove s col.toNat
      else s
    else s
  | GameState.GameOver =>
    if onContinue then { s with shouldExit := true } else s

/-- The member function `void handleWin()`. -/
def handleWin (s : State) : State :=
  let s1 := { s with currentState := GameState.GameOver }
  let s2 :=
    if s1.currentPlayer = Player.One then { s1 with player1Score := s1.player1Score + 1 }
    else { s1 with player2Score := s1.player2Score + 1 }
  updateStatusText s2

/-- The member function `void handleDraw()`. -/
def handleDraw (s : State) : State :=
  updateStatusText { s with currentState := GameState.GameOver }

/-- The assignment `grid[row][col] = player`. -/
def setCell (g : Grid) (row : Fin 6) (col : Fin 7) (p : Player) : Grid :=
  Function.update g row (Function.update (g row) col p)

/-- The member function `void updateGame()`, one tick.  The result is `none`
when the landing row is -1 or the column is out of range, where the source
writes outside the array. -/
def updateGame (s : State) : Option State :=
  match s.droppingDisc with
  | none => some s
  | some disc =>
    let disc1 := { disc with currentY := disc.currentY + DROP_STEP }
    if disc1.currentY ≥ disc1.targetY then
      let row := getLowestEmptyRow s.grid disc1.col
      if h : 0 ≤ row ∧ row.toNat < 6 ∧ disc1.col < 7 then
        let r : Fin 6 := ⟨row.toNat, h.2.1⟩
        let c : Fin 7 := ⟨disc1.col, h.2.2⟩
        let s1 := { s with grid := setCell s.grid r c disc1.player }
        let s2 :=
          if checkWin s1.grid s1.currentPlayer r c then handleWin s1
          else if isBoardFull s1.grid then handleDraw s1
          else
            updateStatusText { s1 with
              currentPlayer :=
                if s1.currentPlayer = Player.One then Player.Two else Player.One }
        some { s2 with droppingDisc := none }
      else none
    else some { s with droppingDisc := some disc1 }

/-- State left by the constructor: `initializeGame` resets the grid and sets
the status text. -/
def initial : State :=
  updateStatusText
    { currentState := GameState.Playing
      currentPlayer := Player.One
      grid := emptyGrid
      shouldExit := false
      player1Score := 0
      player2Score := 0
      droppingDisc := none
      statusText := "" }

/-- States reachable from the constructor through mouse clicks, ticks of
`updateGame` and the Escape key. -/
inductive Reachable : State → Prop
  | init : Reachable initial
  | click (s : State) (x : Int) (onContinue : Bool) :
      Reachable s → Reachable (handleMouseClick s x onContinue)
  | tick (s s' : State) : Reachable s → updateGame s = some s' → Reachable s'
  | escape (s : State) : Reachable s → Reachable { s with shouldExit := true }

/-- No cell of the board is empty. -/
def allOccupied (g : Grid) : Prop :=
  ∀ r c, g r c ≠ Player.None

/-- Pieces rest on the bottom or on other pieces: below an occupied cell every
cell of the column is occupied. -/
def gravity (g : Grid) : Prop :=
  ∀ (r r' : Fin 6) (c : Fin 7), g r c ≠ Player.None → r < r' → g r' c ≠ Player.None

/-- The state committed by `updateGame` when the disc lands on row `r` of
column `c`. -/
def landed (s : State) (disc : DroppingDisc) (r : Fin 6) (c : Fin 7) : State :=
  let s1 := { s with grid := setCell s.grid r c disc.player }
  let s2 :=
    if checkWin s1.grid s1.currentPlayer r c then handleWin s1
    else if isBoardFull s1.grid then handleDraw s1
    else
      updateStatusText { s1 with
        currentPlayer := if s1.currentPlayer = Player.One then Player.Two else Player.One }
  { s2 with droppingDisc := none }

/-- Invariant of the reachable states: pieces obey gravity, and a dropping disc
exists only in phase `Playing`, over a column of the board whose top cell is
empty. -/
def Inv (s : State) : Prop :=
  gravity s.grid ∧
    ∀ disc, s.droppingDisc = some disc →
      s.currentState = GameState.Playing ∧ disc.col < 7 ∧
        cell? s.grid 0 disc.col = some Player.None

/-- Run `n` ticks of `updateGame`. -/
def ticks : Nat → State → Option State
  | 0, s => some s
  | n + 1, s => (updateGame s).bind (ticks n)

/-- The first disc of a game, dropped over column 0, one tick before it lands:
the state after a click at `x = 250` and 57 ticks. -/
def firstDiscLanding : State :=
  { initial with
    droppingDisc := some { col := 0, currentY := 1485, targetY := 1500, player := Player.One } }

/-! ### Whole games played by clicks and ticks -/

/-- Ticks of `updateGame` until no disc is dropping; `none` when `fuel` ticks do
not suffice or a tick writes outside the array. -/
def settle : Nat → State → Option State
  | 0, s => if s.droppingDisc.isNone then some s else none
  | fuel + 1, s =>
    if s.droppingDisc.isNone then some s else (updateGame s).bind (settle fuel)

/-- A mouse click in the middle of column `col`, then ticks until the disc has
landed. -/
def dropInColumn (s : State) (col : Nat) : Option State :=
  settle 60 (handleMouseClick s (GRID_OFFSET_X + CELL_SIZE * (col : Int) + 40) false)

/-- A sequence of drops, one column per move. -/
def playColumns : List Nat → State → Option State
  | [], s => some s
  | col :: cols, s => (dropInColumn s col).bind (playColumns cols)

/-- A game of 42 moves in which no disc but the last one completes a run of
four; the last disc (player Two, column 3) fills the board and completes the
top row for Two. -/
def lastDiscWinsGame : List Nat :=
  [4, 1, 6, 2, 1, 0, 1, 4, 4, 2, 4, 1, 3, 6, 3, 3, 1, 0, 4, 6, 6, 1, 2, 3, 2, 3, 2, 2, 6, 5,
   5, 0, 5, 4, 6, 5, 5, 5, 0, 0, 0, 3]

/-- What the session shows: phase, the two scores, the status text. -/
def outcome (s : State) : GameState × Int × Int × String :=
  (s.currentState, s.player1Score, s.player2Score, s.statusText)

/-- A game of 42 moves in which no disc completes a run of four: the board
fills up and the last disc (player Two, column 0) ends the game as a draw. -/
def drawnGame : List Nat :=
  [4, 1, 6, 2, 1, 0, 1, 4, 4, 2, 4, 1, 3, 6, 3, 3, 1, 0, 4, 6, 6, 1, 2, 3, 2, 3, 2, 2, 6, 5,
   5, 0, 5, 4, 6, 5, 5, 5, 0, 0, 3, 0]

/-- The last disc of `drawnGame`, one tick before it lands: the first 41 drops,
a click in column 0 and 9 ticks.  The value is `initial` should one of the
steps fail. -/
def lastDiscOfDraw : State :=
  (((playColumns (drawnGame.take 41) initial).map
      fun s => handleMouseClick s (GRID_OFFSET_X + 40) false).bind (ticks 9)).getD initial

/-- It is the turn of player One or Two, and a dropping disc belongs to the
player whose turn it is. -/
def TurnInv (s : State) : Prop :=
  (s.currentPlayer = Player.One ∨ s.currentPlayer = Player.Two) ∧
    ∀ disc, s.droppingDisc = some disc → disc.player = s.currentPlayer

end ConnectFour

/-! ## TicTacToe.hpp -/

namespace TicTacToe

/-- Owner of a cell: `enum class Player { None, X, O }`. -/
inductive Player
  | None
  | X
  | O
  deriving DecidableEq

/-- Mode of play: `enum class GameMode { PvP, PvC }`. -/
inductive GameMode
  | PvP
  | PvC
  deriving DecidableEq

/-- Difficulty setting: `enum class AIDifficulty { Easy, Medium, Hard }`. -/
inductive AIDifficulty
  | Easy
  | Medium
  | Hard
  deriving DecidableEq

/-- The member `std::array<Player, 9> board`, row-major. -/
abbrev Board := Fin 9 → Player

/-- Game-state members of the class.  The field `randCalls` counts the calls of
`rand()` made so far; the value of call number `k` is `rand k` for the random
source `rand` passed to the functions below. -/
structure State where
  board : Board
  currentPlayer : Player
  gameMode : GameMode
  aiDifficulty : AIDifficulty
  gameOver : Bool
  showingMenu : Bool
  shouldExit : Bool
  randCalls : Nat

/-- The table `winPatterns[8][3]` of `checkWin`. -/
def winPatterns : List (Fin 9 × Fin 9 × Fin 9) :=
  [(0, 1, 2), (3, 4, 5), (6, 7, 8),
   (0, 3, 6), (1, 4, 7), (2, 5, 8),
   (0, 4, 8), (2, 4, 6)]

/-- The member function `bool checkWin()`: some pattern holds a non-`None`
owner in its first cell, equal to the owners of its second and third cell. -/
def checkWin (board : Board) : Bool :=
  winPatterns.any fun pattern =>
    board pattern.1 ≠ Player.None &&
    board pattern.1 = board pattern.2.1 &&
    board pattern.1 = board pattern.2.2

/-- The member function `bool checkDraw()`: no cell is `None`. -/
def checkDraw (board : Board) : Bool :=
  (List.finRange 9).all fun cell => board cell ≠ Player.None

/-- One of the two trial loops of `makeAIMove` (`p = O` for the winning move,
`p = X` for the blocking move): for each cell in order, if it is empty write
`p` into it, test `checkWin`, write `None` back, and stop at the first cell
whose test succeeded.  Returns the board as the loop leaves it and the cell
found, if any. -/
def aiTryLoop (p : Player) : List (Fin 9) → Board → Board × Option (Fin 9)
  | [], board => (board, none)
  | i :: rest, board =>
    if board i = Player.None then
      let tried := Function.update board i p
      if checkWin tried then
        (Function.update tried i Player.None, some i)
      else
        aiTryLoop p rest (Function.update tried i Player.None)
    else aiTryLoop p rest board

mutual
/-- The member function `void makeMove(int cell)`.  It and `makeAIMove` call
each other; `fuel` bounds the depth of that recursion and `none` reports
exhausted fuel. -/
def makeMove (rand : Nat → Nat) : Nat → State → Fin 9 → Option State
  | 0, _, _ => none
  | fuel + 1, s, cell =>
    if s.board cell = Player.None ∧ s.gameOver = false then
      let s1 := { s with board := Function.update s.board cell s.currentPlayer }
      if checkWin s1.board || checkDraw s1.board then
        some { s1 with gameOver := true }
      else
        let s2 := { s1 with
          currentPlayer := if s1.currentPlayer = Player.X then Player.O else Player.X }
        if s2.gameMode = GameMode.PvC ∧ s2.currentPlayer = Player.O then
          makeAIMove rand fuel s2
        else some s2
    else some s
/-- The member function `void makeAIMove()`: winning move, else blocking move,
else `availableMoves[rand() % availableMoves.size()]`. -/
def makeAIMove (rand : Nat → Nat) : Nat → State → Option State
  | 0, _ => none
  | fuel + 1, s =>
    match aiTryLoop Player.O (List.finRange 9) s.board with
    | (b1, some i) => makeMove rand fuel { s with board := b1 } i
    | (b1, none) =>
      match aiTryLoop Player.X (List.finRange 9) b1 with
      | (b2, some i) => makeMove rand fuel { s with board := b2 } i
      | (b2, none) =>
        let availableMoves := (List.finRange 9).filter fun i => b2 i = Player.None
        if h : 0 < availableMoves.length then
          let randomMove :=
            availableMoves.get ⟨rand s.randCalls % availableMoves.length, Nat.mod_lt _ h⟩
          makeMove rand fuel { s with board := b2, randCalls := s.randCalls + 1 } randomMove
        else some { s with board := b2 }
end

/-! ### Specification vocabulary for the 3x3 board -/

/-- Read `board[k]` with an integer index; `none` outside the array. -/
def cellAt (b : Board) (k : Nat) : Option Player :=
  if h : k < 9 then some (b ⟨k, h⟩) else none

/-- The eight lines of the 3x3 board: rows, columns, diagonals. -/
def lines : List (List Nat) :=
  [[0, 1, 2], [3, 4, 5], [6, 7, 8], [0, 3, 6], [1, 4, 7], [2, 5, 8], [0, 4, 8], [2, 4, 6]]

/-- Owner `p` holds every cell of one of the eight lines. -/
def ownsLine (b : Board) (p : Player) : Prop :=
  ∃ l, l ∈ lines ∧ ∀ k, k ∈ l → cellAt b k = some p

instance (b : Board) (p : Player) : Decidable (ownsLine b p) := by
  unfold ownsLine
  infer_instance

/-- Some line holds three equal owners other than `None`. -/
def lineCompleted (b : Board) : Prop :=
  ∃ p, p ≠ Player.None ∧ ownsLine b p

/-- Cell `i` is empty and placing `p` there gives `p` a full line. -/
def winningCell (b : Board) (p : Player) (i : Fin 9) : Prop :=
  b i = Player.None ∧ ownsLine (Function.update b i p) p

instance (b : Board) (p : Player) (i : Fin 9) : Decidable (winningCell b p i) := by
  unfold winningCell
  infer_instance

/-- Test made by the trial loops of `makeAIMove`: cell `k` is empty and the
trial placement of `p` there makes `checkWin` true. -/
def tryWins (b : Board) (p : Player) (k : Fin 9) : Prop :=
  b k = Player.None ∧ checkWin (Function.update b k p) = true

/-- Build a board from its nine cells in row-major order. -/
def boardOf (cells : List Player) : Board := fun i => cells.getD i.val Player.None

/-- A running Player-vs-Computer game at O's turn on the given board. -/
def aiTurn (b : Board) : State :=
  { board := b, currentPlayer := Player.O, gameMode := GameMode.PvC,
    aiDifficulty := AIDifficulty.Easy, gameOver := false, showingMenu := false,
    shouldExit := false, randCalls := 0 }

/-- Board `O O . / X X . / . . X`: O completes the top row at cell 2. -/
def winBoard : Board :=
  boardOf [Player.O, Player.O, Player.None, Player.X, Player.X, Player.None,
    Player.None, Player.None, Player.X]

/-- Board `X X . / . O . / . . .`: O has no winning cell, X would complete the
top row at cell 2. -/
def blockBoard : Board :=
  boardOf [Player.X, Player.X, Player.None, Player.None, Player.O, Player.None,
    Player.None, Player.None, Player.None]

/-- Board `O O . / O X X / . X X`: O has the two winning cells 2 and 6. -/
def twoWinsBoard : Board :=
  boardOf [Player.O, Player.O, Player.None, Player.O, Player.X, Player.X,
    Player.None, Player.X, Player.X]

/-- Board `X X . / X O O / . . .`: O has no winning cell, X has the two
winning cells 2 and 6. -/
def twoBlocksBoard : Board :=
  boardOf [Player.X, Player.X, Player.None, Player.X, Player.O, Player.O,
    Player.None, Player.None, Player.None]

/-! ### Clicks on the board and sample positions -/

/-- The member function `void handleGameClick(mousePos)`; `hit` is the first
cell whose bounds contain the mouse position, if any. -/
def handleGameClick (rand : Nat → Nat) (fuel : Nat) (s : State) (hit : Option (Fin 9)) :
    Option State :=
  if s.gameOver = false then
    if s.gameMode = GameMode.PvC ∧ s.currentPlayer = Player.O then some s
    else
      match hit with
      | some i => makeMove rand fuel s i
      | none => some s
  else some s

/-- A running Player-vs-Computer game at X's turn on the given board. -/
def humanTurn (b : Board) : State :=
  { board := b, currentPlayer := Player.X, gameMode := GameMode.PvC,
    aiDifficulty := AIDifficulty.Easy, gameOver := false, showingMenu := false,
    shouldExit := false, randCalls := 0 }

/-- Board `X . . / . O . / . . .` with X to move. -/
def openingBoard : Board :=
  boardOf [Player.X, Player.None, Player.None, Player.None, Player.O, Player.None,
    Player.None, Player.None, Player.None]

end TicTacToe

/-! ## RockPaperScissors.hpp -/

namespace RockPaperScissors

/-- A hand: `enum class Choice { None, Rock, Paper, Scissors }`. -/
inductive Choice
  | None
  | Rock
  | Paper
  | Scissors
  deriving DecidableEq

/-- Phase of the session:
`enum class GameState { SelectRounds, Playing, RoundEnd, GameOver }`. -/
inductive GameState
  | SelectRounds
  | Playing
  | RoundEnd
  | GameOver
  deriving DecidableEq

/-- Game-state members of the class.  The two timers are `float` seconds in the
source, fed from `sf::Clock` whose time is a whole number of microseconds; they
are kept here in microseconds. -/
structure State where
  currentState : GameState
  playerScore : Int
  computerScore : Int
  targetScore : Int
  totalRounds : Int
  currentRound : Int
  playerChoice : Choice
  computerChoice : Choice
  shouldExit : Bool
  roundEndTimer : Int
  resultDisplayTimer : Int

/-- Two seconds: `ROUND_END_DELAY = 2.0f`. -/
def ROUND_END_DELAY : Int := 2000000

/-- One and a half seconds: `RESULT_DISPLAY_TIME = 1.5f`. -/
def RESULT_DISPLAY_TIME : Int := 1500000

/-- Results of `checkButtonClick(mousePos, button)` for every button, for one
mouse position. -/
structure MouseHit where
  roundButtons : Nat → Bool
  rockButton : Bool
  paperButton : Bool
  scissorsButton : Bool
  continueButton : Bool

/-- Key codes told apart by the event handlers. -/
inductive Key
  | R
  | P
  | S
  | Escape
  | Other
  deriving DecidableEq

/-- State built by the constructor; `totalRounds` and the two timers are left
uninitialised there and are parameters here. -/
def initial (totalRounds roundEndTimer resultDisplayTimer : Int) : State :=
  { currentState := GameState.SelectRounds
    playerScore := 0
    computerScore := 0
    targetScore := 0
    totalRounds := totalRounds
    currentRound := 1
    playerChoice := Choice.None
    computerChoice := Choice.None
    shouldExit := false
    roundEndTimer := roundEndTimer
    resultDisplayTimer := resultDisplayTimer }

/-- The member function `getRandomChoice`: `static_cast<Choice>(dis(gen))` with
`dis` uniform on 1..3; `draw` is `dis(gen) - 1`. -/
def getRandomChoice (draw : Fin 3) : Choice :=
  match draw with
  | 0 => Choice.Rock
  | 1 => Choice.Paper
  | 2 => Choice.Scissors

/-- The member function `void determineRoundWinner()`. -/
def determineRoundWinner (s : State) : State :=
  let s1 :=
    if s.playerChoice = s.computerChoice then
      { s with currentRound := s.currentRound - 1 }
    else if (s.playerChoice = Choice.Rock ∧ s.computerChoice = Choice.Scissors) ∨
        (s.playerChoice = Choice.Paper ∧ s.computerChoice = Choice.Rock) ∨
        (s.playerChoice = Choice.Scissors ∧ s.computerChoice = Choice.Paper) then
      { s with playerScore := s.playerScore + 1 }
    else
      { s with computerScore := s.computerScore + 1 }
  if s1.playerScore ≥ s1.targetScore ∨ s1.computerScore ≥ s1.targetScore then
    { s1 with currentState := GameState.GameOver }
  else
    { s1 with currentState := GameState.RoundEnd }

/-- The member function `void makeChoice(Choice choice)`. -/
def makeChoice (s : State) (choice : Choice) (draw : Fin 3) : State :=
  let s1 := { s with playerChoice := choice, computerChoice := getRandomChoice draw }
  let s2 := determineRoundWinner s1
  { s2 with
    roundEndTimer := ROUND_END_DELAY
    resultDisplayTimer := RESULT_DISPLAY_TIME
    currentState := GameState.RoundEnd }

/-- The member function `void handleRoundSelection(mousePos)`: the first of the
three round buttons under the mouse sets `totalRounds` and `targetScore`. -/
def handleRoundSelection (s : State) (hit : MouseHit) : State :=
  match (List.range 3).find? hit.roundButtons with
  | some i =>
    let totalRounds : Int := ((i : Int) + 1) * 2 + 1
    { s with
      totalRounds := totalRounds
      targetScore := totalRounds / 2 + 1
      currentState := GameState.Playing }
  | none => s

/-- The member function `void handleChoiceSelection(mousePos)`. -/
def handleChoiceSelection (s : State) (hit : MouseHit) (draw : Fin 3) : State :=
  if s.playerChoice = Choice.None then
    if hit.rockButton then makeChoice s Choice.Rock draw
    else if hit.paperButton then makeChoice s Choice.Paper draw
    else if hit.scissorsButton then makeChoice s Choice.Scissors draw
    else s
  else s

/-- The member function `void handleMouseClick(mouseButton)`.  In `RoundEnd`
both choices are reset to `None` before they are compared. -/
def handleMouseClick (s : State) (hit : MouseHit) (draw : Fin 3) : State :=
  match s.currentState with
  | GameState.SelectRounds => handleRoundSelection s hit
  | GameState.Playing => handleChoiceSelection s hit draw
  | GameState.RoundEnd =>
    let s1 := { s with
      currentState := GameState.Playing
      playerChoice := Choice.None
      computerChoice := Choice.None }
    if s1.playerChoice ≠ s1.computerChoice then
      { s1 with currentRound := s1.currentRound + 1 }
    else s1
  | GameState.GameOver =>
    if hit.continueButton then { s with shouldExit := true } else s

/-- The member function `void handleKeyPress(keyEvent)`, entered from
`handleEvents` for every key other than Escape. -/
def handleKeyPress (s : State) (key : Key) (draw : Fin 3) : State :=
  if s.currentState = GameState.Playing ∧ s.playerChoice = Choice.None then
    match key with
    | Key.R => makeChoice s Choice.Rock draw
    | Key.P => makeChoice s Choice.Paper draw
    | Key.S => makeChoice s Choice.Scissors draw
    | _ => s
  else s

/-- The member function `void updateGame()`; `deltaTime` is the time returned
by `gameClock.restart()`. -/
def updateGame (s : State) (deltaTime : Int) : State :=
  match s.currentState with
  | GameState.RoundEnd =>
    let s1 := { s with roundEndTimer := s.roundEndTimer - deltaTime }
    if s1.roundEndTimer ≤ 0 then
      if s1.playerScore ≥ s1.targetScore ∨ s1.computerScore ≥ s1.targetScore then
        { s1 with currentState := GameState.GameOver }
      else
        { s1 with
          currentState := GameState.Playing
          playerChoice := Choice.None
          computerChoice := Choice.None
          currentRound := s1.currentRound + 1 }
    else s1
  | GameState.Playing =>
    if s.resultDisplayTimer > 0 then
      { s with resultDisplayTimer := s.resultDisplayTimer - deltaTime }
    else s
  | _ => s

/-! ### Specification vocabulary and sample sessions -/

/-- The cyclic outcome rule: Rock beats Scissors, Paper beats Rock, Scissors
beats Paper. -/
def beats (a b : Choice) : Prop :=
  (a = Choice.Rock ∧ b = Choice.Scissors) ∨
  (a = Choice.Paper ∧ b = Choice.Rock) ∨
  (a = Choice.Scissors ∧ b = Choice.Paper)

instance (a b : Choice) : Decidable (beats a b) := by
  unfold beats
  infer_instance

/-- A mouse position that lies on no button. -/
def noHit : MouseHit :=
  { roundButtons := fun _ => false, rockButton := false, paperButton := false,
    scissorsButton := false, continueButton := false }

/-- A mouse position on the first round button ("Best of 3"). -/
def bestOfThreeHit : MouseHit :=
  { roundButtons := fun i => decide (i = 0), rockButton := false, paperButton := false,
    scissorsButton := false, continueButton := false }

/-- Session right after construction and a click on "Best of 3": phase
`Playing`, round 1, target score 2. -/
def firstRound : State := handleMouseClick (initial 0 0 0) bestOfThreeHit 0

/-- The player presses R and the computer draws Rock (a draw); one frame of
16667 microseconds passes; then the mouse is clicked. -/
def drawThenClick : State :=
  handleMouseClick (updateGame (handleKeyPress firstRound Key.R 0) 16667) noHit 0

/-- The player presses R and the computer draws Scissors (the player wins the
round); one frame of 16667 microseconds passes; then the mouse is clicked. -/
def winThenClick : State :=
  handleMouseClick (updateGame (handleKeyPress firstRound Key.R 2) 16667) noHit 0

/-- The first round of a best of three with Rock chosen by the player and
Scissors by the computer, before `determineRoundWinner` runs. -/
def rockScissorsRound : State :=
  { firstRound with playerChoice := Choice.Rock, computerChoice := Choice.Scissors }

/-! ### Reachable session states -/

/-- States of a session: the constructor, then any sequence of mouse clicks, key
presses (Escape or another key) and calls of `updateGame`. -/
inductive Reachable : State → Prop
  | init (totalRounds roundEndTimer resultDisplayTimer : Int) :
      Reachable (initial totalRounds roundEndTimer resultDisplayTimer)
  | click (s : State) (hit : MouseHit) (draw : Fin 3) :
      Reachable s → Reachable (handleMouseClick s hit draw)
  | key (s : State) (key : Key) (draw : Fin 3) :
      Reachable s → Reachable (handleKeyPress s key draw)
  | escape (s : State) : Reachable s → Reachable { s with shouldExit := true }
  | tick (s : State) (deltaTime : Int) : Reachable s → Reachable (updateGame s deltaTime)

/-- The phase is `GameOver` only with a tally at the target. -/
def GameOverInv (s : State) : Prop :=
  s.currentState = GameState.GameOver →
    s.playerScore ≥ s.targetScore ∨ s.computerScore ≥ s.targetScore

/-- After `winThenClick`: the player presses R against Scissors again and the
round-end delay of two seconds runs out. -/
def twoWinsThenWait : State :=
  updateGame (handleKeyPress winThenClick Key.R 2) 2000000

/-- After `winThenClick`: the player presses R against Scissors again, one frame
passes, the mouse is clicked, and the player presses R against Scissors a third
time. -/
def threeWins : State :=
  handleKeyPress
    (handleMouseClick (updateGame (handleKeyPress winThenClick Key.R 2) 16667) noHit 0)
    Key.R 2

end RockPaperScissors

/-! ## HighScore.hpp -/

namespace HighScore

/-- The four private fields of `class ScoreEntry`. -/
structure ScoreEntry where
  playerName : String
  score : Int
  difficulty : String
  hasObstacles : Bool
  deriving DecidableEq

/-- State of a `std::ifstream`: the unread characters and the fail bit. -/
structure IStream where
  rest : List Char
  fail : Bool

/-- Whitespace as `std::isspace` sees it in the "C" locale: the space and the
control characters 9 to 13. -/
def isSpace (c : Char) : Bool :=
  c.toNat = 32 || (9 ≤ c.toNat && c.toNat ≤ 13)

/-- Decimal digit test of the number parser. -/
def isDigit (c : Char) : Bool :=
  48 ≤ c.toNat && c.toNat ≤ 57

/-- Extraction `in >> std::string`: skip leading whitespace, then take
characters up to the next whitespace or the end of input; the fail bit is set
when nothing was taken.  A stream that has already failed is left alone. -/
def extractString (s : IStream) : IStream × String :=
  if s.fail then (s, "")
  else
    let cs := s.rest.dropWhile isSpace
    let tok := cs.takeWhile (fun c => !isSpace c)
    let rest := cs.dropWhile (fun c => !isSpace c)
    if tok = [] then ({ rest := rest, fail := true }, "")
    else ({ rest := rest, fail := false }, String.mk tok)

/-- Value of a run of decimal digits. -/
def digitsValue (ds : List Char) : Nat :=
  ds.foldl (fun acc c => 10 * acc + (c.toNat - 48)) 0

/-- The integer field reader behind `>> int` and `>> bool`: skip leading
whitespace, accept an optional sign (`-` is 45, `+` is 43), then one or more
decimal digits.  Returns the remaining input and the value, or `none` when no
digit is found. -/
def extractInteger (cs : List Char) : Option (List Char × Int) :=
  let cs := cs.dropWhile isSpace
  let signed : Bool × List Char :=
    match cs with
    | c :: tl =>
      if c.toNat = 45 then (true, tl) else if c.toNat = 43 then (false, tl) else (false, cs)
    | [] => (false, cs)
  let ds := signed.2.takeWhile isDigit
  let rest := signed.2.dropWhile isDigit
  if ds = [] then none
  else some (rest, if signed.1 then -(digitsValue ds : Int) else (digitsValue ds : Int))

/-- Extraction `in >> int`: the value read must fit a 32-bit `int`, else the
fail bit is set. -/
def extractInt (s : IStream) : IStream × Int :=
  if s.fail then (s, 0)
  else
    match extractInteger s.rest with
    | none => ({ s with fail := true }, 0)
    | some (rest, v) =>
      if -2147483648 ≤ v ∧ v ≤ 2147483647 then ({ rest := rest, fail := false }, v)
      else ({ rest := rest, fail := true }, 0)

/-- Extraction `in >> bool` without `boolalpha`: the field is read as an
integer and only the values 0 and 1 are accepted. -/
def extractBool (s : IStream) : IStream × Bool :=
  if s.fail then (s, false)
  else
    match extractInteger s.rest with
    | none => ({ s with fail := true }, false)
    | some (rest, v) =>
      if v = 0 then ({ rest := rest, fail := false }, false)
      else if v = 1 then ({ rest := rest, fail := false }, true)
      else ({ rest := rest, fail := true }, true)

/-- The friend `operator>>(std::ifstream&, ScoreEntry&)`:
`in >> playerName >> score >> difficulty >> hasObstacles`. -/
def extractEntry (s : IStream) : IStream × ScoreEntry :=
  let r1 := extractString s
  let r2 := extractInt r1.1
  let r3 := extractString r2.1
  let r4 := extractBool r3.1
  (r4.1, { playerName := r1.2, score := r2.2, difficulty := r3.2, hasObstacles := r4.2 })

/-- The loop `while (file >> entry) highScores.push_back(entry)`.  Every
successful extraction consumes input, so `fuel` above the input length is
never exhausted; `none` reports exhausted fuel. -/
def loadLoop : Nat → IStream → List ScoreEntry → Option (List ScoreEntry)
  | 0, _, _ => none
  | fuel + 1, s, highScores =>
    let r := extractEntry s
    if r.1.fail then some highScores
    else loadLoop fuel r.1 (highScores ++ [r.2])

/-- The data members of `class HighScoreManager`: the ledger and its capacity
(a `const int`). -/
structure HighScoreManager where
  highScores : List ScoreEntry
  MAX_SCORES : Int
  deriving DecidableEq

/-- The member function `void loadScores()`; `file` is the content of the file
named `filename`, `none` when it cannot be opened. -/
def loadScores (m : HighScoreManager) (file : Option String) : Option HighScoreManager :=
  match file with
  | none => some m
  | some text =>
    (loadLoop (text.data.length + 1) { rest := text.data, fail := false } m.highScores).map
      fun hs => { m with highScores := hs }

/-- The constructor `HighScoreManager(file, maxScores)`: an empty ledger, then
`loadScores()`. -/
def HighScoreManager.new (file : Option String) (maxScores : Int) : Option HighScoreManager :=
  loadScores { highScores := [], MAX_SCORES := maxScores } file

/-- Conversion of an `int` to the 64-bit `size_t` in a mixed comparison. -/
def toSizeT (n : Int) : Nat := (n % 2 ^ 64).toNat

/-- The member function `bool isHighScore(int score) const`; `none` stands for
`back()` on an empty vector. -/
def isHighScore (m : HighScoreManager) (score : Int) : Option Bool :=
  if m.highScores.length < toSizeT m.MAX_SCORES then some true
  else
    match m.highScores.getLast? with
    | some last => some (decide (score > last.score))
    | none => none

/-- Comparator of the `std::sort` call in `addScore`, read as "`a` may stand
before `b`": the score of `a` is not below the score of `b`. -/
def scoreDesc (a b : ScoreEntry) : Prop := b.score ≤ a.score

instance : DecidableRel scoreDesc := fun a b => inferInstanceAs (Decidable (b.score ≤ a.score))

instance : IsTotal ScoreEntry scoreDesc := ⟨fun a b => le_total b.score a.score⟩

instance : IsTrans ScoreEntry scoreDesc := ⟨fun _ _ _ hab hbc => le_trans hbc hab⟩

/-- Decimal digits of `n`, most significant first, pushed in front of `acc`;
`fuel` above the number of digits is never exhausted. -/
def natDigits : Nat → Nat → List Char → List Char
  | 0, _, acc => acc
  | fuel + 1, n, acc =>
    let acc1 := Char.ofNat (48 + n % 10) :: acc
    if n / 10 = 0 then acc1 else natDigits fuel (n / 10) acc1

/-- Decimal text of an `int`, as `out << score` prints it. -/
def intText (n : Int) : String :=
  if n < 0 then String.mk (Char.ofNat 45 :: natDigits (n.natAbs + 1) n.natAbs [])
  else String.mk (natDigits (n.natAbs + 1) n.natAbs [])

/-- The friend `operator<<(std::ofstream&, const ScoreEntry&)`. -/
def entryText (e : ScoreEntry) : String :=
  e.playerName ++ " " ++ intText e.score ++ " " ++ e.difficulty ++ " " ++
    (if e.hasObstacles then "1" else "0")

/-- The member function `void saveScores()`: the text written to the file, one
record per line. -/
def saveScores (m : HighScoreManager) : String :=
  m.highScores.foldl (fun out e => out ++ entryText e ++ "\n") ""

/-- The member function `void addScore(name, score, diff, obs)`: returns the
new ledger and the text `saveScores` writes.  The call of `std::sort` is
modelled by a stable insertion sort; the order it gives to entries of equal
score is one of those `std::sort` may produce. -/
def addScore (m : HighScoreManager) (name : String) (score : Int) (diff : String)
    (obs : Bool) : HighScoreManager × String :=
  let pushed := m.highScores ++ [ScoreEntry.mk name score diff obs]
  let sorted := pushed.insertionSort scoreDesc
  let kept :=
    if sorted.length > toSizeT m.MAX_SCORES then sorted.take m.MAX_SCORES.toNat else sorted
  let m1 := { m with highScores := kept }
  (m1, saveScores m1)

/-! ### Specification vocabulary and a sample file -/

/-- The value `x` is the lowest score among the entries of `l`. -/
def isLowestScore (l : List ScoreEntry) (x : Int) : Prop :=
  (∃ e, e ∈ l ∧ e.score = x) ∧ ∀ e, e ∈ l → x ≤ e.score

/-- The ledger holds fewer than `MAX_SCORES` entries, or `score` is strictly
greater than the lowest score among its entries. -/
def qualifies (m : HighScoreManager) (score : Int) : Prop :=
  (m.highScores.length : Int) < m.MAX_SCORES ∨
    ∃ lowest, isLowestScore m.highScores lowest ∧ lowest < score

/-- A two-record file whose records are in ascending order of score. -/
def ascendingFile : String := "a 5 Easy 0\nb 10 Easy 0\n"

/-- The ledger read from `ascendingFile` with capacity 2. -/
def ascendingLedger : HighScoreManager :=
  { highScores := [ScoreEntry.mk "a" 5 "Easy" false, ScoreEntry.mk "b" 10 "Easy" false]
    MAX_SCORES := 2 }

/-- A full ledger of capacity 2 in descending order of score. -/
def descendingLedger : HighScoreManager :=
  { highScores := [ScoreEntry.mk "b" 10 "Easy" false, ScoreEntry.mk "a" 5 "Easy" false]
    MAX_SCORES := 2 }

/-! ### Sequences of calls, top scores and well-formed files -/

/-- A sequence of `addScore` calls, one entry per call, made in list order. -/
def addScores (m : HighScoreManager) : List ScoreEntry → HighScoreManager
  | [] => m
  | e :: es => addScores (addScore m e.playerName e.score e.difficulty e.hasObstacles).1 es

/-- Multiset of the scores of a list of entries. -/
def scoresOf (l : List ScoreEntry) : Multiset Int := (l.map fun e => e.score : List Int)

/-- The multiset `kept` consists of the `k` largest members of `all` (of all of
them when `all` has fewer than `k`): it is contained in `all`, has
`min k |all|` members, and no member left out exceeds a member kept. -/
def isTopScores (k : Nat) (all kept : Multiset Int) : Prop :=
  kept ≤ all ∧ Multiset.card kept = min k (Multiset.card all) ∧
    ∀ x, x ∈ all - kept → ∀ y, y ∈ kept → x ≤ y

/-- The unread input is at a token boundary: it is empty or starts with a
whitespace character. -/
def delimited (r : List Char) : Prop :=
  ∀ c, r.head? = some c → isSpace c = true

/-- A run of whitespace characters (possibly empty). -/
def isBlank (w : List Char) : Prop :=
  ∀ c, c ∈ w → isSpace c = true

/-- A whitespace-delimited token: non-empty, no whitespace character. -/
def isToken (t : List Char) : Prop :=
  t ≠ [] ∧ ∀ c, c ∈ t → isSpace c = false

/-- The token `t` is the decimal text of the integer `v`: an optional sign
(`+` is 43, `-` is 45) followed by one or more digits, with `v` in the range
of a 32-bit `int`. -/
def isIntToken (t : List Char) (v : Int) : Prop :=
  ∃ ds, ds ≠ [] ∧ (∀ c, c ∈ ds → isDigit c = true) ∧
    ((t = ds ∧ v = (digitsValue ds : Int)) ∨
     (t = Char.ofNat 43 :: ds ∧ v = (digitsValue ds : Int)) ∨
     (t = Char.ofNat 45 :: ds ∧ v = -(digitsValue ds : Int))) ∧
    -2147483648 ≤ v ∧ v ≤ 2147483647

/-- The flag token: the single character `1` (49) for true, `0` (48) for false. -/
def isFlagToken (t : List Char) (b : Bool) : Prop :=
  t = [Char.ofNat (if b then 49 else 48)]

/-- The text `txt` is one well-formed record for the entry `e`: name token,
integer score, difficulty token and flag, separated by non-empty whitespace,
after optional leading whitespace. -/
def isRecord (txt : List Char) (e : ScoreEntry) : Prop :=
  ∃ w0 name w1 st w2 diff w3 ft,
    txt = w0 ++ (name ++ (w1 ++ (st ++ (w2 ++ (diff ++ (w3 ++ ft)))))) ∧
    isBlank w0 ∧ isToken name ∧ e.playerName = String.mk name ∧
    isBlank w1 ∧ w1 ≠ [] ∧ isIntToken st e.score ∧
    isBlank w2 ∧ w2 ≠ [] ∧ isToken diff ∧ e.difficulty = String.mk diff ∧
    isBlank w3 ∧ w3 ≠ [] ∧ isFlagToken ft e.hasObstacles

/-- The text `txt` consists of well-formed records for the entries of the
list, in order, each one ending at a token boundary, followed by `rest`. -/
def holdsRecords : List ScoreEntry → List Char → List Char → Prop
  | [], txt, rest => txt = rest
  | e :: es, txt, rest =>
    ∃ r tail, txt = r ++ tail ∧ isRecord r e ∧ delimited tail ∧ holdsRecords es tail rest

/-- The text `saveScores` writes for a list of entries: each record followed by
a line feed. -/
def savedText : List ScoreEntry → List Char
  | [] => []
  | e :: es => (entryText e).data ++ (Char.ofNat 10 :: savedText es)

/-- The entry can be written as one whitespace-delimited record: its name and
its difficulty label are non-empty and free of whitespace, and its score is in
the range of a 32-bit `int`. -/
def writable (e : ScoreEntry) : Prop :=
  isToken e.playerName.data ∧ isToken e.difficulty.data ∧
    -2147483648 ≤ e.score ∧ e.score ≤ 2147483647

/-- The ledger of capacity 10 holding the single entry named `A B`. -/
def spacedLedger : HighScoreManager :=
  (addScore { highScores := [], MAX_SCORES := 10 } "A B" 10 "Easy" false).1

/-- Two further entries, with scores 7 and 1. -/
def twoCalls : List ScoreEntry :=
  [ScoreEntry.mk "c" 7 "Hard" true, ScoreEntry.mk "d" 1 "Easy" false]

/-- A file with one well-formed record followed by a record whose score is not
a number, and by a further well-formed record. -/
def brokenFile : String := "a 5 Easy 0\nb x Easy 1\nc 7 Hard 1\n"

/-- The part of `brokenFile` after its first record. -/
def brokenRest : List Char := "\nb x Easy 1\nc 7 Hard 1\n".data

end HighScore

/-! ## SnakeGame.hpp -/

namespace SnakeGame

/-! ### Name entry -/

/-- Events polled by the name-entry loop of `getPlayerName`: a `TextEntered`
event with its `text.unicode` value, a `Closed` event, or any other event. -/
inductive NameEvent
  | TextEntered (unicode : Nat)
  | Closed
  | Other
  deriving DecidableEq

/-- The member function `std::string getPlayerName()`, run on the events the
window delivers, in order, starting from the name typed so far.  The result is
`none` while the loop is still waiting for an event that ends it. -/
def getPlayerNameLoop : List NameEvent → List Char → Option String
  | [], _ => none
  | NameEvent.TextEntered unicode :: rest, name =>
    if unicode = 13 ∨ unicode = 10 then
      some (if name ≠ [] then String.mk name else "Player")
    else if unicode = 8 then
      getPlayerNameLoop rest (if name ≠ [] then name.dropLast else name)
    else if name.length < 15 ∧ unicode ≥ 32 ∧ unicode < 127 then
      getPlayerNameLoop rest (name ++ [Char.ofNat unicode])
    else getPlayerNameLoop rest name
  | NameEvent.Closed :: _, _ => some "Player"
  | NameEvent.Other :: rest, name => getPlayerNameLoop rest name

/-- The call `getPlayerName()`: the loop started with the empty name. -/
def getPlayerName (events : List NameEvent) : Option String :=
  getPlayerNameLoop events []

/-- The event ends name entry: Enter (carriage return 13 or line feed 10) or
the closing of the window. -/
def endsEntry (ev : NameEvent) : Prop :=
  ev = NameEvent.Closed ∨ ev = NameEvent.TextEntered 13 ∨ ev = NameEvent.TextEntered 10

/-- The keys `A`, space, `B`, Enter. -/
def typedAB : List NameEvent :=
  [NameEvent.TextEntered 65, NameEvent.TextEntered 32, NameEvent.TextEntered 66,
   NameEvent.TextEntered 13]

/-- Validity of a name under construction: at most 15 characters, each with a
code from 32 to 126. -/
def nameOk (name : List Char) : Prop :=
  name.length ≤ 15 ∧ ∀ c, c ∈ name → 32 ≤ c.toNat ∧ c.toNat < 127

/-! ### Movement -/

/-- A position or displacement `sf::Vector2f`.  Every coordinate the game
computes is a whole number of pixels, held exactly by a `float`. -/
structure Vec where
  x : Int
  y : Int
  deriving DecidableEq

/-- Component-wise sum, `operator+` of `sf::Vector2f`. -/
def Vec.add (a b : Vec) : Vec := { x := a.x + b.x, y := a.y + b.y }

/-- Speed setting: `enum class Difficulty { EASY = 0, MEDIUM, HARD }`. -/
inductive Difficulty
  | EASY
  | MEDIUM
  | HARD
  deriving DecidableEq

/-- Game-state members of the class.  An obstacle is kept as the position of
its rectangle.  The two timers are `float` seconds in the source, fed from
`sf::Clock` whose time is a whole number of microseconds; they are kept here in
microseconds.  The fields `windowWidth` and `windowHeight` stand for
`window.getSize()`, and `drawCount` counts the pairs drawn from the random
generators so far: pair number `k` is `rand k` for the random source `rand`
passed to the functions below. -/
structure State where
  snake : List Vec
  obstacles : List Vec
  food : Vec
  direction : Vec
  gridSize : Int
  moveTimer : Int
  moveInterval : Int
  gameOver : Bool
  showingHighScores : Bool
  gameStarted : Bool
  score : Int
  speedDifficulty : Difficulty
  hasObstacles : Bool
  windowWidth : Nat
  windowHeight : Nat
  drawCount : Nat

/-- The constant `SPEED_EASY = 0.15f` seconds. -/
def SPEED_EASY : Int := 150000

/-- The constant `SPEED_MEDIUM = 0.08f` seconds. -/
def SPEED_MEDIUM : Int := 80000

/-- The constant `SPEED_HARD = 0.05f` seconds. -/
def SPEED_HARD : Int := 50000

/-- The test `obstacle.getGlobalBounds().contains(p)` for the obstacle
rectangle of size `gridSize - 1` placed at `pos`. -/
def obstacleContains (gridSize : Int) (pos p : Vec) : Bool :=
  pos.x ≤ p.x && p.x < pos.x + (gridSize - 1) && pos.y ≤ p.y && p.y < pos.y + (gridSize - 1)

/-- The member function `void spawnFood()`: draw grid positions until one is
neither on the snake nor inside an obstacle.  The loop need not end; `fuel`
bounds the number of draws and `none` reports exhausted fuel. -/
def spawnFood (rand : Nat → Nat × Nat) : Nat → State → Option State
  | 0, _ => none
  | fuel + 1, s =>
    let draw := rand s.drawCount
    let food : Vec :=
      { x := ((draw.1 % (s.windowWidth / s.gridSize.toNat) : Nat) : Int) * s.gridSize
        y := ((draw.2 % (s.windowHeight / s.gridSize.toNat) : Nat) : Int) * s.gridSize }
    let s1 := { s with food := food, drawCount := s.drawCount + 1 }
    let validPosition :=
      !(s1.snake.any fun segment => food = segment) &&
      !(s1.obstacles.any fun obstacle => obstacleContains s1.gridSize obstacle food)
    if validPosition then some s1 else spawnFood rand fuel s1

/-- The member function `void update(float deltaTime)`.  The result is `none`
when `snake[0]` is read from an empty body or when `spawnFood` runs out of
fuel. -/
def update (rand : Nat → Nat × Nat) (fuel : Nat) (s : State) (deltaTime : Int) :
    Option State :=
  if s.gameOver then some s
  else
    let s1 := { s with moveTimer := s.moveTimer + deltaTime }
    if s1.moveTimer ≥ s1.moveInterval then
      let s2 := { s1 with moveTimer := 0 }
      match s2.snake with
      | [] => none
      | head :: body =>
        let newHead := head.add s2.direction
        if newHead.x < 0 ∨ newHead.x ≥ (s2.windowWidth : Int) ∨
            newHead.y < 0 ∨ newHead.y ≥ (s2.windowHeight : Int) then
          some { s2 with gameOver := true }
        else if body.any fun segment => newHead = segment then
          some { s2 with gameOver := true }
        else if s2.obstacles.any fun obstacle =>
            obstacleContains s2.gridSize obstacle newHead then
          some { s2 with gameOver := true }
        else
          let s3 := { s2 with snake := newHead :: s2.snake }
          if newHead = s3.food then
            spawnFood rand fuel { s3 with score := s3.score + 10 }
          else
            some { s3 with snake := s3.snake.dropLast }
    else some s1

/-- Key codes told apart by `handleEvents`. -/
inductive Key
  | Up
  | Down
  | Left
  | Right
  | Escape
  | Space
  | Other
  deriving DecidableEq

/-- Events polled by `handleEvents`. -/
inductive Event
  | Closed
  | KeyPressed (code : Key)
  | Other
  deriving DecidableEq

/-- The `switch (event.key.code)` of `handleEvents`: an arrow key turns the
snake when the tested component of the direction is zero. -/
def steer (s : State) (code : Key) : State :=
  match code with
  | Key.Up =>
    if s.direction.y = 0 then { s with direction := { x := 0, y := -s.gridSize } } else s
  | Key.Down =>
    if s.direction.y = 0 then { s with direction := { x := 0, y := s.gridSize } } else s
  | Key.Left =>
    if s.direction.x = 0 then { s with direction := { x := -s.gridSize, y := 0 } } else s
  | Key.Right =>
    if s.direction.x = 0 then { s with direction := { x := s.gridSize, y := 0 } } else s
  | _ => s

/-- The member function `bool handleEvents()` on the queued events, in order;
the Boolean is its return value (false leaves the game). -/
def handleEvents : List Event → State → State × Bool
  | [], s => (s, true)
  | Event.Closed :: _, s => (s, false)
  | Event.KeyPressed code :: rest, s =>
    if code = Key.Escape then (s, false)
    else if s.showingHighScores = true ∧ code = Key.Space then (s, false)
    else if s.gameStarted = true ∧ s.gameOver = false ∧ s.showingHighScores = false then
      handleEvents rest (steer s code)
    else handleEvents rest s
  | Event.Other :: rest, s => handleEvents rest s

/-! ### Specification vocabulary and sample states -/

/-- The point lies outside the window rectangle `[0, width) x [0, height)`. -/
def outsideWindow (s : State) (p : Vec) : Prop :=
  p.x < 0 ∨ (s.windowWidth : Int) ≤ p.x ∨ p.y < 0 ∨ (s.windowHeight : Int) ≤ p.y

/-- One of the four axis-aligned vectors of length `g`. -/
def axisAligned (g : Int) (d : Vec) : Prop :=
  d = { x := g, y := 0 } ∨ d = { x := -g, y := 0 } ∨ d = { x := 0, y := g } ∨
    d = { x := 0, y := -g }

/-- The exact opposite of a direction. -/
def Vec.neg (d : Vec) : Vec := { x := -d.x, y := -d.y }

/-- The key is one of the four arrow keys. -/
def isArrow (code : Key) : Prop :=
  code = Key.Up ∨ code = Key.Down ∨ code = Key.Left ∨ code = Key.Right

/-- The key asks for a move along the axis of the direction `d`: Up or Down
while travelling vertically, Left or Right while travelling horizontally. -/
def alongAxis (code : Key) (d : Vec) : Prop :=
  ((code = Key.Up ∨ code = Key.Down) ∧ d.x = 0 ∧ d.y ≠ 0) ∨
  ((code = Key.Left ∨ code = Key.Right) ∧ d.y = 0 ∧ d.x ≠ 0)

/-- A running game in an 800 x 600 window: the snake of three segments heads
left from `(0, 300)`, so that its next move leaves the window. -/
def atLeftWall : State :=
  { snake := [Vec.mk 0 300, Vec.mk 20 300, Vec.mk 40 300]
    obstacles := []
    food := Vec.mk 200 200
    direction := Vec.mk (-20) 0
    gridSize := 20
    moveTimer := 140000
    moveInterval := SPEED_EASY
    gameOver := false
    showingHighScores := false
    gameStarted := true
    score := 30
    speedDifficulty := Difficulty.EASY
    hasObstacles := false
    windowWidth := 800
    windowHeight := 600
    drawCount := 0 }

/-! ### Game setup and reachable states -/

/-- The `do ... while (!validPosition)` loop of `createObstacles` for one
obstacle: draw positions until one is not a snake segment, not the food and not
the position of an existing obstacle, then append the obstacle.  The loop need
not end; `fuel` bounds the number of draws and `none` reports exhausted fuel. -/
def placeObstacle (rand : Nat → Nat × Nat) : Nat → State → Option State
  | 0, _ => none
  | fuel + 1, s =>
    let draw := rand s.drawCount
    let obstaclePos : Vec :=
      { x := ((2 + draw.1 % (s.windowWidth / s.gridSize.toNat - 4) : Nat) : Int) * s.gridSize
        y := ((2 + draw.2 % (s.windowHeight / s.gridSize.toNat - 4) : Nat) : Int) * s.gridSize }
    let s1 := { s with drawCount := s.drawCount + 1 }
    let validPosition :=
      !(s1.snake.any fun segment => obstaclePos = segment) &&
      !(obstaclePos = s1.food) &&
      !(s1.obstacles.any fun existing => existing = obstaclePos)
    if validPosition then some { s1 with obstacles := s1.obstacles ++ [obstaclePos] }
    else placeObstacle rand fuel s1

/-- The `for` loop of `createObstacles` with `count` obstacles still to add. -/
def createObstaclesLoop (rand : Nat → Nat × Nat) (fuel : Nat) : Nat → State → Option State
  | 0, s => some s
  | count + 1, s => (placeObstacle rand fuel s).bind (createObstaclesLoop rand fuel count)

/-- The member function `void createObstacles()`: eight obstacles. -/
def createObstacles (rand : Nat → Nat × Nat) (fuel : Nat) (s : State) : Option State :=
  createObstaclesLoop rand fuel 8 s

/-- The member function `void setupGame()`. -/
def setupGame (rand : Nat → Nat × Nat) (fuel : Nat) (s : State) : Option State :=
  let s1 := { s with
    snake := [Vec.mk 400 300, Vec.mk (400 + 1 * s.gridSize) 300,
      Vec.mk (400 + 2 * s.gridSize) 300]
    direction := Vec.mk (-s.gridSize) 0
    score := 0
    gameOver := false
    showingHighScores := false }
  let s2 := { s1 with
    moveInterval :=
      match s1.speedDifficulty with
      | Difficulty.EASY => SPEED_EASY
      | Difficulty.MEDIUM => SPEED_MEDIUM
      | Difficulty.HARD => SPEED_HARD }
  let s3 := { s2 with obstacles := [] }
  (if s3.hasObstacles then createObstacles rand fuel s3 else some s3).bind (spawnFood rand fuel)

/-- The member function `void handleGameOver()`; `isHigh` is the answer of
`highScoreManager.isHighScore(score)`. -/
def handleGameOver (s : State) (isHigh : Bool) : State :=
  if s.gameOver = true ∧ s.showingHighScores = false then
    if isHigh then { s with showingHighScores := true } else s
  else s

/-- States of a running game: `setupGame` on an object whose `gridSize` is the
20 set by the constructor, followed by `gameStarted = true`, then any sequence
of `handleEvents`, `update` and `handleGameOver` calls. -/
inductive Reachable : State → Prop
  | start (rand : Nat → Nat × Nat) (fuel : Nat) (s0 s : State) (hgrid : s0.gridSize = 20)
      (h : setupGame rand fuel s0 = some s) : Reachable { s with gameStarted := true }
  | events (evs : List Event) (s : State) : Reachable s → Reachable (handleEvents evs s).1
  | tick (rand : Nat → Nat × Nat) (fuel : Nat) (s s' : State) (deltaTime : Int) :
      Reachable s → update rand fuel s deltaTime = some s' → Reachable s'
  | over (s : State) (isHigh : Bool) : Reachable s → Reachable (handleGameOver s isHigh)

/-- Facts kept by every call: the cell size, a pending direction of one cell
along an axis, a body without repeated positions, and the score matching the
number of segments beyond the first three. -/
def Inv (s : State) : Prop :=
  s.gridSize = 20 ∧ axisAligned 20 s.direction ∧ s.snake.Nodup ∧ 3 ≤ s.snake.length ∧
    s.score = 10 * ((s.snake.length : Int) - 3)

/-- The object as the constructor's member initialisers leave it, in an
800 x 600 window, with the speed and obstacle settings chosen in
`selectDifficulty`. -/
def constructed (speed : Difficulty) (obstacles : Bool) : State :=
  { snake := []
    obstacles := []
    food := Vec.mk 0 0
    direction := Vec.mk 0 0
    gridSize := 20
    moveTimer := 0
    moveInterval := 0
    gameOver := false
    showingHighScores := false
    gameStarted := false
    score := 0
    speedDifficulty := speed
    hasObstacles := obstacles
    windowWidth := 800
    windowHeight := 600
    drawCount := 0 }

/-- A random source whose first pair puts the food at `(380, 300)` and every
later pair at `(100, 100)`. -/
def foodAhead (k : Nat) : Nat × Nat := if k = 0 then (19, 15) else (5, 5)

/-- The game right after `run` has started it on easy speed without obstacles:
snake `(400,300), (420,300), (440,300)` heading left, food at `(380, 300)`. -/
def freshGame : State :=
  { snake := [Vec.mk 400 300, Vec.mk 420 300, Vec.mk 440 300]
    obstacles := []
    food := Vec.mk 380 300
    direction := Vec.mk (-20) 0
    gridSize := 20
    moveTimer := 0
    moveInterval := SPEED_EASY
    gameOver := false
    showingHighScores := false
    gameStarted := true
    score := 0
    speedDifficulty := Difficulty.EASY
    hasObstacles := false
    windowWidth := 800
    windowHeight := 600
    drawCount := 1 }

/-- The fresh game after the key presses Up and Right, polled by one call of
`handleEvents` before the first move. -/
def upThenRight : State :=
  (handleEvents [Event.KeyPressed Key.Up, Event.KeyPressed Key.Right] freshGame).1

/-- The fresh game after one move, which eats the food at `(380, 300)`. -/
def afterMeal : State :=
  { freshGame with
    snake := [Vec.mk 380 300, Vec.mk 400 300, Vec.mk 420 300, Vec.mk 440 300]
    food := Vec.mk 100 100
    score := 10
    drawCount := 2 }

/-- The test of `spawnFood` on one drawn pair: the position it gives is neither
a snake segment nor inside an obstacle. -/
def foodValid (s : State) (draw : Nat × Nat) : Bool :=
  let food : Vec :=
    { x := ((draw.1 % (s.windowWidth / s.gridSize.toNat) : Nat) : Int) * s.gridSize
      y := ((draw.2 % (s.windowHeight / s.gridSize.toNat) : Nat) : Int) * s.gridSize }
  !(s.snake.any fun segment => food = segment) &&
    !(s.obstacles.any fun obstacle => obstacleContains s.gridSize obstacle food)

end SnakeGame

/-! # Theorems -/

/-! ## ConnectFour: win detection -/

namespace ConnectFour

theorem exists_lt_four (P : Nat → Prop) :
    (∃ c, c + 3 < 7 ∧ P c) ↔ P 0 ∨ P 1 ∨ P 2 ∨ P 3 := by
  constructor
  · rintro ⟨c, hc, h⟩
    have : c = 0 ∨ c = 1 ∨ c = 2 ∨ c = 3 := by omega
    rcases this with rfl | rfl | rfl | rfl <;> simp [h]
  · rintro (h | h | h | h)
    exacts [⟨0, by omega, h⟩, ⟨1, by omega, h⟩, ⟨2, by omega, h⟩, ⟨3, by omega, h⟩]

theorem exists_lt_three (P : Nat → Prop) :
    (∃ c, c + 3 < 6 ∧ P c) ↔ P 0 ∨ P 1 ∨ P 2 := by
  constructor
  · rintro ⟨c, hc, h⟩
    have : c = 0 ∨ c = 1 ∨ c = 2 := by omega
    rcases this with rfl | rfl | rfl <;> simp [h]
  · rintro (h | h | h)
    exacts [⟨0, by omega, h⟩, ⟨1, by omega, h⟩, ⟨2, by omega, h⟩]

theorem forall_lt_four (P : Nat → Prop) :
    (∀ i, i < 4 → P i) ↔ P 0 ∧ P 1 ∧ P 2 ∧ P 3 := by
  constructor
  · intro h
    exact ⟨h 0 (by omega), h 1 (by omega), h 2 (by omega), h 3 (by omega)⟩
  · rintro ⟨h0, h1, h2, h3⟩ i hi
    have : i = 0 ∨ i = 1 ∨ i = 2 ∨ i = 3 := by omega
    rcases this with rfl | rfl | rfl | rfl <;> assumption

theorem countLoop_seven (p : Player) (x0 x1 x2 x3 x4 x5 x6 : Option Player) :
    countLoop p [x0, x1, x2, x3, x4, x5, x6] 0 = true ↔
      (x0 = some p ∧ x1 = some p ∧ x2 = some p ∧ x3 = some p) ∨
      (x1 = some p ∧ x2 = some p ∧ x3 = some p ∧ x4 = some p) ∨
      (x2 = some p ∧ x3 = some p ∧ x4 = some p ∧ x5 = some p) ∨
      (x3 = some p ∧ x4 = some p ∧ x5 = some p ∧ x6 = some p) := by
  by_cases h0 : x0 = some p <;> by_cases h1 : x1 = some p <;>
  by_cases h2 : x2 = some p <;> by_cases h3 : x3 = some p <;>
  by_cases h4 : x4 = some p <;> by_cases h5 : x5 = some p <;>
  by_cases h6 : x6 = some p <;>
  simp [countLoop, h0, h1, h2, h3, h4, h5, h6]

theorem countLoop_six (p : Player) (x0 x1 x2 x3 x4 x5 : Option Player) :
    countLoop p [x0, x1, x2, x3, x4, x5] 0 = true ↔
      (x0 = some p ∧ x1 = some p ∧ x2 = some p ∧ x3 = some p) ∨
      (x1 = some p ∧ x2 = some p ∧ x3 = some p ∧ x4 = some p) ∨
      (x2 = some p ∧ x3 = some p ∧ x4 = some p ∧ x5 = some p) := by
  by_cases h0 : x0 = some p <;> by_cases h1 : x1 = some p <;>
  by_cases h2 : x2 = some p <;> by_cases h3 : x3 = some p <;>
  by_cases h4 : x4 = some p <;> by_cases h5 : x5 = some p <;>
  simp [countLoop, h0, h1, h2, h3, h4, h5]

theorem rowCells_eq (g : Grid) (row : Nat) :
    rowCells g row = [cell? g row 0, cell? g row 1, cell? g row 2, cell? g row 3,
      cell? g row 4, cell? g row 5, cell? g row 6] := by
  simp [rowCells, COLS, List.range, List.range.loop]

theorem colCells_eq (g : Grid) (col : Nat) :
    colCells g col = [cell? g 0 col, cell? g 1 col, cell? g 2 col, cell? g 3 col,
      cell? g 4 col, cell? g 5 col] := by
  simp [colCells, ROWS, List.range, List.range.loop]

theorem rowLoop_iff (g : Grid) (p : Player) (row : Nat) :
    countLoop p (rowCells g row) 0 = true ↔ rowWindow g p row := by
  rw [rowCells_eq, countLoop_seven, rowWindow, exists_lt_four]
  simp only [forall_lt_four, Nat.add_zero, Nat.zero_add]

theorem colLoop_iff (g : Grid) (p : Player) (col : Nat) :
    countLoop p (colCells g col) 0 = true ↔ colWindow g p col := by
  rw [colCells_eq, countLoop_six, colWindow, exists_lt_three]
  simp only [forall_lt_four, Nat.add_zero, Nat.zero_add]

theorem diagDownLoop_iff (g : Grid) (p : Player) :
    diagDownLoop g p = true ↔ diagDownWindow g p := by
  simp only [diagDownLoop, diagDownWindow, ROWS, COLS, List.any_eq_true, List.mem_range,
    Bool.and_eq_true, decide_eq_true_eq, forall_lt_four, Nat.add_zero]
  constructor
  · rintro ⟨r, hr, c, hc, ⟨⟨h0, h1⟩, h2⟩, h3⟩
    exact ⟨r, c, by omega, by omega, h0, h1, h2, h3⟩
  · rintro ⟨r, c, hr, hc, h0, h1, h2, h3⟩
    exact ⟨r, by omega, c, by omega, ⟨⟨h0, h1⟩, h2⟩, h3⟩

theorem diagUpLoop_iff (g : Grid) (p : Player) :
    diagUpLoop g p = true ↔ diagUpWindow g p := by
  simp only [diagUpLoop, diagUpWindow, ROWS, COLS, List.any_eq_true, List.mem_range,
    List.mem_filter, Bool.and_eq_true, decide_eq_true_eq, forall_lt_four, Nat.add_zero,
    Nat.sub_zero]
  constructor
  · rintro ⟨r, ⟨hr, hr3⟩, c, hc, ⟨⟨h0, h1⟩, h2⟩, h3⟩
    exact ⟨r, c, hr3, hr, by omega, h0, h1, h2, h3⟩
  · rintro ⟨r, c, hr3, hr, hc, h0, h1, h2, h3⟩
    exact ⟨r, ⟨hr, hr3⟩, c, by omega, ⟨⟨h0, h1⟩, h2⟩, h3⟩

/-- The scan of `checkWin` succeeds exactly when one of the four kinds of
window of four is owned by the current player. -/
theorem checkWin_windows (g : Grid) (p : Player) (row : Fin 6) (col : Fin 7) :
    checkWin g p row col = true ↔
      rowWindow g p row ∨ colWindow g p col ∨ diagDownWindow g p ∨ diagUpWindow g p := by
  rw [← rowLoop_iff, ← colLoop_iff, ← diagDownLoop_iff, ← diagUpLoop_iff]
  unfold checkWin
  cases countLoop p (rowCells g row) 0 <;> cases countLoop p (colCells g col) 0 <;>
    cases diagDownLoop g p <;> cases diagUpLoop g p <;> simp

theorem cell?_bounds {g : Grid} {r c : Nat} {p : Player} (h : cell? g r c = some p) :
    r < 6 ∧ c < 7 := by
  unfold cell? at h
  by_cases hb : r < 6 ∧ c < 7
  · exact hb
  · rw [dif_neg hb] at h
    exact Option.noConfusion h

theorem lastMoveRun_iff (g : Grid) (p : Player) (row col : Nat) :
    lastMoveRun g p row col ↔
      rowWindow g p row ∨ colWindow g p col ∨ diagDownWindow g p ∨ diagUpWindow g p := by
  constructor
  · rintro ⟨k, hk, r0, c0, h | h | h | h⟩
    · left
      have hb := cell?_bounds (h 3 (by omega))
      exact ⟨c0, hb.2, fun i hi => h i (by omega)⟩
    · right; left
      have hb := cell?_bounds (h 3 (by omega))
      exact ⟨r0, hb.1, fun i hi => h i (by omega)⟩
    · right; right; left
      have hb := cell?_bounds (h 3 (by omega))
      exact ⟨r0, c0, hb.1, hb.2, fun i hi => h i (by omega)⟩
    · right; right; right
      have h3 := h 3 (by omega)
      have h0 := h 0 (by omega)
      have hb := cell?_bounds h3.2
      have hb0 := cell?_bounds h0.2
      exact ⟨r0, c0, h3.1, by omega, hb.2, fun i hi => (h i (by omega)).2⟩
  · rintro (⟨c0, _, h⟩ | ⟨r0, _, h⟩ | ⟨r0, c0, _, _, h⟩ | ⟨r0, c0, h3, _, _, h⟩)
    · exact ⟨4, le_refl 4, 0, c0, Or.inl h⟩
    · exact ⟨4, le_refl 4, r0, 0, Or.inr (Or.inl h)⟩
    · exact ⟨4, le_refl 4, r0, c0, Or.inr (Or.inr (Or.inl h))⟩
    · exact ⟨4, le_refl 4, r0, c0, Or.inr (Or.inr (Or.inr fun i hi => ⟨by omega, h i hi⟩))⟩

theorem lastMoveRun_boardHasRun {g : Grid} {p : Player} {row col : Nat}
    (h : lastMoveRun g p row col) : boardHasRun g p := by
  obtain ⟨k, hk, r0, c0, h | h | h | h⟩ := h
  · exact ⟨k, hk, row, c0, Or.inl h⟩
  · exact ⟨k, hk, r0, col, Or.inr (Or.inl h)⟩
  · exact ⟨k, hk, r0, c0, Or.inr (Or.inr (Or.inl h))⟩
  · exact ⟨k, hk, r0, c0, Or.inr (Or.inr (Or.inr h))⟩

theorem emptyGrid_no_run (p : Player) (hp : p ≠ Player.None) : ¬ boardHasRun emptyGrid p := by
  have hcell : ∀ r c, cell? emptyGrid r c ≠ some p := by
    intro r c h
    unfold cell? at h
    by_cases hb : r < 6 ∧ c < 7
    · rw [dif_pos hb] at h
      exact hp (Option.some.inj h).symm
    · rw [dif_neg hb] at h
      exact Option.noConfusion h
  rintro ⟨k, hk, r0, c0, h | h | h | h⟩
  · exact hcell _ _ (h 0 (by omega))
  · exact hcell _ _ (h 0 (by omega))
  · exact hcell _ _ (h 0 (by omega))
  · exact hcell _ _ (h 0 (by omega)).2

/-- C1. Exact characterisation of `ConnectFour::checkWin`: for every grid, every
current player `p` and every in-range `(row, col)`, `checkWin(row, col)` is
true if and only if row `row` holds four horizontally consecutive cells of
`p`, or column `col` holds four vertically consecutive cells of `p`, or some
diagonal window of four cells anywhere on the board (down-right or up-right)
is owned by `p`. -/
theorem checkWin_exact_characterisation (g : Grid) (p : Player) (row : Fin 6) (col : Fin 7) :
    checkWin g p row col = true ↔
      rowWindow g p row ∨ colWindow g p col ∨ diagDownWindow g p ∨ diagUpWindow g p :=
  checkWin_windows g p row col

/-- C2, as stated, fails. On `farRunGrid` player One owns four consecutive cells
of the bottom row (row 5, columns 0 to 3), yet `checkWin(4, 6)` with
`currentPlayer = One` returns false: the horizontal scan reads row 4 only and
the vertical scan reads column 6 only. -/
theorem checkWin_misses_run_off_last_move :
    boardHasRun farRunGrid Player.One ∧
      checkWin farRunGrid Player.One 4 6 = false :=
  ⟨⟨4, le_refl 4, 5, 0, Or.inl (by decide)⟩, by decide⟩

/-- C2, amended. For every board, every owner `p` (in particular One and Two)
as current player and every in-range last-move cell `(row, col)`: if row
`row`, column `col` or either diagonal direction anywhere on the board
contains four or more consecutive cells of `p`, then `checkWin(row, col)` is
true; and if the board contains no run of four or more cells of `p` in any
row, any column or either diagonal direction, then `checkWin(row, col)` is
false. -/
theorem checkWin_sound_through_last_move (g : Grid) (p : Player) (row : Fin 6) (col : Fin 7) :
    (lastMoveRun g p row col → checkWin g p row col = true) ∧
    (¬ boardHasRun g p → checkWin g p row col = false) := by
  constructor
  · intro h
    exact (checkWin_windows g p row col).2 ((lastMoveRun_iff g p row col).1 h)
  · intro h
    cases hw : checkWin g p row col
    · rfl
    · exact absurd (lastMoveRun_boardHasRun
        ((lastMoveRun_iff g p row col).2 ((checkWin_windows g p row col).1 hw))) h

/-- Witness for C2, amended: the bottom-row run of One through the last move
`(5, 3)` is detected, and nothing is detected on the empty grid. -/
theorem checkWin_sound_through_last_move_witness :
    lastMoveRun bottomRowGrid Player.One 5 3 ∧
      checkWin bottomRowGrid Player.One 5 3 = true ∧
      ¬ boardHasRun emptyGrid Player.One ∧
      checkWin emptyGrid Player.One 5 3 = false :=
  have h1 : lastMoveRun bottomRowGrid Player.One 5 3 :=
    ⟨4, le_refl 4, 0, 0, Or.inl (by decide)⟩
  have h2 : ¬ boardHasRun emptyGrid Player.One := emptyGrid_no_run Player.One (by decide)
  ⟨h1, (checkWin_sound_through_last_move bottomRowGrid Player.One 5 3).1 h1,
    h2, (checkWin_sound_through_last_move emptyGrid Player.One 5 3).2 h2⟩

end ConnectFour

/-! ## TicTacToe: win detection and the one-ply opponent -/

namespace TicTacToe

theorem lines_eq_map : lines = winPatterns.map fun pat => [pat.1.val, pat.2.1.val, pat.2.2.val] := by
  decide

theorem cellAt_val (b : Board) (i : Fin 9) : cellAt b i.val = some (b i) := by
  simp [cellAt]

theorem ownsLine_iff (b : Board) (p : Player) :
    ownsLine b p ↔ ∃ pat, pat ∈ winPatterns ∧ b pat.1 = p ∧ b pat.2.1 = p ∧ b pat.2.2 = p := by
  unfold ownsLine
  rw [lines_eq_map]
  constructor
  · rintro ⟨l, hl, h⟩
    obtain ⟨pat, hpat, rfl⟩ := List.mem_map.1 hl
    refine ⟨pat, hpat, ?_, ?_, ?_⟩
    · have := h pat.1.val (by simp); rw [cellAt_val] at this; exact Option.some.inj this
    · have := h pat.2.1.val (by simp); rw [cellAt_val] at this; exact Option.some.inj this
    · have := h pat.2.2.val (by simp); rw [cellAt_val] at this; exact Option.some.inj this
  · rintro ⟨pat, hpat, h1, h2, h3⟩
    refine ⟨_, List.mem_map.2 ⟨pat, hpat, rfl⟩, ?_⟩
    intro k hk
    simp only [List.mem_cons, List.mem_singleton, List.not_mem_nil, or_false] at hk
    rcases hk with rfl | rfl | rfl
    · rw [cellAt_val, h1]
    · rw [cellAt_val, h2]
    · rw [cellAt_val, h3]

theorem checkWin_iff_pat (b : Board) :
    checkWin b = true ↔
      ∃ pat, pat ∈ winPatterns ∧ b pat.1 ≠ Player.None ∧ b pat.1 = b pat.2.1 ∧ b pat.1 = b pat.2.2 := by
  simp only [checkWin, List.any_eq_true, Bool.and_eq_true, decide_eq_true_eq, and_assoc]

/-- The scan of the eight patterns succeeds exactly when some line holds three
equal owners other than `None`. -/
theorem checkWin_lineCompleted (b : Board) : checkWin b = true ↔ lineCompleted b := by
  rw [checkWin_iff_pat]
  unfold lineCompleted
  simp only [ownsLine_iff]
  constructor
  · rintro ⟨pat, hpat, h0, h1, h2⟩
    exact ⟨b pat.1, h0, pat, hpat, rfl, h1.symm, h2.symm⟩
  · rintro ⟨p, hp, pat, hpat, h1, h2, h3⟩
    exact ⟨pat, hpat, by rw [h1]; exact hp, by rw [h1, h2], by rw [h1, h3]⟩

theorem checkWin_update_iff (b : Board) (i : Fin 9) (p : Player) (hp : p ≠ Player.None)
    (hb : checkWin b = false) :
    checkWin (Function.update b i p) = true ↔ ownsLine (Function.update b i p) p := by
  constructor
  · intro h
    obtain ⟨pat, hpat, h0, h1, h2⟩ := (checkWin_iff_pat _).1 h
    rw [ownsLine_iff]
    by_cases hi : i = pat.1 ∨ i = pat.2.1 ∨ i = pat.2.2
    · have hp1 : Function.update b i p pat.1 = p := by
        rcases hi with hi | hi | hi
        · rw [hi, Function.update_same]
        · rw [h1, hi, Function.update_same]
        · rw [h2, hi, Function.update_same]
      exact ⟨pat, hpat, hp1, by rw [← h1, hp1], by rw [← h2, hp1]⟩
    · exfalso
      have e1 : pat.1 ≠ i := fun e => hi (Or.inl e.symm)
      have e2 : pat.2.1 ≠ i := fun e => hi (Or.inr (Or.inl e.symm))
      have e3 : pat.2.2 ≠ i := fun e => hi (Or.inr (Or.inr e.symm))
      rw [Function.update_noteq e1] at h0 h1 h2
      rw [Function.update_noteq e2] at h1
      rw [Function.update_noteq e3] at h2
      have : checkWin b = true := (checkWin_iff_pat b).2 ⟨pat, hpat, h0, h1, h2⟩
      rw [hb] at this
      exact Bool.noConfusion this
  · intro h
    exact (checkWin_lineCompleted _).2 ⟨p, hp, h⟩

/-- The trial loop restores the board and reports the first cell of the list
that is empty and whose trial placement satisfies `checkWin`. -/
theorem aiTryLoop_spec (p : Player) (b : Board) :
    ∀ l : List (Fin 9), l.Pairwise (· < ·) →
      (aiTryLoop p l b).1 = b ∧
      (∀ j, (aiTryLoop p l b).2 = some j →
        j ∈ l ∧ b j = Player.None ∧ checkWin (Function.update b j p) = true ∧
        ∀ k, k ∈ l → k < j → ¬ (b k = Player.None ∧ checkWin (Function.update b k p) = true)) ∧
      ((aiTryLoop p l b).2 = none →
        ∀ k, k ∈ l → ¬ (b k = Player.None ∧ checkWin (Function.update b k p) = true)) := by
  intro l
  induction l with
  | nil =>
    intro _
    simp [aiTryLoop]
  | cons i rest ih =>
    intro hl
    have hrest := ih (List.Pairwise.of_cons hl)
    have hlt : ∀ k, k ∈ rest → i < k := fun k hk => List.rel_of_pairwise_cons hl hk
    unfold aiTryLoop
    by_cases hi : b i = Player.None
    · have hundo : Function.update (Function.update b i p) i Player.None = b := by
        rw [Function.update_idem, ← hi, Function.update_eq_self]
      by_cases hw : checkWin (Function.update b i p) = true
      · simp only [hi, hw, if_true, hundo]
        refine ⟨trivial, ?_, ?_⟩
        · intro j hj
          have hij : i = j := Option.some.inj hj
          subst hij
          refine ⟨List.mem_cons_self _ _, hi, hw, ?_⟩
          intro k hk hkj
          rcases List.mem_cons.1 hk with rfl | hk
          · exact absurd hkj (lt_irrefl _)
          · exact absurd (hlt k hk) (not_lt_of_gt hkj)
        · intro h
          exact Option.noConfusion h
      · simp only [hi, hw, if_true, hundo]
        refine ⟨hrest.1, ?_, ?_⟩
        · intro j hj
          obtain ⟨hm, h1, h2, h3⟩ := hrest.2.1 j hj
          refine ⟨List.mem_cons_of_mem _ hm, h1, h2, ?_⟩
          intro k hk hkj
          rcases List.mem_cons.1 hk with rfl | hk
          · exact fun h => hw h.2
          · exact h3 k hk hkj
        · intro h k hk
          rcases List.mem_cons.1 hk with rfl | hk
          · exact fun h => hw h.2
          · exact hrest.2.2 h k hk
    · simp only [hi, if_false]
      refine ⟨hrest.1, ?_, ?_⟩
      · intro j hj
        obtain ⟨hm, h1, h2, h3⟩ := hrest.2.1 j hj
        refine ⟨List.mem_cons_of_mem _ hm, h1, h2, ?_⟩
        intro k hk hkj
        rcases List.mem_cons.1 hk with rfl | hk
        · exact fun h => hi h.1
        · exact h3 k hk hkj
      · intro h k hk
        rcases List.mem_cons.1 hk with rfl | hk
        · exact fun h => hi h.1
        · exact hrest.2.2 h k hk


theorem finRange_nine_sorted : (List.finRange 9).Pairwise (· < ·) := by decide

theorem aiTryLoop_first (p : Player) (b : Board) (j : Fin 9) (hj : tryWins b p j)
    (hfirst : ∀ k, k < j → ¬ tryWins b p k) :
    aiTryLoop p (List.finRange 9) b = (b, some j) := by
  obtain ⟨h1, h2, h3⟩ := aiTryLoop_spec p b (List.finRange 9) finRange_nine_sorted
  cases hres : (aiTryLoop p (List.finRange 9) b).2 with
  | none => exact absurd hj (h3 hres j (List.mem_finRange j))
  | some j' =>
    obtain ⟨_, ha, hb, hc⟩ := h2 j' hres
    have hjj : j' = j := by
      rcases lt_trichotomy j' j with h | h | h
      · exact absurd ⟨ha, hb⟩ (hfirst j' h)
      · exact h
      · exact absurd hj (hc j (List.mem_finRange j) h)
    rw [← hjj]
    exact Prod.ext h1 hres

theorem aiTryLoop_none (p : Player) (b : Board) (h : ∀ k, ¬ tryWins b p k) :
    aiTryLoop p (List.finRange 9) b = (b, none) := by
  obtain ⟨h1, h2, _⟩ := aiTryLoop_spec p b (List.finRange 9) finRange_nine_sorted
  cases hres : (aiTryLoop p (List.finRange 9) b).2 with
  | none => exact Prod.ext h1 hres
  | some j' =>
    obtain ⟨_, ha, hb, _⟩ := h2 j' hres
    exact absurd ⟨ha, hb⟩ (h j')

theorem exists_first (P : Fin 9 → Prop) (h : ∃ i, P i) :
    ∃ j, P j ∧ ∀ k, k < j → ¬ P k := by
  obtain ⟨i, hi⟩ := h
  obtain ⟨j, hj, hmin⟩ := WellFounded.has_min (wellFounded_lt : WellFounded ((· < ·) : Fin 9 → Fin 9 → Prop))
    {x | P x} ⟨i, hi⟩
  exact ⟨j, hj, fun k hk hP => hmin k hP hk⟩

theorem tryWins_iff_winningCell (b : Board) (p : Player) (hp : p ≠ Player.None)
    (hb : checkWin b = false) (k : Fin 9) : tryWins b p k ↔ winningCell b p k := by
  unfold tryWins winningCell
  rw [checkWin_update_iff b k p hp hb]

/-- A call of `makeMove` by O on an empty cell of a running game returns, with
O written into that cell and nothing else changed on the board. -/
theorem makeMove_O_board (rand : Nat → Nat) (n : Nat) (s : State) (cell : Fin 9)
    (hc : s.board cell = Player.None) (hgo : s.gameOver = false)
    (hturn : s.currentPlayer = Player.O) :
    ∃ s', makeMove rand (n + 1) s cell = some s' ∧
      s'.board = Function.update s.board cell Player.O := by
  unfold makeMove
  by_cases h1 : (checkWin (Function.update s.board cell Player.O) ||
      checkDraw (Function.update s.board cell Player.O)) = true
  · simp [hc, hgo, hturn, h1]
  · simp [hc, hgo, hturn, h1]

theorem makeAIMove_takes_first_win (rand : Nat → Nat) (n : Nat) (s : State)
    (hgo : s.gameOver = false) (hturn : s.currentPlayer = Player.O)
    (j : Fin 9) (hj : tryWins s.board Player.O j)
    (hfirst : ∀ k, k < j → ¬ tryWins s.board Player.O k) :
    ∃ s', makeAIMove rand (n + 2) s = some s' ∧
      s'.board = Function.update s.board j Player.O := by
  unfold makeAIMove
  rw [aiTryLoop_first Player.O s.board j hj hfirst]
  exact makeMove_O_board rand n _ j hj.1 hgo hturn

theorem makeAIMove_takes_first_block (rand : Nat → Nat) (n : Nat) (s : State)
    (hgo : s.gameOver = false) (hturn : s.currentPlayer = Player.O)
    (hnone : ∀ k, ¬ tryWins s.board Player.O k)
    (j : Fin 9) (hj : tryWins s.board Player.X j)
    (hfirst : ∀ k, k < j → ¬ tryWins s.board Player.X k) :
    ∃ s', makeAIMove rand (n + 2) s = some s' ∧
      s'.board = Function.update s.board j Player.O := by
  unfold makeAIMove
  rw [aiTryLoop_none Player.O s.board hnone]
  simp only
  rw [aiTryLoop_first Player.X s.board j hj hfirst]
  exact makeMove_O_board rand n _ j hj.1 hgo hturn

/-- C4. AI priority: on every board with no completed line, in a game that is
not over and at O's turn, if some empty cell would complete a line for O then
`makeAIMove` returns (for every fuel of at least 2) and the cell `j` on which
it places O is such a winning cell, whatever the random source `rand` is. -/
theorem ai_priority_win (rand : Nat → Nat) (fuel : Nat) (s : State) (hfuel : 2 ≤ fuel)
    (hline : ¬ lineCompleted s.board) (hgo : s.gameOver = false)
    (hturn : s.currentPlayer = Player.O)
    (hex : ∃ i, winningCell s.board Player.O i) :
    ∃ s' j, makeAIMove rand fuel s = some s' ∧
      winningCell s.board Player.O j ∧
      s'.board = Function.update s.board j Player.O := by
  have hb : checkWin s.board = false := by
    cases h : checkWin s.board
    · rfl
    · exact absurd ((checkWin_lineCompleted _).1 h) hline
  obtain ⟨j, hj, hfirst⟩ := exists_first _ hex
  obtain ⟨n, rfl⟩ : ∃ n, fuel = n + 2 := ⟨fuel - 2, by omega⟩
  have hO : Player.O ≠ Player.None := by decide
  obtain ⟨s', hs', hboard⟩ := makeAIMove_takes_first_win rand n s hgo hturn j
    ((tryWins_iff_winningCell _ _ hO hb j).2 hj)
    (fun k hk h => hfirst k hk ((tryWins_iff_winningCell _ _ hO hb k).1 h))
  exact ⟨s', j, hs', hj, hboard⟩

/-- C5. AI blocking: on every board with no completed line, in a game that is
not over and at O's turn, if no empty cell would complete a line for O but
some empty cell would complete a line for X, then `makeAIMove` returns (for
every fuel of at least 2) and the cell `j` on which it places O is a cell that
would complete a line for X. -/
theorem ai_blocking (rand : Nat → Nat) (fuel : Nat) (s : State) (hfuel : 2 ≤ fuel)
    (hline : ¬ lineCompleted s.board) (hgo : s.gameOver = false)
    (hturn : s.currentPlayer = Player.O)
    (hnowin : ¬ ∃ i, winningCell s.board Player.O i)
    (hex : ∃ i, winningCell s.board Player.X i) :
    ∃ s' j, makeAIMove rand fuel s = some s' ∧
      winningCell s.board Player.X j ∧
      s'.board = Function.update s.board j Player.O := by
  have hb : checkWin s.board = false := by
    cases h : checkWin s.board
    · rfl
    · exact absurd ((checkWin_lineCompleted _).1 h) hline
  obtain ⟨j, hj, hfirst⟩ := exists_first _ hex
  obtain ⟨n, rfl⟩ : ∃ n, fuel = n + 2 := ⟨fuel - 2, by omega⟩
  have hO : Player.O ≠ Player.None := by decide
  have hX : Player.X ≠ Player.None := by decide
  obtain ⟨s', hs', hboard⟩ := makeAIMove_takes_first_block rand n s hgo hturn
    (fun k h => hnowin ⟨k, (tryWins_iff_winningCell _ _ hO hb k).1 h⟩) j
    ((tryWins_iff_winningCell _ _ hX hb j).2 hj)
    (fun k hk h => hfirst k hk ((tryWins_iff_winningCell _ _ hX hb k).1 h))
  exact ⟨s', j, hs', hj, hboard⟩

/-- C6. AI enumeration order: on every board with no completed line at O's
turn, when a winning cell for O exists the AI places O on the lowest-index
winning cell, and when none exists but a blocking cell (a winning cell for X)
exists the AI places O on the lowest-index blocking cell. -/
theorem ai_enumeration_order (rand : Nat → Nat) (fuel : Nat) (s : State) (hfuel : 2 ≤ fuel)
    (hline : ¬ lineCompleted s.board) (hgo : s.gameOver = false)
    (hturn : s.currentPlayer = Player.O) :
    ((∃ i, winningCell s.board Player.O i) →
      ∃ s' j, makeAIMove rand fuel s = some s' ∧
        s'.board = Function.update s.board j Player.O ∧
        winningCell s.board Player.O j ∧
        ∀ k, winningCell s.board Player.O k → j ≤ k) ∧
    ((¬ ∃ i, winningCell s.board Player.O i) → (∃ i, winningCell s.board Player.X i) →
      ∃ s' j, makeAIMove rand fuel s = some s' ∧
        s'.board = Function.update s.board j Player.O ∧
        winningCell s.board Player.X j ∧
        ∀ k, winningCell s.board Player.X k → j ≤ k) := by
  have hb : checkWin s.board = false := by
    cases h : checkWin s.board
    · rfl
    · exact absurd ((checkWin_lineCompleted _).1 h) hline
  obtain ⟨n, rfl⟩ : ∃ n, fuel = n + 2 := ⟨fuel - 2, by omega⟩
  have hO : Player.O ≠ Player.None := by decide
  have hX : Player.X ≠ Player.None := by decide
  constructor
  · intro hex
    obtain ⟨j, hj, hfirst⟩ := exists_first _ hex
    obtain ⟨s', hs', hboard⟩ := makeAIMove_takes_first_win rand n s hgo hturn j
      ((tryWins_iff_winningCell _ _ hO hb j).2 hj)
      (fun k hk h => hfirst k hk ((tryWins_iff_winningCell _ _ hO hb k).1 h))
    exact ⟨s', j, hs', hboard, hj, fun k hk => not_lt.1 fun hlt => hfirst k hlt hk⟩
  · intro hnowin hex
    obtain ⟨j, hj, hfirst⟩ := exists_first _ hex
    obtain ⟨s', hs', hboard⟩ := makeAIMove_takes_first_block rand n s hgo hturn
      (fun k h => hnowin ⟨k, (tryWins_iff_winningCell _ _ hO hb k).1 h⟩) j
      ((tryWins_iff_winningCell _ _ hX hb j).2 hj)
      (fun k hk h => hfirst k hk ((tryWins_iff_winningCell _ _ hX hb k).1 h))
    exact ⟨s', j, hs', hboard, hj, fun k hk => not_lt.1 fun hlt => hfirst k hlt hk⟩


/-- C3. For every 3x3 board `TicTacToe::checkWin` is true if and only if at
least one of the eight lines 012, 345, 678, 036, 147, 258, 048, 246 holds three
equal owners other than `None`; hence it is false exactly on the boards with
no such line. -/
theorem checkWin_iff_three_in_line (b : Board) :
    (checkWin b = true ↔ lineCompleted b) ∧ (checkWin b = false ↔ ¬ lineCompleted b) := by
  refine ⟨checkWin_lineCompleted b, ?_⟩
  rw [← checkWin_lineCompleted b]
  cases checkWin b <;> simp

theorem not_lineCompleted_of_checkWin {b : Board} (h : checkWin b = false) :
    ¬ lineCompleted b := by
  intro hl
  rw [(checkWin_lineCompleted b).2 hl] at h
  exact Bool.noConfusion h

/-- Witness for C4 on the board `O O . / X X . / . . X`. -/
theorem ai_priority_win_witness :
    2 ≤ 3 ∧ ¬ lineCompleted (aiTurn winBoard).board ∧
      (aiTurn winBoard).gameOver = false ∧
      (aiTurn winBoard).currentPlayer = Player.O ∧
      (∃ i, winningCell (aiTurn winBoard).board Player.O i) ∧
      ∃ s' j, makeAIMove (fun _ => 0) 3 (aiTurn winBoard) = some s' ∧
        winningCell (aiTurn winBoard).board Player.O j ∧
        s'.board = Function.update (aiTurn winBoard).board j Player.O :=
  ⟨by decide, not_lineCompleted_of_checkWin (by decide), rfl, rfl, ⟨2, by decide⟩,
    ai_priority_win (fun _ => 0) 3 (aiTurn winBoard) (by decide)
      (not_lineCompleted_of_checkWin (by decide)) rfl rfl ⟨2, by decide⟩⟩

/-- Witness for C5 on the board `X X . / . O . / . . .`. -/
theorem ai_blocking_witness :
    2 ≤ 3 ∧ ¬ lineCompleted (aiTurn blockBoard).board ∧
      (aiTurn blockBoard).gameOver = false ∧
      (aiTurn blockBoard).currentPlayer = Player.O ∧
      (¬ ∃ i, winningCell (aiTurn blockBoard).board Player.O i) ∧
      (∃ i, winningCell (aiTurn blockBoard).board Player.X i) ∧
      ∃ s' j, makeAIMove (fun _ => 0) 3 (aiTurn blockBoard) = some s' ∧
        winningCell (aiTurn blockBoard).board Player.X j ∧
        s'.board = Function.update (aiTurn blockBoard).board j Player.O :=
  ⟨by decide, not_lineCompleted_of_checkWin (by decide), rfl, rfl, by decide, ⟨2, by decide⟩,
    ai_blocking (fun _ => 0) 3 (aiTurn blockBoard) (by decide)
      (not_lineCompleted_of_checkWin (by decide)) rfl rfl (by decide) ⟨2, by decide⟩⟩

/-- Witness for C6: two winning cells on `O O . / O X X / . X X`, two blocking
cells on `X X . / X O O / . . .`. -/
theorem ai_enumeration_order_witness :
    (2 ≤ 3 ∧ ¬ lineCompleted (aiTurn twoWinsBoard).board ∧
      (aiTurn twoWinsBoard).gameOver = false ∧
      (aiTurn twoWinsBoard).currentPlayer = Player.O ∧
      (∃ i, winningCell (aiTurn twoWinsBoard).board Player.O i) ∧
      ∃ s' j, makeAIMove (fun _ => 0) 3 (aiTurn twoWinsBoard) = some s' ∧
        s'.board = Function.update (aiTurn twoWinsBoard).board j Player.O ∧
        winningCell (aiTurn twoWinsBoard).board Player.O j ∧
        ∀ k, winningCell (aiTurn twoWinsBoard).board Player.O k → j ≤ k) ∧
    (¬ lineCompleted (aiTurn twoBlocksBoard).board ∧
      (aiTurn twoBlocksBoard).gameOver = false ∧
      (aiTurn twoBlocksBoard).currentPlayer = Player.O ∧
      (¬ ∃ i, winningCell (aiTurn twoBlocksBoard).board Player.O i) ∧
      (∃ i, winningCell (aiTurn twoBlocksBoard).board Player.X i) ∧
      ∃ s' j, makeAIMove (fun _ => 0) 3 (aiTurn twoBlocksBoard) = some s' ∧
        s'.board = Function.update (aiTurn twoBlocksBoard).board j Player.O ∧
        winningCell (aiTurn twoBlocksBoard).board Player.X j ∧
        ∀ k, winningCell (aiTurn twoBlocksBoard).board Player.X k → j ≤ k) :=
  ⟨⟨by decide, not_lineCompleted_of_checkWin (by decide), rfl, rfl, ⟨6, by decide⟩,
      (ai_enumeration_order (fun _ => 0) 3 (aiTurn twoWinsBoard) (by decide)
        (not_lineCompleted_of_checkWin (by decide)) rfl rfl).1 ⟨6, by decide⟩⟩,
    ⟨not_lineCompleted_of_checkWin (by decide), rfl, rfl, by decide, ⟨6, by decide⟩,
      (ai_enumeration_order (fun _ => 0) 3 (aiTurn twoBlocksBoard) (by decide)
        (not_lineCompleted_of_checkWin (by decide)) rfl rfl).2 (by decide) ⟨6, by decide⟩⟩⟩

end TicTacToe

/-! ## RockPaperScissors: outcome rule and round counter -/

namespace RockPaperScissors

/-- C7. Outcome rule of `determineRoundWinner`: for every pair of choices in
Rock, Paper, Scissors, the player's tally grows by exactly one with the
computer's tally unchanged iff the pair is (Rock, Scissors), (Paper, Rock) or
(Scissors, Paper); the computer's tally grows by exactly one with the player's
unchanged iff the pair is one of the three reversed pairs; and both tallies
are unchanged iff the two choices are equal. -/
theorem determineRoundWinner_outcome (s : State)
    (hp : s.playerChoice ≠ Choice.None) (hc : s.computerChoice ≠ Choice.None) :
    (((determineRoundWinner s).playerScore = s.playerScore + 1 ∧
        (determineRoundWinner s).computerScore = s.computerScore) ↔
      beats s.playerChoice s.computerChoice) ∧
    (((determineRoundWinner s).computerScore = s.computerScore + 1 ∧
        (determineRoundWinner s).playerScore = s.playerScore) ↔
      beats s.computerChoice s.playerChoice) ∧
    (((determineRoundWinner s).playerScore = s.playerScore ∧
        (determineRoundWinner s).computerScore = s.computerScore) ↔
      s.playerChoice = s.computerChoice) := by
  rcases s with ⟨st, ps, cs, ts, tr, cr, pc, cc, se, t1, t2⟩
  cases pc <;> cases cc <;> simp [determineRoundWinner, beats] at hp hc ⊢ <;>
    split_ifs <;> simp

/-- Witness for C7: Rock against Scissors in the first round of a best of three. -/
theorem determineRoundWinner_outcome_witness :
    rockScissorsRound.playerChoice ≠ Choice.None ∧
    rockScissorsRound.computerChoice ≠ Choice.None ∧
    (((determineRoundWinner rockScissorsRound).playerScore =
          rockScissorsRound.playerScore + 1 ∧
        (determineRoundWinner rockScissorsRound).computerScore =
          rockScissorsRound.computerScore) ↔
      beats rockScissorsRound.playerChoice rockScissorsRound.computerChoice) ∧
    (((determineRoundWinner rockScissorsRound).computerScore =
          rockScissorsRound.computerScore + 1 ∧
        (determineRoundWinner rockScissorsRound).playerScore =
          rockScissorsRound.playerScore) ↔
      beats rockScissorsRound.computerChoice rockScissorsRound.playerChoice) ∧
    (((determineRoundWinner rockScissorsRound).playerScore =
          rockScissorsRound.playerScore ∧
        (determineRoundWinner rockScissorsRound).computerScore =
          rockScissorsRound.computerScore) ↔
      rockScissorsRound.playerChoice = rockScissorsRound.computerChoice) :=
  ⟨by decide, by decide,
    determineRoundWinner_outcome rockScissorsRound (by decide) (by decide)⟩

/-- Leaving `RoundEnd` by a mouse click never changes `currentRound`: the two
choices are reset to `None` before they are compared. -/
theorem roundEnd_click_keeps_round (s : State) (hit : MouseHit) (draw : Fin 3)
    (h : s.currentState = GameState.RoundEnd) :
    (handleMouseClick s hit draw).currentState = GameState.Playing ∧
      (handleMouseClick s hit draw).currentRound = s.currentRound := by
  simp [handleMouseClick, h]

/-- Leaving `RoundEnd` by expiry of the timer, below the target score, adds
one to `currentRound`. -/
theorem roundEnd_timer_increments_round (s : State) (deltaTime : Int)
    (h : s.currentState = GameState.RoundEnd) (ht : s.roundEndTimer - deltaTime ≤ 0)
    (hp : s.playerScore < s.targetScore) (hc : s.computerScore < s.targetScore) :
    (updateGame s deltaTime).currentState = GameState.Playing ∧
      (updateGame s deltaTime).currentRound = s.currentRound + 1 := by
  have h1 : ¬ (s.targetScore ≤ s.playerScore ∨ s.targetScore ≤ s.computerScore) := by omega
  simp [updateGame, h, ht, h1]

/-- A choice equal to the computer's leaves the session in `RoundEnd` with
`currentRound` lowered by one and both tallies unchanged. -/
theorem makeChoice_draw (s : State) (choice : Choice) (draw : Fin 3)
    (h : choice = getRandomChoice draw) :
    (makeChoice s choice draw).currentState = GameState.RoundEnd ∧
      (makeChoice s choice draw).currentRound = s.currentRound - 1 ∧
      (makeChoice s choice draw).playerScore = s.playerScore ∧
      (makeChoice s choice draw).computerScore = s.computerScore := by
  simp only [makeChoice, determineRoundWinner, h, if_true]
  split_ifs <;> simp

/-- A choice different from the computer's leaves the session in `RoundEnd`
with `currentRound` unchanged. -/
theorem makeChoice_decisive (s : State) (choice : Choice) (draw : Fin 3)
    (h : choice ≠ getRandomChoice draw) :
    (makeChoice s choice draw).currentState = GameState.RoundEnd ∧
      (makeChoice s choice draw).currentRound = s.currentRound := by
  simp only [makeChoice, determineRoundWinner, h, if_false]
  split_ifs <;> simp

/-- C8, evaluation of the code. In the first round (index 1) of a best of three
the player presses R and the computer draws Rock; after one frame the mouse is
clicked. The session is back in `Playing` with both tallies 0 and
`currentRound = 0`, not 1. -/
theorem draw_then_click_round_index :
    firstRound.currentState = GameState.Playing ∧ firstRound.currentRound = 1 ∧
      (handleKeyPress firstRound Key.R 0).playerChoice =
        (handleKeyPress firstRound Key.R 0).computerChoice ∧
      drawThenClick.currentState = GameState.Playing ∧
      drawThenClick.playerScore = 0 ∧ drawThenClick.computerScore = 0 ∧
      drawThenClick.currentRound = 0 := by
  decide

/-- C9, evaluation of the code. In the first round (index 1) of a best of three
the player presses R and the computer draws Scissors; after one frame the
mouse is clicked. The session is back in `Playing` with the player's tally 1
(below the target 2) and `currentRound = 1`, not 2. -/
theorem win_then_click_round_index :
    firstRound.currentState = GameState.Playing ∧ firstRound.currentRound = 1 ∧
      (handleKeyPress firstRound Key.R 2).playerChoice ≠
        (handleKeyPress firstRound Key.R 2).computerChoice ∧
      winThenClick.currentState = GameState.Playing ∧
      winThenClick.playerScore = 1 ∧ winThenClick.computerScore = 0 ∧
      winThenClick.targetScore = 2 ∧
      winThenClick.currentRound = 1 := by
  decide

end RockPaperScissors

/-! ## HighScore: the qualifying test -/

namespace HighScore

theorem toSizeT_of_int_range (n : Int) (h0 : 0 ≤ n) (h1 : n ≤ 2147483647) :
    toSizeT n = n.toNat := by
  unfold toSizeT
  rw [Int.emod_eq_of_lt h0 (by omega)]

/-- In a ledger sorted by descending score the last entry has the lowest score. -/
theorem last_is_lowest (l : List ScoreEntry) (last : ScoreEntry)
    (hs : l.Pairwise scoreDesc) (hl : l.getLast? = some last) :
    isLowestScore l last.score := by
  have happ : l.dropLast ++ [last] = l := List.dropLast_append_getLast? last hl
  refine ⟨⟨last, ?_, rfl⟩, ?_⟩
  · rw [← happ]; simp
  · intro e he
    rw [← happ] at he hs
    rcases List.mem_append.1 he with h | h
    · exact (List.pairwise_append.1 hs).2.2 e h last (by simp)
    · rw [List.mem_singleton.1 h]

theorem isLowestScore_unique {l : List ScoreEntry} {x y : Int}
    (hx : isLowestScore l x) (hy : isLowestScore l y) : x = y := by
  obtain ⟨⟨ex, hex, rfl⟩, hxmin⟩ := hx
  obtain ⟨⟨ey, hey, rfl⟩, hymin⟩ := hy
  exact le_antisymm (hxmin ey hey) (hymin ex hex)

/-- The ledger left by `addScore` is in descending order of score. -/
theorem addScore_sorted (m : HighScoreManager) (name : String) (score : Int)
    (diff : String) (obs : Bool) :
    (addScore m name score diff obs).1.highScores.Pairwise scoreDesc := by
  have hsorted : ((m.highScores ++ [ScoreEntry.mk name score diff obs]).insertionSort
      scoreDesc).Pairwise scoreDesc := List.sorted_insertionSort scoreDesc _
  unfold addScore
  simp only
  split_ifs
  · exact hsorted.sublist (List.take_sublist _ _)
  · exact hsorted

/-- C10, as stated, fails. Constructing the ledger with capacity 2 from a file
whose two records are in ascending order of score (5, then 10) gives the
ledger 5, 10 in file order; `isHighScore(7)` returns false although 7 is
strictly greater than the lowest score 5. -/
theorem isHighScore_false_after_ascending_load :
    HighScoreManager.new (some ascendingFile) 2 = some ascendingLedger ∧
      isHighScore ascendingLedger 7 = some false ∧
      qualifies ascendingLedger 7 :=
  ⟨by decide, by decide,
    Or.inr ⟨5, ⟨⟨ScoreEntry.mk "a" 5 "Easy" false, by decide, rfl⟩, by decide⟩, by decide⟩⟩

/-- C10, amended. For every ledger whose entries are in non-increasing order of
score (the order `addScore` leaves, see `addScore_sorted`), with capacity
`N >= 1` (an `int`) and every integer score, `isHighScore(score)` returns, and
returns true if and only if the ledger holds fewer than `N` entries or `score`
is strictly greater than the lowest score among its entries. -/
theorem isHighScore_iff_qualifies_of_sorted (m : HighScoreManager) (score : Int)
    (hN : 1 ≤ m.MAX_SCORES) (hInt : m.MAX_SCORES ≤ 2147483647)
    (hs : m.highScores.Pairwise scoreDesc) :
    (isHighScore m score = some true ↔ qualifies m score) ∧
    (isHighScore m score = some false ↔ ¬ qualifies m score) := by
  have hsz : toSizeT m.MAX_SCORES = m.MAX_SCORES.toNat :=
    toSizeT_of_int_range _ (by omega) hInt
  unfold isHighScore qualifies
  rw [hsz]
  by_cases hlen : m.highScores.length < m.MAX_SCORES.toNat
  · have hlt : (m.highScores.length : Int) < m.MAX_SCORES := by omega
    simp [hlen, hlt]
  · have hge : ¬ (m.highScores.length : Int) < m.MAX_SCORES := by omega
    cases hl : m.highScores.getLast? with
    | none =>
      have : m.highScores = [] := List.getLast?_eq_none_iff.1 hl
      rw [this] at hlen
      simp at hlen
      omega
    | some last =>
      have hlow := last_is_lowest _ _ hs hl
      have hq : (∃ lowest, isLowestScore m.highScores lowest ∧ lowest < score) ↔
          last.score < score := by
        constructor
        · rintro ⟨x, hx, hlt⟩
          rw [isLowestScore_unique hlow hx]
          exact hlt
        · intro h
          exact ⟨last.score, hlow, h⟩
      simp [hlen, hge, hq]

/-- Witness for C10, amended: a full ledger 10, 5 of capacity 2 and the score 7. -/
theorem isHighScore_iff_qualifies_of_sorted_witness :
    1 ≤ descendingLedger.MAX_SCORES ∧ descendingLedger.MAX_SCORES ≤ 2147483647 ∧
      descendingLedger.highScores.Pairwise scoreDesc ∧
      (isHighScore descendingLedger 7 = some true ↔ qualifies descendingLedger 7) ∧
      (isHighScore descendingLedger 7 = some false ↔ ¬ qualifies descendingLedger 7) :=
  ⟨by decide, by decide, by decide,
    isHighScore_iff_qualifies_of_sorted descendingLedger 7 (by decide) (by decide) (by decide)⟩

end HighScore

/-! ## ConnectFour: clicks, landing row and draw -/

namespace ConnectFour

theorem cell?_fin (g : Grid) (r : Fin 6) (c : Fin 7) : cell? g r.val c.val = some (g r c) := by
  unfold cell?
  rw [dif_pos ⟨r.isLt, c.isLt⟩]

theorem cell?_lt {g : Grid} {r c : Nat} (hr : r < 6) (hc : c < 7) :
    cell? g r c = some (g ⟨r, hr⟩ ⟨c, hc⟩) := by
  unfold cell?
  rw [dif_pos ⟨hr, hc⟩]

theorem getColumnFromX_of_column (x : Int) (c : Fin 7)
    (hlo : GRID_OFFSET_X + CELL_SIZE * (c.val : Int) ≤ x)
    (hhi : x < GRID_OFFSET_X + CELL_SIZE * ((c.val : Int) + 1)) :
    getColumnFromX x = (c.val : Int) := by
  have hc := c.isLt
  unfold GRID_OFFSET_X CELL_SIZE at hlo hhi
  have hq : (x - 200) / 80 = (c.val : Int) := by omega
  unfold getColumnFromX GRID_OFFSET_X CELL_SIZE COLS
  rw [if_neg (by omega)]
  simp only [hq]
  rw [if_neg (by omega)]

theorem getColumnFromX_outside (x : Int)
    (h : x < GRID_OFFSET_X ∨ GRID_OFFSET_X + CELL_SIZE * (COLS : Int) ≤ x) :
    getColumnFromX x = -1 := by
  unfold GRID_OFFSET_X CELL_SIZE COLS at h
  unfold getColumnFromX GRID_OFFSET_X CELL_SIZE COLS
  by_cases hx : x < 200
  · rw [if_pos hx]
  · rw [if_neg hx]
    have hq : (x - 200) / 80 ≥ 7 := by omega
    simp only [Nat.cast_ofNat]
    rw [if_pos hq]

/-- C16. Illegal drop requests are ignored: in every state in phase `Playing`,
a mouse click made while a dropping disc exists (at any `x`), or on a column
whose top cell is occupied, or at an `x` outside the seven columns, returns the
state unchanged: grid, current player, both scores, phase and dropping disc
(and every other member) are exactly as before. -/
theorem illegal_click_ignored (s : State) (x : Int) (onContinue : Bool)
    (hplay : s.currentState = GameState.Playing)
    (h : s.droppingDisc ≠ none ∨
      (∃ c : Fin 7, GRID_OFFSET_X + CELL_SIZE * (c.val : Int) ≤ x ∧
        x < GRID_OFFSET_X + CELL_SIZE * ((c.val : Int) + 1) ∧ s.grid 0 c ≠ Player.None) ∨
      (x < GRID_OFFSET_X ∨ GRID_OFFSET_X + CELL_SIZE * (COLS : Int) ≤ x)) :
    handleMouseClick s x onContinue = s := by
  unfold handleMouseClick
  rw [hplay]
  simp only
  rcases h with h | ⟨c, hlo, hhi, hocc⟩ | h
  · cases hd : s.droppingDisc with
    | none => exact absurd hd h
    | some d => simp
  · rw [getColumnFromX_of_column x c hlo hhi]
    have hfull : isColumnFull s.grid c.val = true := by
      unfold isColumnFull
      have := cell?_fin s.grid 0 c
      simp only [Fin.val_zero] at this
      rw [this]
      simpa using hocc
    split_ifs with h1 h2
    · rw [Int.toNat_ofNat, hfull] at h2
      exact absurd h2.2.2 (by simp)
    · rfl
    · rfl
  · rw [getColumnFromX_outside x h]
    split_ifs with h1 h2
    · exact absurd h2.1 (by decide)
    · rfl
    · rfl

/-- The scan over the rows below `n` returns -1 or the largest empty row of the
column among them. -/
theorem lowestEmptyFrom_spec (g : Grid) (col : Nat) :
    ∀ n : Nat,
      (lowestEmptyFrom g col n = -1 ∧ ∀ r, r < n → cell? g r col ≠ some Player.None) ∨
      (∃ r : Nat, lowestEmptyFrom g col n = (r : Int) ∧ r < n ∧
        cell? g r col = some Player.None ∧
        ∀ r', r < r' → r' < n → cell? g r' col ≠ some Player.None) := by
  intro n
  induction n with
  | zero => exact Or.inl ⟨rfl, fun r hr => absurd hr (Nat.not_lt_zero r)⟩
  | succ n ih =>
    unfold lowestEmptyFrom
    by_cases h : cell? g n col = some Player.None
    · rw [if_pos h]
      exact Or.inr ⟨n, rfl, Nat.lt_succ_self n, h, fun r' h1 h2 => by omega⟩
    · rw [if_neg h]
      rcases ih with ⟨h1, h2⟩ | ⟨r, h1, h2, h3, h4⟩
      · refine Or.inl ⟨h1, fun r hr => ?_⟩
        rcases Nat.lt_succ_iff_lt_or_eq.1 hr with hlt | heq
        · exact h2 r hlt
        · rw [heq]; exact h
      · refine Or.inr ⟨r, h1, by omega, h3, fun r' hr1 hr2 => ?_⟩
        rcases Nat.lt_succ_iff_lt_or_eq.1 hr2 with hlt | heq
        · exact h4 r' hr1 hlt
        · rw [heq]; exact h

theorem getLowestEmptyRow_spec (g : Grid) (col : Nat) :
    (getLowestEmptyRow g col = -1 ∧ ∀ r, r < 6 → cell? g r col ≠ some Player.None) ∨
    (∃ r : Nat, getLowestEmptyRow g col = (r : Int) ∧ r < 6 ∧
      cell? g r col = some Player.None ∧
      ∀ r', r < r' → r' < 6 → cell? g r' col ≠ some Player.None) :=
  lowestEmptyFrom_spec g col 6

theorem getLowestEmptyRow_eq_neg_one_iff (g : Grid) (col : Nat) :
    getLowestEmptyRow g col = -1 ↔ ∀ r, r < 6 → cell? g r col ≠ some Player.None := by
  rcases getLowestEmptyRow_spec g col with ⟨h1, h2⟩ | ⟨r, h1, h2, h3, _⟩
  · exact ⟨fun _ => h2, fun _ => h1⟩
  · constructor
    · intro h; rw [h1] at h; omega
    · intro h; exact absurd h3 (h r h2)

theorem getLowestEmptyRow_eq_iff (g : Grid) (col r : Nat) :
    getLowestEmptyRow g col = (r : Int) ↔
      r < 6 ∧ cell? g r col = some Player.None ∧
        ∀ r', r < r' → r' < 6 → cell? g r' col ≠ some Player.None := by
  rcases getLowestEmptyRow_spec g col with ⟨h1, h2⟩ | ⟨r0, h1, h2, h3, h4⟩
  · constructor
    · intro h; rw [h1] at h; omega
    · rintro ⟨hr, he, _⟩; exact absurd he (h2 r hr)
  · constructor
    · intro h
      have : r0 = r := by rw [h1] at h; omega
      subst this
      exact ⟨h2, h3, h4⟩
    · rintro ⟨hr, he, hmax⟩
      have : r0 = r := by
        rcases Nat.lt_trichotomy r0 r with hlt | heq | hgt
        · exact absurd he (h4 r hlt hr)
        · exact heq
        · exact absurd h3 (hmax r0 hgt h2)
      rw [h1, this]

theorem cell?_setCell (g : Grid) (row : Fin 6) (col : Fin 7) (p : Player) (r c : Nat) :
    cell? (setCell g row col p) r c =
      if r = row.val ∧ c = col.val then some p else cell? g r c := by
  unfold cell?
  by_cases hb : r < 6 ∧ c < 7
  · rw [dif_pos hb, dif_pos hb]
    unfold setCell
    by_cases hr : (⟨r, hb.1⟩ : Fin 6) = row
    · by_cases hc : (⟨c, hb.2⟩ : Fin 7) = col
      · subst hr; subst hc
        simp
      · have hc' : c ≠ col.val := fun h => hc (Fin.ext h)
        subst hr
        simp [Function.update_noteq hc, hc']
    · have hr' : r ≠ row.val := fun h => hr (Fin.ext h)
      simp [Function.update_noteq hr, hr']
  · rw [dif_neg hb, dif_neg hb]
    have : ¬ (r = row.val ∧ c = col.val) := by
      rintro ⟨h1, h2⟩
      exact hb ⟨h1 ▸ row.isLt, h2 ▸ col.isLt⟩
    rw [if_neg this]

theorem updateStatusText_fields (s : State) :
    (updateStatusText s).grid = s.grid ∧
      (updateStatusText s).currentState = s.currentState ∧
      (updateStatusText s).currentPlayer = s.currentPlayer ∧
      (updateStatusText s).player1Score = s.player1Score ∧
      (updateStatusText s).player2Score = s.player2Score ∧
      (updateStatusText s).droppingDisc = s.droppingDisc ∧
      (updateStatusText s).shouldExit = s.shouldExit := by
  unfold updateStatusText
  split_ifs <;> exact ⟨rfl, rfl, rfl, rfl, rfl, rfl, rfl⟩

theorem updateGame_landing (s : State) (disc : DroppingDisc) (r : Fin 6) (c : Fin 7)
    (hd : s.droppingDisc = some disc) (hland : disc.currentY + DROP_STEP ≥ disc.targetY)
    (hrow : getLowestEmptyRow s.grid disc.col = (r.val : Int)) (hcol : disc.col = c.val) :
    updateGame s = some (landed s disc r c) := by
  unfold updateGame
  rw [hd]
  simp only [hland, if_true, hrow]
  have hcond : (0 : Int) ≤ (r.val : Int) ∧ ((r.val : Int)).toNat < 6 ∧ disc.col < 7 :=
    ⟨Int.ofNat_nonneg _, by rw [Int.toNat_ofNat]; exact r.isLt, by rw [hcol]; exact c.isLt⟩
  rw [dif_pos hcond]
  have hr : (⟨((r.val : Int)).toNat, hcond.2.1⟩ : Fin 6) = r := Fin.ext (Int.toNat_ofNat _)
  have hc : (⟨disc.col, hcond.2.2⟩ : Fin 7) = c := Fin.ext hcol
  simp only [hr, hc]
  unfold landed
  simp only [hd]

theorem landed_grid (s : State) (disc : DroppingDisc) (r : Fin 6) (c : Fin 7) :
    (landed s disc r c).grid = setCell s.grid r c disc.player := by
  unfold landed handleWin handleDraw
  simp only
  split_ifs <;> simp only [(updateStatusText_fields _).1]

/-- C17. Landing row: for every grid and column, `getLowestEmptyRow(col)`
returns -1 exactly when the column has no empty cell, returns `r` exactly when
`r` is the largest row index whose cell in that column is empty, and returns
nothing else; and when a disc lands, `updateGame` returns with the owner of the
disc written into the cell of the column at the row `getLowestEmptyRow` gives
at that moment, every other cell of the grid being unchanged. -/
theorem landing_row_rule :
    (∀ (g : Grid) (col : Fin 7),
      (getLowestEmptyRow g col.val = -1 ↔
        ∀ r, r < 6 → cell? g r col.val ≠ some Player.None) ∧
      (∀ r : Nat, getLowestEmptyRow g col.val = (r : Int) ↔
        r < 6 ∧ cell? g r col.val = some Player.None ∧
          ∀ r', r < r' → r' < 6 → cell? g r' col.val ≠ some Player.None) ∧
      (getLowestEmptyRow g col.val = -1 ∨
        ∃ r : Nat, r < 6 ∧ getLowestEmptyRow g col.val = (r : Int))) ∧
    (∀ (s : State) (disc : DroppingDisc) (r : Nat),
      s.droppingDisc = some disc → disc.currentY + DROP_STEP ≥ disc.targetY →
      getLowestEmptyRow s.grid disc.col = (r : Int) →
      ∃ s', updateGame s = some s' ∧
        cell? s'.grid r disc.col = some disc.player ∧
        ∀ r' c', ¬ (r' = r ∧ c' = disc.col) → cell? s'.grid r' c' = cell? s.grid r' c') := by
  constructor
  · intro g col
    refine ⟨getLowestEmptyRow_eq_neg_one_iff g col.val, getLowestEmptyRow_eq_iff g col.val, ?_⟩
    rcases getLowestEmptyRow_spec g col.val with ⟨h, _⟩ | ⟨r, h1, h2, _⟩
    · exact Or.inl h
    · exact Or.inr ⟨r, h2, h1⟩
  · intro s disc r hd hland hrow
    obtain ⟨hr, hempty, _⟩ := (getLowestEmptyRow_eq_iff s.grid disc.col r).1 hrow
    have hc : disc.col < 7 := (cell?_bounds hempty).2
    refine ⟨landed s disc ⟨r, hr⟩ ⟨disc.col, hc⟩,
      updateGame_landing s disc ⟨r, hr⟩ ⟨disc.col, hc⟩ hd hland hrow rfl, ?_, ?_⟩
    · rw [landed_grid, cell?_setCell, if_pos ⟨rfl, rfl⟩]
    · intro r' c' hne
      rw [landed_grid, cell?_setCell, if_neg hne]

theorem inv_initial : Inv initial := by
  have hg : initial.grid = emptyGrid := (updateStatusText_fields _).1
  have hd : initial.droppingDisc = none := (updateStatusText_fields _).2.2.2.2.2.1
  refine ⟨?_, ?_⟩
  · rw [hg]
    intro r r' c h
    exact absurd rfl h
  · intro disc h
    rw [hd] at h
    exact Option.noConfusion h

theorem inv_click (s : State) (x : Int) (onContinue : Bool) (h : Inv s) :
    Inv (handleMouseClick s x onContinue) := by
  unfold handleMouseClick
  cases hst : s.currentState with
  | Playing =>
    simp only
    split_ifs with h1 h2
    · unfold makeMove
      simp only
      split_ifs with h3
      · refine ⟨h.1, ?_⟩
        intro disc hdisc
        have hdisc := Option.some.inj hdisc
        subst hdisc
        simp only
        have hlt : (getColumnFromX x).toNat < 7 := by
          have := h2.2.1
          unfold COLS at this
          omega
        refine ⟨hst, hlt, ?_⟩
        have hfull := h2.2.2
        unfold isColumnFull at hfull
        rw [cell?_lt (by omega) hlt] at hfull ⊢
        simpa using hfull
      · exact h
    · exact h
    · exact h
  | GameOver =>
    simp only
    split_ifs
    · refine ⟨h.1, ?_⟩
      intro disc hdisc
      have := (h.2 disc hdisc).1
      rw [hst] at this
      exact GameState.noConfusion this
    · exact h

theorem gravity_setCell (g : Grid) (r : Fin 6) (c : Fin 7) (p : Player) (hg : gravity g)
    (hempty : g r c = Player.None)
    (hbelow : ∀ r' : Fin 6, r < r' → g r' c ≠ Player.None) :
    gravity (setCell g r c p) := by
  have hval : ∀ (a : Fin 6) (b : Fin 7),
      setCell g r c p a b = if a = r ∧ b = c then p else g a b := by
    intro a b
    have := cell?_setCell g r c p a.val b.val
    rw [cell?_fin, cell?_fin] at this
    by_cases hab : a = r ∧ b = c
    · rw [if_pos hab]
      rw [if_pos ⟨congrArg Fin.val hab.1, congrArg Fin.val hab.2⟩] at this
      exact Option.some.inj this
    · rw [if_neg hab]
      rw [if_neg (fun hh => hab ⟨Fin.ext hh.1, Fin.ext hh.2⟩)] at this
      exact Option.some.inj this
  intro r1 r2 c1 hocc hlt
  rw [hval] at hocc ⊢
  by_cases h1 : r1 = r ∧ c1 = c
  · have h2 : ¬ (r2 = r ∧ c1 = c) := by
      rintro ⟨hr2, _⟩
      rw [h1.1, hr2] at hlt
      exact absurd hlt (lt_irrefl _)
    rw [if_neg h2, h1.2]
    exact hbelow r2 (h1.1 ▸ hlt)
  · rw [if_neg h1] at hocc
    have hb := hg r1 r2 c1 hocc hlt
    by_cases h2 : r2 = r ∧ c1 = c
    · rw [h2.1, h2.2] at hb
      exact absurd hempty hb
    · rw [if_neg h2]
      exact hb

/-- In a state satisfying the invariant a disc that lands is committed: the
tick returns the state `landed` for the lowest empty row of the column. -/
theorem inv_landing (s : State) (h : Inv s) (disc : DroppingDisc)
    (hd : s.droppingDisc = some disc) (hland : disc.currentY + DROP_STEP ≥ disc.targetY) :
    ∃ (r : Fin 6) (c : Fin 7), disc.col = c.val ∧
      getLowestEmptyRow s.grid disc.col = (r.val : Int) ∧
      s.grid r c = Player.None ∧ (∀ r' : Fin 6, r < r' → s.grid r' c ≠ Player.None) ∧
      updateGame s = some (landed s disc r c) := by
  obtain ⟨_, hcol, htop⟩ := h.2 disc hd
  rcases getLowestEmptyRow_spec s.grid disc.col with ⟨_, hnone⟩ | ⟨r, hrow, hr, hempty, hbelow⟩
  · exact absurd htop (hnone 0 (by omega))
  · refine ⟨⟨r, hr⟩, ⟨disc.col, hcol⟩, rfl, hrow, ?_, ?_,
      updateGame_landing s disc ⟨r, hr⟩ ⟨disc.col, hcol⟩ hd hland hrow rfl⟩
    · rw [cell?_lt hr hcol] at hempty
      exact Option.some.inj hempty
    · intro r' hlt
      have := hbelow r'.val hlt r'.isLt
      rw [cell?_lt r'.isLt hcol] at this
      exact fun hh => this (congrArg some hh)

theorem landed_droppingDisc (s : State) (disc : DroppingDisc) (r : Fin 6) (c : Fin 7) :
    (landed s disc r c).droppingDisc = none := rfl

theorem inv_tick (s s' : State) (h : Inv s) (ht : updateGame s = some s') : Inv s' := by
  cases hd : s.droppingDisc with
  | none =>
    unfold updateGame at ht
    rw [hd] at ht
    have := Option.some.inj ht
    subst this
    exact h
  | some disc =>
    by_cases hland : disc.currentY + DROP_STEP ≥ disc.targetY
    · obtain ⟨r, c, _, _, hempty, hbelow, hupd⟩ := inv_landing s h disc hd hland
      rw [hupd] at ht
      have := Option.some.inj ht
      subst this
      refine ⟨?_, ?_⟩
      · rw [landed_grid]
        exact gravity_setCell s.grid r c disc.player h.1 hempty hbelow
      · intro d hdd
        rw [landed_droppingDisc] at hdd
        exact Option.noConfusion hdd
    · unfold updateGame at ht
      rw [hd] at ht
      simp only [hland, if_false] at ht
      have := Option.some.inj ht
      subst this
      refine ⟨h.1, ?_⟩
      intro d hdd
      have hdd := Option.some.inj hdd
      subst hdd
      exact h.2 disc hd

theorem reachable_inv (s : State) (h : Reachable s) : Inv s := by
  induction h with
  | init => exact inv_initial
  | click s x b _ ih => exact inv_click s x b ih
  | tick s s' _ ht ih => exact inv_tick s s' ih ht
  | escape s _ ih => exact ih

theorem isBoardFull_iff_top (g : Grid) :
    isBoardFull g = true ↔ ∀ c : Fin 7, g 0 c ≠ Player.None := by
  unfold isBoardFull isColumnFull COLS
  simp only [List.all_eq_true, List.mem_range, decide_eq_true_eq]
  constructor
  · intro h c
    have := h c.val c.isLt
    rw [cell?_lt (by omega) c.isLt] at this
    exact fun hh => this (congrArg some hh)
  · intro h c hc
    rw [cell?_lt (by omega) hc]
    exact fun hh => h ⟨c, hc⟩ (Option.some.inj hh)

theorem isBoardFull_iff_allOccupied (g : Grid) (hg : gravity g) :
    isBoardFull g = true ↔ allOccupied g := by
  rw [isBoardFull_iff_top]
  constructor
  · intro h r c
    by_cases hr : r = 0
    · rw [hr]; exact h c
    · exact hg 0 r c (h c) (Fin.pos_iff_ne_zero.2 hr)
  · intro h c
    exact h 0 c

theorem reachable_ticks (n : Nat) :
    ∀ s s', Reachable s → ticks n s = some s' → Reachable s' := by
  induction n with
  | zero =>
    intro s s' hs h
    have := Option.some.inj h
    subst this
    exact hs
  | succ n ih =>
    intro s s' hs h
    unfold ticks at h
    cases hu : updateGame s with
    | none => rw [hu] at h; exact Option.noConfusion h
    | some s1 =>
      rw [hu] at h
      exact ih s1 s' (Reachable.tick s s1 hs hu) h

theorem reachable_firstDiscLanding : Reachable firstDiscLanding :=
  reachable_ticks 57 (handleMouseClick initial 250 false) firstDiscLanding
    (Reachable.click initial 250 false Reachable.init) rfl

theorem landed_outcome (s : State) (disc : DroppingDisc) (r : Fin 6) (c : Fin 7)
    (hplay : s.currentState = GameState.Playing) :
    ((landed s disc r c).currentState = GameState.GameOver ∧
        (landed s disc r c).player1Score = s.player1Score ∧
        (landed s disc r c).player2Score = s.player2Score) ↔
      (checkWin (setCell s.grid r c disc.player) s.currentPlayer r c = false ∧
        isBoardFull (setCell s.grid r c disc.player) = true) := by
  unfold landed handleWin handleDraw
  simp only
  cases hw : checkWin (setCell s.grid r c disc.player) s.currentPlayer r c
  · cases hf : isBoardFull (setCell s.grid r c disc.player)
    · simp only [Bool.false_eq_true, if_false, and_false, iff_false, not_and]
      intro h
      rw [(updateStatusText_fields _).2.1] at h
      simp only at h
      rw [hplay] at h
      exact GameState.noConfusion h
    · simp only [Bool.false_eq_true, if_false, if_true, and_self, iff_true]
      exact ⟨(updateStatusText_fields _).2.1, (updateStatusText_fields _).2.2.2.1,
        (updateStatusText_fields _).2.2.2.2.1⟩
  · simp only [if_true, Bool.true_eq_false, false_and, iff_false, not_and]
    intro _ h1 h2
    by_cases hp : s.currentPlayer = Player.One
    · rw [if_pos hp, (updateStatusText_fields _).2.2.2.1] at h1
      simp only at h1
      omega
    · rw [if_neg hp, (updateStatusText_fields _).2.2.2.2.1] at h2
      simp only at h2
      omega

/-- Witness for C16: a click over column 0 while the first disc is still dropping. -/
theorem illegal_click_ignored_witness :
    firstDiscLanding.currentState = GameState.Playing ∧
      firstDiscLanding.droppingDisc ≠ none ∧
      handleMouseClick firstDiscLanding 250 false = firstDiscLanding :=
  ⟨rfl, by decide,
    illegal_click_ignored firstDiscLanding 250 false rfl (Or.inl (by decide))⟩

/-- Witness for C17: the first disc lands on row 5 of column 0 of the empty grid. -/
theorem landing_row_rule_witness :
    getLowestEmptyRow firstDiscLanding.grid 0 = ((5 : Nat) : Int) ∧
      firstDiscLanding.droppingDisc =
        some { col := 0, currentY := 1485, targetY := 1500, player := Player.One } ∧
      (1485 : Int) + DROP_STEP ≥ 1500 ∧
      ∃ s', updateGame firstDiscLanding = some s' ∧
        cell? s'.grid 5 0 = some Player.One ∧
        ∀ r' c', ¬ (r' = 5 ∧ c' = 0) → cell? s'.grid r' c' = cell? firstDiscLanding.grid r' c' :=
  ⟨by decide, rfl, by decide,
    landing_row_rule.2 firstDiscLanding
      { col := 0, currentY := 1485, targetY := 1500, player := Player.One } 5 rfl (by decide)
      (by decide)⟩

end ConnectFour

/-! ## HighScore: ledger bound, top scores, best-effort load and round trip -/

namespace HighScore

theorem addScore_capacity (m : HighScoreManager) (name : String) (score : Int)
    (diff : String) (obs : Bool) :
    (addScore m name score diff obs).1.MAX_SCORES = m.MAX_SCORES := rfl

theorem addScores_capacity (m : HighScoreManager) (es : List ScoreEntry) :
    (addScores m es).MAX_SCORES = m.MAX_SCORES := by
  induction es generalizing m with
  | nil => rfl
  | cons e es ih => rw [addScores, ih, addScore_capacity]

theorem addScores_append (m : HighScoreManager) (es fs : List ScoreEntry) :
    addScores m (es ++ fs) = addScores (addScores m es) fs := by
  induction es generalizing m with
  | nil => rfl
  | cons e es ih => exact ih _

/-- The ledger left by `addScore` is the sorted extended ledger cut to the
first `min N (|L| + 1)` entries. -/
theorem addScore_highScores (m : HighScoreManager) (name : String) (score : Int)
    (diff : String) (obs : Bool) (hN : 0 ≤ m.MAX_SCORES) (hInt : m.MAX_SCORES ≤ 2147483647) :
    (addScore m name score diff obs).1.highScores =
      ((m.highScores ++ [ScoreEntry.mk name score diff obs]).insertionSort scoreDesc).take
        m.MAX_SCORES.toNat := by
  unfold addScore
  simp only
  rw [toSizeT_of_int_range _ hN hInt]
  split_ifs with h
  · rfl
  · rw [List.take_of_length_le (by omega)]

theorem addScore_length_le (m : HighScoreManager) (name : String) (score : Int)
    (diff : String) (obs : Bool) (hN : 0 ≤ m.MAX_SCORES) (hInt : m.MAX_SCORES ≤ 2147483647) :
    ((addScore m name score diff obs).1.highScores.length : Int) ≤ m.MAX_SCORES := by
  rw [addScore_highScores m name score diff obs hN hInt, List.length_take]
  omega

/-- C11. Ledger bound: for every initial ledger content (of any length, in any
order), every capacity `N >= 1` (an `int`) and every non-empty sequence of
`addScore` calls, after each call (after the first `k` calls, for every `k`
from 1 to the number of calls) the ledger has at most `N` entries and its
scores are in non-increasing order. -/
theorem ledger_bound (m : HighScoreManager) (calls : List ScoreEntry)
    (hN : 1 ≤ m.MAX_SCORES) (hInt : m.MAX_SCORES ≤ 2147483647)
    (k : Nat) (hk : 0 < k) (hkl : k ≤ calls.length) :
    ((addScores m (calls.take k)).highScores.length : Int) ≤ m.MAX_SCORES ∧
      (addScores m (calls.take k)).highScores.Pairwise scoreDesc := by
  have hne : calls.take k ≠ [] := by
    intro h
    have hlen : (calls.take k).length = k := by
      rw [List.length_take]
      omega
    rw [h] at hlen
    simp only [List.length_nil] at hlen
    omega
  obtain ⟨init, last, hil⟩ : ∃ init last, calls.take k = init ++ [last] :=
    ⟨_, _, (List.dropLast_append_getLast hne).symm⟩
  rw [hil, addScores_append]
  simp only [addScores]
  have hcap := addScores_capacity m init
  constructor
  · have := addScore_length_le (addScores m init) last.playerName last.score last.difficulty
      last.hasObstacles (by omega) (by omega)
    rw [hcap] at this
    exact this
  · exact addScore_sorted _ _ _ _ _

theorem scoresOf_append (l₁ l₂ : List ScoreEntry) :
    scoresOf (l₁ ++ l₂) = scoresOf l₁ + scoresOf l₂ := by
  simp [scoresOf]

theorem scoresOf_perm {l₁ l₂ : List ScoreEntry} (h : l₁.Perm l₂) : scoresOf l₁ = scoresOf l₂ := by
  unfold scoresOf
  exact Multiset.coe_eq_coe.2 (h.map _)

theorem isTopScores_take (l : List ScoreEntry) (hs : l.Pairwise scoreDesc) (k : Nat) :
    isTopScores k (scoresOf l) (scoresOf (l.take k)) := by
  have hsplit : scoresOf l = scoresOf (l.take k) + scoresOf (l.drop k) := by
    rw [← scoresOf_append, List.take_append_drop]
  refine ⟨?_, ?_, ?_⟩
  · rw [hsplit]; exact Multiset.le_add_right _ _
  · simp [scoresOf, List.length_take]
  · intro x hx y hy
    rw [hsplit, add_tsub_cancel_left] at hx
    simp only [scoresOf, Multiset.mem_coe, List.mem_map] at hx hy
    obtain ⟨b, hb, rfl⟩ := hx
    obtain ⟨a, ha, rfl⟩ := hy
    have hp : (l.take k ++ l.drop k).Pairwise scoreDesc := by
      rw [List.take_append_drop]; exact hs
    exact (List.pairwise_append.1 hp).2.2 a ha b hb

/-- C14. The call `addScore` keeps the top `N`: for every ledger `L`, capacity
`N >= 1` (an `int`) and new entry `e`, the multiset of scores held afterwards
consists of the `min(N, |L| + 1)` largest scores of `L` together with `e`; and
when `|L| < N` the new ledger is a rearrangement of `L` with `e` added, so no
entry is lost and `e` is present. -/
theorem addScore_keeps_top (m : HighScoreManager) (name : String) (score : Int)
    (diff : String) (obs : Bool) (hN : 1 ≤ m.MAX_SCORES) (hInt : m.MAX_SCORES ≤ 2147483647) :
    isTopScores m.MAX_SCORES.toNat
        (scoresOf (m.highScores ++ [ScoreEntry.mk name score diff obs]))
        (scoresOf (addScore m name score diff obs).1.highScores) ∧
      ((m.highScores.length : Int) < m.MAX_SCORES →
        (addScore m name score diff obs).1.highScores.Perm
          (m.highScores ++ [ScoreEntry.mk name score diff obs])) := by
  have hperm := List.perm_insertionSort scoreDesc
    (m.highScores ++ [ScoreEntry.mk name score diff obs])
  have hsorted : ((m.highScores ++ [ScoreEntry.mk name score diff obs]).insertionSort
      scoreDesc).Pairwise scoreDesc := List.sorted_insertionSort scoreDesc _
  rw [addScore_highScores m name score diff obs (by omega) hInt]
  constructor
  · rw [← scoresOf_perm hperm]
    exact isTopScores_take _ hsorted _
  · intro hlt
    rw [List.take_of_length_le]
    · exact hperm
    · rw [List.length_insertionSort, List.length_append, List.length_singleton]
      omega

theorem dropWhile_blank (w t : List Char) (hw : isBlank w) :
    (w ++ t).dropWhile isSpace = t.dropWhile isSpace :=
  List.dropWhile_append_of_pos hw

theorem delimited_blank_append (w t : List Char) (hw : isBlank w) (hne : w ≠ []) :
    delimited (w ++ t) := by
  cases w with
  | nil => exact absurd rfl hne
  | cons c tl =>
    intro d hd
    simp only [List.cons_append, List.head?_cons, Option.some.injEq] at hd
    rw [← hd]
    exact hw c (List.mem_cons_self _ _)

theorem takeWhile_delimited (p : Char → Bool) (r : List Char) (hr : delimited r)
    (hp : ∀ c, isSpace c = true → p c = false) : r.takeWhile p = [] ∧ r.dropWhile p = r := by
  cases r with
  | nil => exact ⟨rfl, rfl⟩
  | cons c tl =>
    have hc : p c = false := hp c (hr c rfl)
    simp [List.takeWhile_cons, List.dropWhile_cons, hc]

/-- Reading a token that is followed by a token boundary. -/
theorem extractString_token (w name r : List Char) (hw : isBlank w) (hn : isToken name)
    (hr : delimited r) :
    extractString { rest := w ++ (name ++ r), fail := false } =
      ({ rest := r, fail := false }, String.mk name) := by
  have hns : ∀ c, c ∈ name → (!isSpace c) = true := by
    intro c hc; rw [hn.2 c hc]; rfl
  have hd := takeWhile_delimited (fun c => !isSpace c) r hr (by intro c hc; simp [hc])
  have hdrop : (w ++ (name ++ r)).dropWhile isSpace = name ++ r := by
    rw [dropWhile_blank w _ hw]
    cases name with
    | nil => exact absurd rfl hn.1
    | cons c tl =>
      have : isSpace c = false := hn.2 c (List.mem_cons_self _ _)
      simp [List.dropWhile_cons, this]
  have htake : (name ++ r).takeWhile (fun c => !isSpace c) = name := by
    rw [List.takeWhile_append_of_pos hns, hd.1, List.append_nil]
  have hrest : (name ++ r).dropWhile (fun c => !isSpace c) = r := by
    rw [List.dropWhile_append_of_pos hns, hd.2]
  unfold extractString
  simp only [hdrop, htake, hrest, Bool.false_eq_true, if_false, hn.1]

theorem digit_not_space (c : Char) (h : isDigit c = true) : isSpace c = false := by
  unfold isDigit at h
  unfold isSpace
  simp only [Bool.and_eq_true, decide_eq_true_eq] at h
  simp only [Bool.or_eq_false_iff, Bool.and_eq_false_iff, decide_eq_false_iff_not]
  omega

theorem digit_not_sign (c : Char) (h : isDigit c = true) : c.toNat ≠ 45 ∧ c.toNat ≠ 43 := by
  unfold isDigit at h
  simp only [Bool.and_eq_true, decide_eq_true_eq] at h
  omega

theorem toNat_ofNat_small (u : Nat) (h : u < 55296) : (Char.ofNat u).toNat = u := by
  unfold Char.ofNat
  rw [dif_pos (Or.inl h)]
  rfl

theorem digits_prefix (ds r : List Char) (hd : ∀ c, c ∈ ds → isDigit c = true)
    (hr : delimited r) :
    (ds ++ r).takeWhile isDigit = ds ∧ (ds ++ r).dropWhile isDigit = r := by
  have h := takeWhile_delimited isDigit r hr (by
    intro c hc
    cases hdc : isDigit c
    · rfl
    · rw [digit_not_space c hdc] at hc; exact Bool.noConfusion hc)
  rw [List.takeWhile_append_of_pos hd, List.dropWhile_append_of_pos hd, h.1, h.2,
    List.append_nil]
  exact ⟨rfl, rfl⟩

/-- Reading the decimal text of an integer that is followed by a token
boundary. -/
theorem extractInteger_token (w st r : List Char) (v : Int) (hw : isBlank w)
    (hst : isIntToken st v) (hr : delimited r) :
    extractInteger (w ++ (st ++ r)) = some (r, v) := by
  obtain ⟨ds, hne, hds, hform, _, _⟩ := hst
  have hp := digits_prefix ds r hds hr
  obtain ⟨d, dtl, rfl⟩ : ∃ d dtl, ds = d :: dtl := by
    cases ds with
    | nil => exact absurd rfl hne
    | cons d dtl => exact ⟨d, dtl, rfl⟩
  have hdd : isDigit d = true := hds d (List.mem_cons_self _ _)
  have hdsp := digit_not_space d hdd
  have hdsg := digit_not_sign d hdd
  have h43 : (Char.ofNat 43).toNat = 43 := toNat_ofNat_small 43 (by omega)
  have h45 : (Char.ofNat 45).toNat = 45 := toNat_ofNat_small 45 (by omega)
  have hs43 : isSpace (Char.ofNat 43) = false := by decide
  have hs45 : isSpace (Char.ofNat 45) = false := by decide
  have hp1 : List.takeWhile isDigit (d :: (dtl ++ r)) = d :: dtl := hp.1
  have hp2 : List.dropWhile isDigit (d :: (dtl ++ r)) = r := hp.2
  unfold extractInteger
  rw [dropWhile_blank w _ hw]
  rcases hform with ⟨rfl, rfl⟩ | ⟨rfl, rfl⟩ | ⟨rfl, rfl⟩
  · have hdw : List.dropWhile isSpace (d :: dtl ++ r) = d :: (dtl ++ r) :=
      List.dropWhile_cons_of_neg (by rw [hdsp]; exact Bool.false_ne_true)
    rw [hdw]
    dsimp only
    rw [if_neg hdsg.1, if_neg hdsg.2]
    dsimp only
    rw [hp1, hp2, if_neg (List.cons_ne_nil _ _)]
    rfl
  · have hdw : List.dropWhile isSpace (Char.ofNat 43 :: (d :: dtl) ++ r) =
        Char.ofNat 43 :: (d :: (dtl ++ r)) :=
      List.dropWhile_cons_of_neg (by rw [hs43]; exact Bool.false_ne_true)
    rw [hdw]
    dsimp only
    rw [h43, if_neg (show ¬ ((43 : Nat) = 45) by decide), if_pos (rfl : (43 : Nat) = 43)]
    dsimp only
    rw [hp1, hp2, if_neg (List.cons_ne_nil _ _)]
    rfl
  · have hdw : List.dropWhile isSpace (Char.ofNat 45 :: (d :: dtl) ++ r) =
        Char.ofNat 45 :: (d :: (dtl ++ r)) :=
      List.dropWhile_cons_of_neg (by rw [hs45]; exact Bool.false_ne_true)
    rw [hdw]
    dsimp only
    rw [h45, if_pos (rfl : (45 : Nat) = 45)]
    dsimp only
    rw [hp1, hp2, if_neg (List.cons_ne_nil _ _)]
    rfl

theorem isIntToken_flag (ft : List Char) (b : Bool) (h : isFlagToken ft b) :
    isIntToken ft (if b then 1 else 0) := by
  unfold isFlagToken at h
  subst h
  cases b
  · exact ⟨[Char.ofNat 48], by simp, by decide, Or.inl ⟨rfl, by decide⟩, by decide, by decide⟩
  · exact ⟨[Char.ofNat 49], by simp, by decide, Or.inl ⟨rfl, by decide⟩, by decide, by decide⟩

/-- Extraction of one well-formed record that ends at a token boundary. -/
theorem extractEntry_record (r tail : List Char) (e : ScoreEntry) (hrec : isRecord r e)
    (ht : delimited tail) :
    extractEntry { rest := r ++ tail, fail := false } = ({ rest := tail, fail := false }, e) := by
  obtain ⟨w0, name, w1, st, w2, diff, w3, ft, rfl, hw0, hname, hen, hw1, hw1n, hst,
    hw2, hw2n, hdiff, hed, hw3, hw3n, hft⟩ := hrec
  have e1 : extractString
      { rest := w0 ++ (name ++ (w1 ++ (st ++ (w2 ++ (diff ++ (w3 ++ ft)))))) ++ tail
        fail := false } =
      ({ rest := w1 ++ (st ++ (w2 ++ (diff ++ (w3 ++ (ft ++ tail))))), fail := false },
        String.mk name) := by
    have := extractString_token w0 name (w1 ++ (st ++ (w2 ++ (diff ++ (w3 ++ (ft ++ tail))))))
      hw0 hname (delimited_blank_append _ _ hw1 hw1n)
    simpa only [List.append_assoc] using this
  have e2 := extractInteger_token w1 st (w2 ++ (diff ++ (w3 ++ (ft ++ tail)))) e.score hw1 hst
    (delimited_blank_append _ _ hw2 hw2n)
  have e3 := extractString_token w2 diff (w3 ++ (ft ++ tail)) hw2 hdiff
    (delimited_blank_append _ _ hw3 hw3n)
  have e4 := extractInteger_token w3 ft tail _ hw3 (isIntToken_flag ft _ hft) ht
  obtain ⟨_, _, _, _, hlo, hhi⟩ := hst
  unfold extractEntry
  simp only [e1]
  have x2 : extractInt
      { rest := w1 ++ (st ++ (w2 ++ (diff ++ (w3 ++ (ft ++ tail))))), fail := false } =
      ({ rest := w2 ++ (diff ++ (w3 ++ (ft ++ tail))), fail := false }, e.score) := by
    unfold extractInt
    simp only [e2, Bool.false_eq_true, if_false, hlo, hhi, and_self, if_true]
  simp only [x2, e3]
  have x4 : extractBool { rest := w3 ++ (ft ++ tail), fail := false } =
      ({ rest := tail, fail := false }, e.hasObstacles) := by
    unfold extractBool
    simp only [e4, Bool.false_eq_true, if_false]
    cases e.hasObstacles <;> simp
  simp only [x4, ← hen, ← hed]

theorem isRecord_length_pos (r : List Char) (e : ScoreEntry) (h : isRecord r e) :
    0 < r.length := by
  obtain ⟨w0, name, w1, st, w2, diff, w3, ft, rfl, _, hname, _⟩ := h
  have : 0 < name.length := List.length_pos.2 hname.1
  simp only [List.length_append]
  omega

theorem holdsRecords_length (es : List ScoreEntry) :
    ∀ txt rest, holdsRecords es txt rest → es.length ≤ txt.length := by
  induction es with
  | nil => intro txt rest _; exact Nat.zero_le _
  | cons e es ih =>
    rintro txt rest ⟨r, tail, rfl, hrec, _, hrest⟩
    have h1 := isRecord_length_pos r e hrec
    have h2 := ih tail rest hrest
    simp only [List.length_cons, List.length_append]
    omega

/-- The load loop appends the well-formed records in order and stops at the
first extraction that fails. -/
theorem loadLoop_records (es : List ScoreEntry) :
    ∀ (fuel : Nat) (txt rest : List Char) (acc : List ScoreEntry),
      holdsRecords es txt rest → es.length < fuel →
      (extractEntry { rest := rest, fail := false }).1.fail = true →
      loadLoop fuel { rest := txt, fail := false } acc = some (acc ++ es) := by
  induction es with
  | nil =>
    intro fuel txt rest acc h hfuel hfail
    obtain ⟨n, rfl⟩ : ∃ n, fuel = n + 1 := ⟨fuel - 1, by simp at hfuel; omega⟩
    have htxt : txt = rest := h
    subst htxt
    unfold loadLoop
    simp only [hfail, if_true, List.append_nil]
  | cons e es ih =>
    rintro fuel txt rest acc ⟨r, tail, rfl, hrec, hdel, hrest⟩ hfuel hfail
    obtain ⟨n, rfl⟩ : ∃ n, fuel = n + 1 := ⟨fuel - 1, by simp at hfuel; omega⟩
    unfold loadLoop
    simp only [extractEntry_record r tail e hrec hdel, Bool.false_eq_true, if_false]
    rw [ih n tail rest (acc ++ [e]) hrest (by simp at hfuel; omega) hfail]
    simp

/-- C13. Best-effort load: for every file whose text consists of `k >= 0`
well-formed whitespace-delimited records (name token, integer score,
difficulty token, flag 0 or 1) followed by a remainder on which the extraction
of a record fails, `loadScores` returns and appends exactly those `k` records,
in file order, to the ledger, and nothing from the remainder. -/
theorem loadScores_best_effort (m : HighScoreManager) (text : String)
    (es : List ScoreEntry) (rest : List Char)
    (hrecs : holdsRecords es text.data rest)
    (hbad : (extractEntry { rest := rest, fail := false }).1.fail = true) :
    loadScores m (some text) = some { m with highScores := m.highScores ++ es } := by
  unfold loadScores
  simp only
  rw [loadLoop_records es _ text.data rest m.highScores hrecs
    (by have := holdsRecords_length es _ _ hrecs; omega) hbad]
  rfl

theorem digitsValue_snoc (pre : List Char) (c : Char) :
    digitsValue (pre ++ [c]) = 10 * digitsValue pre + (c.toNat - 48) := by
  unfold digitsValue
  rw [List.foldl_append]
  rfl

theorem digitChar_props (k : Nat) (hk : k < 10) :
    isDigit (Char.ofNat (48 + k)) = true ∧ (Char.ofNat (48 + k)).toNat - 48 = k := by
  have h := toNat_ofNat_small (48 + k) (by omega)
  unfold isDigit
  rw [h]
  simp only [Bool.and_eq_true, decide_eq_true_eq]
  omega

/-- The digits written for `n`: non-empty, all decimal digits, of value `n`. -/
theorem natDigits_spec (fuel : Nat) :
    ∀ (n : Nat) (acc : List Char), n < 10 ^ (fuel + 1) →
      ∃ pre, natDigits (fuel + 1) n acc = pre ++ acc ∧ pre ≠ [] ∧
        (∀ c, c ∈ pre → isDigit c = true) ∧ digitsValue pre = n := by
  induction fuel with
  | zero =>
    intro n acc hn
    have hn10 : n < 10 := by simpa using hn
    have hd := digitChar_props (n % 10) (Nat.mod_lt _ (by omega))
    refine ⟨[Char.ofNat (48 + n % 10)], ?_, by simp, ?_, ?_⟩
    · unfold natDigits
      simp only
      split_ifs
      · rfl
      · rfl
    · intro c hc
      rw [List.mem_singleton.1 hc]
      exact hd.1
    · have := digitsValue_snoc [] (Char.ofNat (48 + n % 10))
      simp only [List.nil_append] at this
      rw [this, hd.2]
      have : digitsValue [] = 0 := rfl
      rw [this]
      omega
  | succ fuel ih =>
    intro n acc hn
    have hd := digitChar_props (n % 10) (Nat.mod_lt _ (by omega))
    unfold natDigits
    simp only
    by_cases hz : n / 10 = 0
    · rw [if_pos hz]
      refine ⟨[Char.ofNat (48 + n % 10)], rfl, by simp, ?_, ?_⟩
      · intro c hc
        rw [List.mem_singleton.1 hc]
        exact hd.1
      · have := digitsValue_snoc [] (Char.ofNat (48 + n % 10))
        simp only [List.nil_append] at this
        rw [this, hd.2]
        have : digitsValue [] = 0 := rfl
        rw [this]
        omega
    · rw [if_neg hz]
      have hlt : n / 10 < 10 ^ (fuel + 1) := by
        rw [Nat.div_lt_iff_lt_mul (by omega)]
        calc n < 10 ^ (fuel + 1 + 1) := hn
          _ = 10 ^ (fuel + 1) * 10 := by rw [Nat.pow_succ]
      obtain ⟨pre, hpre, _, hdig, hval⟩ := ih (n / 10) (Char.ofNat (48 + n % 10) :: acc) hlt
      refine ⟨pre ++ [Char.ofNat (48 + n % 10)], ?_, by simp, ?_, ?_⟩
      · rw [hpre]; simp
      · intro c hc
        rcases List.mem_append.1 hc with h | h
        · exact hdig c h
        · rw [List.mem_singleton.1 h]; exact hd.1
      · rw [digitsValue_snoc, hval, hd.2]
        omega

theorem intText_isIntToken (v : Int) (hlo : -2147483648 ≤ v) (hhi : v ≤ 2147483647) :
    isIntToken (intText v).data v := by
  have hfuel : v.natAbs < 10 ^ (v.natAbs + 1) :=
    lt_of_lt_of_le (Nat.lt_pow_self (by omega) _) (Nat.pow_le_pow_right (by omega) (by omega))
  obtain ⟨pre, hpre, hne, hdig, hval⟩ := natDigits_spec v.natAbs v.natAbs [] hfuel
  rw [List.append_nil] at hpre
  unfold intText
  by_cases hneg : v < 0
  · rw [if_pos hneg]
    refine ⟨pre, hne, hdig, Or.inr (Or.inr ⟨by rw [hpre], ?_⟩), hlo, hhi⟩
    rw [hval]
    omega
  · rw [if_neg hneg]
    refine ⟨pre, hne, hdig, Or.inl ⟨by rw [hpre], ?_⟩, hlo, hhi⟩
    rw [hval]
    omega

theorem isBlank_space : isBlank " ".data := by
  unfold isBlank
  decide

theorem entryText_isRecord (w : List Char) (e : ScoreEntry) (hw : isBlank w)
    (he : writable e) : isRecord (w ++ (entryText e).data) e := by
  obtain ⟨hname, hdiff, hlo, hhi⟩ := he
  refine ⟨w, e.playerName.data, " ".data, (intText e.score).data, " ".data,
    e.difficulty.data, " ".data, (if e.hasObstacles then "1" else "0").data, ?_, hw, hname, rfl,
    isBlank_space, by decide, intText_isIntToken e.score hlo hhi, isBlank_space, by decide,
    hdiff, rfl, isBlank_space, by decide, ?_⟩
  · unfold entryText
    simp only [String.data_append, List.append_assoc]
  · unfold isFlagToken
    cases e.hasObstacles <;> rfl

theorem savedText_holdsRecords (es : List ScoreEntry) :
    ∀ w, isBlank w → (∀ e, e ∈ es → writable e) →
      ∃ rest, isBlank rest ∧ holdsRecords es (w ++ savedText es) rest := by
  induction es with
  | nil =>
    intro w hw _
    exact ⟨w, hw, by simp [savedText, holdsRecords]⟩
  | cons e es ih =>
    intro w hw hall
    have hnl : isBlank [Char.ofNat 10] := by
      unfold isBlank
      decide
    obtain ⟨rest, hrest, hrec⟩ := ih [Char.ofNat 10] hnl
      (fun x hx => hall x (List.mem_cons_of_mem _ hx))
    refine ⟨rest, hrest, w ++ (entryText e).data, [Char.ofNat 10] ++ savedText es, ?_,
      entryText_isRecord w e hw (hall e (List.mem_cons_self _ _)),
      delimited_blank_append _ _ hnl (by simp), hrec⟩
    simp [savedText]

theorem saveScores_data_aux (es : List ScoreEntry) :
    ∀ init : String,
      (es.foldl (fun out e => out ++ entryText e ++ "\n") init).data =
        init.data ++ savedText es := by
  induction es with
  | nil => intro init; simp [savedText]
  | cons e es ih =>
    intro init
    rw [List.foldl_cons, ih]
    simp only [String.data_append, savedText, List.append_assoc]
    rfl

theorem saveScores_data (m : HighScoreManager) :
    (saveScores m).data = savedText m.highScores := by
  unfold saveScores
  rw [saveScores_data_aux]
  rfl

theorem extractEntry_blank_fails (rest : List Char) (h : isBlank rest) :
    (extractEntry { rest := rest, fail := false }).1.fail = true := by
  have hdrop : rest.dropWhile isSpace = [] := by
    have := dropWhile_blank rest [] h
    simpa using this
  have h1 : extractString { rest := rest, fail := false } =
      ({ rest := [], fail := true }, "") := by
    unfold extractString
    simp [hdrop]
  unfold extractEntry
  simp only [h1]
  unfold extractInt extractString extractBool
  simp

/-- Saving a ledger of writable entries and loading the text into an empty
ledger gives back the same entries in the same order. -/
theorem save_load_writable (m : HighScoreManager) (maxScores : Int)
    (h : ∀ e, e ∈ m.highScores → writable e) :
    HighScoreManager.new (some (saveScores m)) maxScores =
      some { highScores := m.highScores, MAX_SCORES := maxScores } := by
  obtain ⟨rest, hblank, hrec⟩ := savedText_holdsRecords m.highScores [] (by intro c hc; cases hc) h
  rw [List.nil_append, ← saveScores_data] at hrec
  unfold HighScoreManager.new
  unfold loadScores
  simp only
  rw [loadLoop_records m.highScores _ (saveScores m).data rest [] hrec
    (by have := holdsRecords_length _ _ _ hrec; omega) (extractEntry_blank_fails rest hblank)]
  rfl

/-- C12, evaluation of the code. The name-entry step returns `A B` for the keys
`A`, space, `B`, Enter. After `addScore("A B", 10, "Easy", false)` on an empty
ledger of capacity 10 the ledger holds that one entry and `saveScores` has
written the line `A B 10 Easy 0`; loading this text into an empty ledger gives
the empty ledger, not the entry saved. -/
theorem round_trip_lost_for_spaced_name :
    SnakeGame.getPlayerName SnakeGame.typedAB = some "A B" ∧
      spacedLedger.highScores = [ScoreEntry.mk "A B" 10 "Easy" false] ∧
      saveScores spacedLedger = "A B 10 Easy 0\n" ∧
      HighScoreManager.new (some (saveScores spacedLedger)) 10 =
        some { highScores := [], MAX_SCORES := 10 } := by
  decide

/-- Witness for C11: two calls on a ledger of capacity 2 loaded in ascending order. -/
theorem ledger_bound_witness :
    1 ≤ ascendingLedger.MAX_SCORES ∧ ascendingLedger.MAX_SCORES ≤ 2147483647 ∧
      0 < 2 ∧ 2 ≤ twoCalls.length ∧
      ((addScores ascendingLedger (twoCalls.take 2)).highScores.length : Int) ≤
        ascendingLedger.MAX_SCORES ∧
      (addScores ascendingLedger (twoCalls.take 2)).highScores.Pairwise scoreDesc :=
  ⟨by decide, by decide, by decide, by decide,
    ledger_bound ascendingLedger twoCalls (by decide) (by decide) 2 (by decide) (by decide)⟩

/-- Witness for C14: the score 7 added to the full ledger 5, 10 of capacity 2. -/
theorem addScore_keeps_top_witness :
    1 ≤ ascendingLedger.MAX_SCORES ∧ ascendingLedger.MAX_SCORES ≤ 2147483647 ∧
      isTopScores ascendingLedger.MAX_SCORES.toNat
        (scoresOf (ascendingLedger.highScores ++ [ScoreEntry.mk "c" 7 "Hard" true]))
        (scoresOf (addScore ascendingLedger "c" 7 "Hard" true).1.highScores) ∧
      ((ascendingLedger.highScores.length : Int) < ascendingLedger.MAX_SCORES →
        (addScore ascendingLedger "c" 7 "Hard" true).1.highScores.Perm
          (ascendingLedger.highScores ++ [ScoreEntry.mk "c" 7 "Hard" true])) :=
  ⟨by decide, by decide,
    addScore_keeps_top ascendingLedger "c" 7 "Hard" true (by decide) (by decide)⟩

/-- The file `brokenFile` holds one well-formed record, followed by `brokenRest`. -/
theorem brokenFile_holdsRecords :
    holdsRecords [ScoreEntry.mk "a" 5 "Easy" false] brokenFile.data brokenRest :=
  ⟨"a 5 Easy 0".data, brokenRest, by decide,
    ⟨[], "a".data, " ".data, "5".data, " ".data, "Easy".data, " ".data, "0".data,
      by decide, by unfold isBlank; decide, by unfold isToken; decide, rfl,
      by unfold isBlank; decide, by decide,
      ⟨"5".data, by decide, by decide, Or.inl ⟨rfl, by decide⟩, by decide, by decide⟩,
      by unfold isBlank; decide, by decide, by unfold isToken; decide, rfl,
      by unfold isBlank; decide, by decide, by unfold isFlagToken; decide⟩,
    by unfold delimited; decide, rfl⟩

/-- Witness for C13: the first record of `brokenFile` is appended, the record
with the score `x` and the one after it are not. -/
theorem loadScores_best_effort_witness :
    holdsRecords [ScoreEntry.mk "a" 5 "Easy" false] brokenFile.data brokenRest ∧
      (extractEntry { rest := brokenRest, fail := false }).1.fail = true ∧
      loadScores descendingLedger (some brokenFile) =
        some { descendingLedger with
          highScores := descendingLedger.highScores ++ [ScoreEntry.mk "a" 5 "Easy" false] } :=
  ⟨brokenFile_holdsRecords, by decide,
    loadScores_best_effort descendingLedger brokenFile [ScoreEntry.mk "a" 5 "Easy" false]
      brokenRest brokenFile_holdsRecords (by decide)⟩

end HighScore

/-! ## SnakeGame: name entry, wall collision and steering -/

namespace SnakeGame

theorem toNat_ofNat_ascii (u : Nat) (h : u < 127) : (Char.ofNat u).toNat = u := by
  unfold Char.ofNat
  rw [dif_pos (Or.inl (by omega))]
  rfl

theorem nameOk_player : nameOk "Player".data := by
  unfold nameOk
  decide

theorem getPlayerNameLoop_ok (events : List NameEvent) :
    ∀ name, nameOk name → ∀ result, getPlayerNameLoop events name = some result →
      result.data ≠ [] ∧ nameOk result.data := by
  induction events with
  | nil => intro name _ result h; exact Option.noConfusion h
  | cons ev rest ih =>
    intro name hname result h
    cases ev with
    | TextEntered u =>
      unfold getPlayerNameLoop at h
      by_cases hend : u = 13 ∨ u = 10
      · rw [if_pos hend] at h
        have h := Option.some.inj h
        by_cases hne : name ≠ []
        · rw [if_pos hne] at h
          subst h
          exact ⟨hne, hname⟩
        · rw [if_neg hne] at h
          subst h
          exact ⟨by decide, nameOk_player⟩
      · rw [if_neg hend] at h
        by_cases hbs : u = 8
        · rw [if_pos hbs] at h
          refine ih _ ?_ result h
          split_ifs
          · refine ⟨?_, fun c hc => hname.2 c (List.mem_of_mem_dropLast hc)⟩
            rw [List.length_dropLast]
            have := hname.1
            omega
          · exact hname
        · rw [if_neg hbs] at h
          by_cases hadd : name.length < 15 ∧ u ≥ 32 ∧ u < 127
          · rw [if_pos hadd] at h
            refine ih _ ?_ result h
            refine ⟨?_, ?_⟩
            · rw [List.length_append, List.length_singleton]
              omega
            · intro c hc
              rcases List.mem_append.1 hc with hc | hc
              · exact hname.2 c hc
              · rw [List.mem_singleton.1 hc, toNat_ofNat_ascii u hadd.2.2]
                exact ⟨hadd.2.1, hadd.2.2⟩
          · rw [if_neg hadd] at h
            exact ih _ hname result h
    | Closed =>
      unfold getPlayerNameLoop at h
      have h := Option.some.inj h
      subst h
      exact ⟨by decide, nameOk_player⟩
    | Other =>
      unfold getPlayerNameLoop at h
      exact ih _ hname result h

theorem getPlayerNameLoop_returns (events : List NameEvent) :
    ∀ name, (∃ ev, ev ∈ events ∧ endsEntry ev) →
      ∃ result, getPlayerNameLoop events name = some result := by
  induction events with
  | nil => rintro name ⟨ev, hev, _⟩; exact absurd hev (List.not_mem_nil _)
  | cons ev rest ih =>
    rintro name ⟨ev', hmem, hend⟩
    have hrest : ev ≠ ev' → ∃ ev, ev ∈ rest ∧ endsEntry ev := by
      intro hne
      rcases List.mem_cons.1 hmem with h | h
      · exact absurd h.symm hne
      · exact ⟨ev', h, hend⟩
    cases ev with
    | TextEntered u =>
      unfold getPlayerNameLoop
      by_cases hu : u = 13 ∨ u = 10
      · rw [if_pos hu]; exact ⟨_, rfl⟩
      · rw [if_neg hu]
        have hr : ∃ ev, ev ∈ rest ∧ endsEntry ev := by
          apply hrest
          intro he
          rw [← he] at hend
          rcases hend with h | h | h
          · exact NameEvent.noConfusion h
          · exact hu (Or.inl (NameEvent.TextEntered.inj h))
          · exact hu (Or.inr (NameEvent.TextEntered.inj h))
        split_ifs
        · exact ih _ hr
        · exact ih _ hr
        · exact ih _ hr
        · exact ih _ hr
    | Closed =>
      unfold getPlayerNameLoop
      exact ⟨_, rfl⟩
    | Other =>
      unfold getPlayerNameLoop
      apply ih
      apply hrest
      intro he
      rw [← he] at hend
      rcases hend with h | h | h <;> exact NameEvent.noConfusion h

/-- C15, as stated, fails. For the keys `A`, space, `B`, Enter the name-entry
step returns `A B`, which contains a whitespace character. -/
theorem getPlayerName_returns_space :
    (∃ ev, ev ∈ typedAB ∧ endsEntry ev) ∧
      getPlayerName typedAB = some "A B" ∧
      ∃ c, c ∈ "A B".data ∧ HighScore.isSpace c = true :=
  ⟨⟨NameEvent.TextEntered 13, by decide, Or.inr (Or.inl rfl)⟩, by decide,
    ⟨Char.ofNat 32, by decide, by decide⟩⟩

/-- C15, amended. For every sequence of events containing Enter or a window
close, `getPlayerName` returns a name that is non-empty, at most 15 characters
long and made of printable ASCII characters only (codes 32 to 126); the only
whitespace character it can contain is the space (code 32). -/
theorem getPlayerName_printable (events : List NameEvent)
    (hend : ∃ ev, ev ∈ events ∧ endsEntry ev) :
    ∃ name, getPlayerName events = some name ∧
      name.data ≠ [] ∧ name.data.length ≤ 15 ∧
      (∀ c, c ∈ name.data → 32 ≤ c.toNat ∧ c.toNat < 127) ∧
      (∀ c, c ∈ name.data → HighScore.isSpace c = true → c.toNat = 32) := by
  obtain ⟨name, hname⟩ := getPlayerNameLoop_returns events [] hend
  obtain ⟨hne, hlen, hchars⟩ := getPlayerNameLoop_ok events [] ⟨by simp, by simp⟩ name hname
  refine ⟨name, hname, hne, hlen, hchars, ?_⟩
  intro c hc hsp
  have := hchars c hc
  unfold HighScore.isSpace at hsp
  simp only [Bool.or_eq_true, Bool.and_eq_true, decide_eq_true_eq] at hsp
  omega

/-- C19. Wall collision: for every state of a running game (not over, snake
non-empty) in which head + direction lies outside the window rectangle
`[0, width) x [0, height)`, the tick on which `moveTimer` reaches
`moveInterval` returns with `gameOver` set and with the score, the snake body
and the food position unchanged. -/
theorem wall_collision_ends_game (rand : Nat → Nat × Nat) (fuel : Nat) (s : State)
    (deltaTime : Int) (head : Vec) (body : List Vec)
    (hplay : s.gameOver = false) (hsnake : s.snake = head :: body)
    (htime : s.moveTimer + deltaTime ≥ s.moveInterval)
    (hout : outsideWindow s (head.add s.direction)) :
    ∃ s', update rand fuel s deltaTime = some s' ∧ s'.gameOver = true ∧
      s'.score = s.score ∧ s'.snake = s.snake ∧ s'.food = s.food := by
  unfold outsideWindow at hout
  have hout' : (head.add s.direction).x < 0 ∨ (head.add s.direction).x ≥ (s.windowWidth : Int) ∨
      (head.add s.direction).y < 0 ∨ (head.add s.direction).y ≥ (s.windowHeight : Int) := hout
  unfold update
  simp only [hplay, Bool.false_eq_true, if_false, htime, if_true, hsnake, hout']
  exact ⟨_, rfl, rfl, rfl, rfl, rfl⟩

/-- Witness for C19: the snake heads left from the left edge of the window. -/
theorem wall_collision_ends_game_witness :
    atLeftWall.gameOver = false ∧
      atLeftWall.snake = Vec.mk 0 300 :: [Vec.mk 20 300, Vec.mk 40 300] ∧
      atLeftWall.moveTimer + 16667 ≥ atLeftWall.moveInterval ∧
      outsideWindow atLeftWall ((Vec.mk 0 300).add atLeftWall.direction) ∧
      ∃ s', update (fun _ => (0, 0)) 0 atLeftWall 16667 = some s' ∧ s'.gameOver = true ∧
        s'.score = atLeftWall.score ∧ s'.snake = atLeftWall.snake ∧
        s'.food = atLeftWall.food :=
  ⟨rfl, rfl, by decide, Or.inl (by decide),
    wall_collision_ends_game (fun _ => (0, 0)) 0 atLeftWall 16667 (Vec.mk 0 300)
      [Vec.mk 20 300, Vec.mk 40 300] rfl rfl (by decide) (Or.inl (by decide))⟩

/-- C20. Direction input: in every active playing state whose direction is
one of the four axis-aligned vectors of length `gridSize`, after an arrow-key
event the direction is never the exact opposite of the direction before, a
request along the axis the snake already travels on leaves the direction
unchanged, and the direction is again one of the four axis-aligned vectors of
length `gridSize`. -/
theorem arrow_key_direction (s : State) (code : Key)
    (hactive : s.gameStarted = true ∧ s.gameOver = false ∧ s.showingHighScores = false)
    (harrow : isArrow code) (hgrid : 0 < s.gridSize)
    (hdir : axisAligned s.gridSize s.direction) :
    (handleEvents [Event.KeyPressed code] s).1.direction ≠ s.direction.neg ∧
      (alongAxis code s.direction →
        (handleEvents [Event.KeyPressed code] s).1.direction = s.direction) ∧
      axisAligned s.gridSize (handleEvents [Event.KeyPressed code] s).1.direction := by
  have hev : (handleEvents [Event.KeyPressed code] s).1 = steer s code := by
    unfold handleEvents
    rcases harrow with h | h | h | h <;> subst h <;>
      simp [hactive.1, hactive.2.1, hactive.2.2, handleEvents]
  rw [hev]
  rcases s with ⟨snake, obstacles, food, ⟨dx, dy⟩, g, mt, mi, go, sh, gs, sc, sd, ho, ww, wh, dc⟩
  simp only at hgrid hdir
  unfold axisAligned at hdir
  simp only [Vec.mk.injEq] at hdir
  unfold alongAxis Vec.neg axisAligned steer
  rcases harrow with h | h | h | h <;> subst h <;> simp only <;>
    rcases hdir with ⟨h1, h2⟩ | ⟨h1, h2⟩ | ⟨h1, h2⟩ | ⟨h1, h2⟩ <;> subst h1 <;> subst h2 <;>
    (split_ifs <;> simp [Vec.mk.injEq] <;> omega)

/-- Witness for C15, amended: the keys `A`, space, `B`, Enter. -/
theorem getPlayerName_printable_witness :
    (∃ ev, ev ∈ typedAB ∧ endsEntry ev) ∧
      ∃ name, getPlayerName typedAB = some name ∧
        name.data ≠ [] ∧ name.data.length ≤ 15 ∧
        (∀ c, c ∈ name.data → 32 ≤ c.toNat ∧ c.toNat < 127) ∧
        (∀ c, c ∈ name.data → HighScore.isSpace c = true → c.toNat = 32) :=
  ⟨⟨NameEvent.TextEntered 13, by decide, Or.inr (Or.inl rfl)⟩,
    getPlayerName_printable typedAB ⟨NameEvent.TextEntered 13, by decide, Or.inr (Or.inl rfl)⟩⟩

/-- Witness for C20: the Up key while the snake travels to the left. -/
theorem arrow_key_direction_witness :
    (atLeftWall.gameStarted = true ∧ atLeftWall.gameOver = false ∧
        atLeftWall.showingHighScores = false) ∧
      isArrow Key.Up ∧ 0 < atLeftWall.gridSize ∧
      axisAligned atLeftWall.gridSize atLeftWall.direction ∧
      (handleEvents [Event.KeyPressed Key.Up] atLeftWall).1.direction ≠
        atLeftWall.direction.neg ∧
      (alongAxis Key.Up atLeftWall.direction →
        (handleEvents [Event.KeyPressed Key.Up] atLeftWall).1.direction =
          atLeftWall.direction) ∧
      axisAligned atLeftWall.gridSize
        (handleEvents [Event.KeyPressed Key.Up] atLeftWall).1.direction :=
  ⟨⟨rfl, rfl, rfl⟩, Or.inl rfl, by decide, Or.inr (Or.inl rfl),
    arrow_key_direction atLeftWall Key.Up ⟨rfl, rfl, rfl⟩ (Or.inl rfl) (by decide)
      (Or.inr (Or.inl rfl))⟩

end SnakeGame

/-! ## ConnectFour: whole-board agreement, commit bounds and the result message -/

namespace ConnectFour

/-- Ticks until the disc has landed stay within the reachable states. -/
theorem reachable_settle (fuel : Nat) :
    ∀ s s', Reachable s → settle fuel s = some s' → Reachable s' := by
  induction fuel with
  | zero =>
    intro s s' hs h
    unfold settle at h
    split_ifs at h
    have := Option.some.inj h
    subst this
    exact hs
  | succ n ih =>
    intro s s' hs h
    unfold settle at h
    split_ifs at h
    · have := Option.some.inj h
      subst this
      exact hs
    · cases hu : updateGame s with
      | none => rw [hu] at h; exact Option.noConfusion h
      | some s1 =>
        rw [hu] at h
        exact ih s1 s' (Reachable.tick s s1 hs hu) h

/-- A sequence of drops stays within the reachable states. -/
theorem reachable_playColumns (cols : List Nat) :
    ∀ s s', Reachable s → playColumns cols s = some s' → Reachable s' := by
  induction cols with
  | nil =>
    intro s s' hs h
    have := Option.some.inj h
    subst this
    exact hs
  | cons c cs ih =>
    intro s s' hs h
    unfold playColumns at h
    cases hd : dropInColumn s c with
    | none => rw [hd] at h; exact Option.noConfusion h
    | some s1 =>
      rw [hd] at h
      exact ih s1 s' (reachable_settle 60 _ s1 (Reachable.click s _ false hs) hd) h

/-- Playing two sequences of drops one after the other. -/
theorem playColumns_append (cs ds : List Nat) :
    ∀ s, playColumns (cs ++ ds) s = (playColumns cs s).bind (playColumns ds) := by
  induction cs with
  | nil => intro s; rfl
  | cons c cs ih =>
    intro s
    simp only [List.cons_append, playColumns]
    cases dropInColumn s c with
    | none => rfl
    | some s1 => exact ih s1

/-- The outcome of the whole game `lastDiscWinsGame`. -/
theorem lastDiscWins_outcome :
    (playColumns lastDiscWinsGame initial).map outcome =
      some (GameState.GameOver, 0, 1, "Game Over - Draw!") := by
  decide!

/-- The state of the game `lastDiscWinsGame` before its last drop. -/
theorem lastDiscWins_before :
    (playColumns (lastDiscWinsGame.take 41) initial).map outcome =
      some (GameState.Playing, 0, 0, "Player 2's Turn") := by
  decide!

/-- A horizontal or vertical run anywhere is reported by `checkWin` at a cell of
its row or column, a diagonal run at every cell. -/
theorem boardHasRun_checkWin {g : Grid} {p : Player} (h : boardHasRun g p) :
    ∃ (row : Fin 6) (col : Fin 7), checkWin g p row col = true := by
  obtain ⟨k, hk, r0, c0, h | h | h | h⟩ := h
  · have hb := cell?_bounds (h 0 (by omega))
    exact ⟨⟨r0, hb.1⟩, 0, (checkWin_windows g p _ _).2
      ((lastMoveRun_iff g p r0 0).1 ⟨k, hk, 0, c0, Or.inl h⟩)⟩
  · have hb := cell?_bounds (h 0 (by omega))
    exact ⟨0, ⟨c0, hb.2⟩, (checkWin_windows g p _ _).2
      ((lastMoveRun_iff g p 0 c0).1 ⟨k, hk, r0, 0, Or.inr (Or.inl h)⟩)⟩
  · exact ⟨0, 0, (checkWin_windows g p _ _).2
      ((lastMoveRun_iff g p 0 0).1 ⟨k, hk, r0, c0, Or.inr (Or.inr (Or.inl h))⟩)⟩
  · exact ⟨0, 0, (checkWin_windows g p _ _).2
      ((lastMoveRun_iff g p 0 0).1 ⟨k, hk, r0, c0, Or.inr (Or.inr (Or.inr h))⟩)⟩

/-- C26. Last-move detection agrees with whole-board detection: for every
grid `g`, every player `p` in {One, Two} and every cell `(r, c)` with
`g[r][c] = p`, if `g` with the cell `(r, c)` emptied holds no run of four of
`p` in any direction, then `checkWin(r, c)` with `currentPlayer = p` returns
true if and only if `g` holds four consecutive cells of `p` in some row, some
column or some diagonal anywhere on the board. -/
theorem last_move_detection_agrees (g : Grid) (p : Player) (r : Fin 6) (c : Fin 7)
    (hp : p = Player.One ∨ p = Player.Two) (hcell : g r c = p)
    (hbefore : ¬ boardHasRun (setCell g r c Player.None) p) :
    checkWin g p r c = true ↔ boardHasRun g p := by
  have hne : p ≠ Player.None := by
    rcases hp with h | h <;> rw [h] <;> decide
  have hsame : ∀ r' c', ¬ (r' = r.val ∧ c' = c.val) →
      cell? (setCell g r c Player.None) r' c' = cell? g r' c' := by
    intro r' c' hrc
    rw [cell?_setCell, if_neg hrc]
  constructor
  · intro h
    exact lastMoveRun_boardHasRun
      ((lastMoveRun_iff g p r.val c.val).2 ((checkWin_windows g p r c).1 h))
  · rintro ⟨k, hk, r0, c0, h | h | h | h⟩
    · by_cases hr : r0 = r.val
      · exact (checkWin_windows g p r c).2
          ((lastMoveRun_iff g p r.val c.val).1 ⟨k, hk, 0, c0, Or.inl (hr ▸ h)⟩)
      · exact absurd ⟨k, hk, r0, c0, Or.inl fun i hi => by
          rw [hsame _ _ (fun hh => hr hh.1)]; exact h i hi⟩ hbefore
    · by_cases hc : c0 = c.val
      · exact (checkWin_windows g p r c).2
          ((lastMoveRun_iff g p r.val c.val).1 ⟨k, hk, r0, 0, Or.inr (Or.inl (hc ▸ h))⟩)
      · exact absurd ⟨k, hk, r0, c0, Or.inr (Or.inl fun i hi => by
          rw [hsame _ _ (fun hh => hc hh.2)]; exact h i hi)⟩ hbefore
    · exact (checkWin_windows g p r c).2
        ((lastMoveRun_iff g p r.val c.val).1 ⟨k, hk, r0, c0, Or.inr (Or.inr (Or.inl h))⟩)
    · exact (checkWin_windows g p r c).2
        ((lastMoveRun_iff g p r.val c.val).1 ⟨k, hk, r0, c0, Or.inr (Or.inr (Or.inr h))⟩)

/-- Witness for C26: the bottom row `One One One One` with the last disc at
column 3. -/
theorem last_move_detection_agrees_witness :
    (Player.One = Player.One ∨ Player.One = Player.Two) ∧
      bottomRowGrid 5 3 = Player.One ∧
      ¬ boardHasRun (setCell bottomRowGrid 5 3 Player.None) Player.One ∧
      (checkWin bottomRowGrid Player.One 5 3 = true ↔ boardHasRun bottomRowGrid Player.One) :=
  have h : ¬ boardHasRun (setCell bottomRowGrid 5 3 Player.None) Player.One :=
    fun hrun => absurd (boardHasRun_checkWin hrun) (by decide)
  ⟨Or.inl rfl, by decide, h,
    last_move_detection_agrees bottomRowGrid Player.One 5 3 (Or.inl rfl) (by decide) h⟩

/-- C27. The commit is in bounds: in every state reachable from the
constructor through any sequence of clicks, ticks and Escape presses, a
dropping disc has its column in 0..6, that column holds an empty cell,
`getLowestEmptyRow` gives a row in 0..5 for it (never -1), and on the landing
tick `updateGame` returns having written the owner of the disc into the cell
of that row and column, which was empty before the write. -/
theorem commit_in_bounds (s : State) (hr : Reachable s) (disc : DroppingDisc)
    (hd : s.droppingDisc = some disc) :
    disc.col < 7 ∧
      (∃ r : Nat, r < 6 ∧ cell? s.grid r disc.col = some Player.None) ∧
      (∃ r : Nat, r < 6 ∧ getLowestEmptyRow s.grid disc.col = (r : Int)) ∧
      (disc.currentY + DROP_STEP ≥ disc.targetY →
        ∃ (r : Nat) (s' : State), r < 6 ∧
          getLowestEmptyRow s.grid disc.col = (r : Int) ∧
          cell? s.grid r disc.col = some Player.None ∧
          updateGame s = some s' ∧
          cell? s'.grid r disc.col = some disc.player) := by
  have hinv := reachable_inv s hr
  obtain ⟨_, hcol, htop⟩ := hinv.2 disc hd
  refine ⟨hcol, ⟨0, by omega, htop⟩, ?_, ?_⟩
  · rcases getLowestEmptyRow_spec s.grid disc.col with ⟨_, hnone⟩ | ⟨r, hrow, hlt, _, _⟩
    · exact absurd htop (hnone 0 (by omega))
    · exact ⟨r, hlt, hrow⟩
  · intro hland
    obtain ⟨r, c, hc, hrow, hempty, _, hupd⟩ := inv_landing s hinv disc hd hland
    refine ⟨r.val, landed s disc r c, r.isLt, hrow, ?_, hupd, ?_⟩
    · rw [hc, cell?_fin, hempty]
    · rw [landed_grid, cell?_setCell, if_pos ⟨rfl, hc⟩]

/-- Witness for C27: the first disc of a game, one tick before it lands. -/
theorem commit_in_bounds_witness :
    Reachable firstDiscLanding ∧
      firstDiscLanding.droppingDisc =
        some { col := 0, currentY := 1485, targetY := 1500, player := Player.One } ∧
      (0 : Nat) < 7 ∧
      (∃ r : Nat, r < 6 ∧ cell? firstDiscLanding.grid r 0 = some Player.None) ∧
      (∃ r : Nat, r < 6 ∧ getLowestEmptyRow firstDiscLanding.grid 0 = (r : Int)) ∧
      ((1485 : Int) + DROP_STEP ≥ 1500 →
        ∃ (r : Nat) (s' : State), r < 6 ∧
          getLowestEmptyRow firstDiscLanding.grid 0 = (r : Int) ∧
          cell? firstDiscLanding.grid r 0 = some Player.None ∧
          updateGame firstDiscLanding = some s' ∧
          cell? s'.grid r 0 = some Player.One) :=
  ⟨reachable_firstDiscLanding, rfl,
    commit_in_bounds firstDiscLanding reachable_firstDiscLanding
      { col := 0, currentY := 1485, targetY := 1500, player := Player.One } rfl⟩

/-- The status text after a landing that `checkWin` reports as a win: the draw
text when the board is full, the name of the current player otherwise. -/
theorem landed_win_statusText (s : State) (disc : DroppingDisc) (r : Fin 6) (c : Fin 7)
    (hwin : checkWin (setCell s.grid r c disc.player) s.currentPlayer r c = true) :
    (landed s disc r c).statusText =
      if isBoardFull (setCell s.grid r c disc.player) then "Game Over - Draw!"
      else (if s.currentPlayer = Player.One then "Player 1" else "Player 2") ++ " Wins!" := by
  unfold landed handleWin updateStatusText
  simp only [hwin, if_true]
  by_cases hp : s.currentPlayer = Player.One
  · simp only [hp, if_true]
    split_ifs <;> rfl
  · simp only [hp, if_false]
    split_ifs <;> rfl

/-- C30, as stated, fails. The 42 drops of `lastDiscWinsGame`, played from
the constructor by clicks and ticks, fill the board without a win until the
last disc; before that disc the phase is `Playing`, the scores are 0 and 0 and
it is the turn of player 2. The last disc, dropped by player 2 into column 3,
completes the top row: the game ends with player 2's score raised to 1, and
the status text reads "Game Over - Draw!", because `updateStatusText` tests
`isBoardFull` before it names the winner. -/
theorem win_on_last_cell_reads_draw :
    ∃ sBefore sAfter, Reachable sBefore ∧ Reachable sAfter ∧
      dropInColumn sBefore 3 = some sAfter ∧
      outcome sBefore = (GameState.Playing, 0, 0, "Player 2's Turn") ∧
      outcome sAfter = (GameState.GameOver, 0, 1, "Game Over - Draw!") := by
  have hb := lastDiscWins_before
  have ha := lastDiscWins_outcome
  have hsplit : lastDiscWinsGame = lastDiscWinsGame.take 41 ++ [3] := by decide
  cases hpb : playColumns (lastDiscWinsGame.take 41) initial with
  | none => rw [hpb] at hb; exact Option.noConfusion hb
  | some sBefore =>
    rw [hpb] at hb
    cases hpa : playColumns lastDiscWinsGame initial with
    | none => rw [hpa] at ha; exact Option.noConfusion ha
    | some sAfter =>
      rw [hpa] at ha
      have hstep : dropInColumn sBefore 3 = some sAfter := by
        have := playColumns_append (lastDiscWinsGame.take 41) [3] initial
        rw [← hsplit, hpa, hpb] at this
        change some sAfter = (dropInColumn sBefore 3).bind (playColumns []) at this
        cases hd : dropInColumn sBefore 3 with
        | none => rw [hd] at this; exact Option.noConfusion this
        | some s1 =>
          rw [hd] at this
          exact this.symm
      exact ⟨sBefore, sAfter, reachable_playColumns _ _ _ Reachable.init hpb,
        reachable_playColumns _ _ _ Reachable.init hpa, hstep, Option.some.inj hb,
        Option.some.inj ha⟩

/-! ### The draw condition -/

/-- The constructed state satisfies `TurnInv`. -/
theorem turnInv_initial : TurnInv initial := by
  have hp : initial.currentPlayer = Player.One := (updateStatusText_fields _).2.2.1
  have hd : initial.droppingDisc = none := (updateStatusText_fields _).2.2.2.2.2.1
  refine ⟨Or.inl hp, ?_⟩
  intro disc h
  rw [hd] at h
  exact Option.noConfusion h

/-- A mouse click keeps `TurnInv`. -/
theorem turnInv_click (s : State) (x : Int) (onContinue : Bool) (h : TurnInv s) :
    TurnInv (handleMouseClick s x onContinue) := by
  unfold handleMouseClick
  cases hst : s.currentState with
  | Playing =>
    simp only
    split_ifs with h1 h2
    · unfold makeMove
      simp only
      split_ifs with h3
      · refine ⟨h.1, ?_⟩
        intro disc hdisc
        have hdisc := Option.some.inj hdisc
        subst hdisc
        rfl
      · exact h
    · exact h
    · exact h
  | GameOver =>
    simp only
    split_ifs
    · exact h
    · exact h

/-- A landing keeps the player to move or passes the turn. -/
theorem landed_currentPlayer (s : State) (disc : DroppingDisc) (r : Fin 6) (c : Fin 7) :
    (landed s disc r c).currentPlayer = s.currentPlayer ∨
      (landed s disc r c).currentPlayer =
        (if s.currentPlayer = Player.One then Player.Two else Player.One) := by
  unfold landed handleWin handleDraw
  simp only
  split_ifs <;> simp only [(updateStatusText_fields _).2.2.1] <;> simp

/-- A tick of `updateGame` keeps `TurnInv`. -/
theorem turnInv_tick (s s' : State) (hinv : Inv s) (h : TurnInv s)
    (ht : updateGame s = some s') : TurnInv s' := by
  cases hd : s.droppingDisc with
  | none =>
    unfold updateGame at ht
    rw [hd] at ht
    have := Option.some.inj ht
    subst this
    exact h
  | some disc =>
    by_cases hland : disc.currentY + DROP_STEP ≥ disc.targetY
    · obtain ⟨r, c, _, _, _, _, hupd⟩ := inv_landing s hinv disc hd hland
      rw [hupd] at ht
      have := Option.some.inj ht
      subst this
      refine ⟨?_, ?_⟩
      · rcases landed_currentPlayer s disc r c with e | e
        · rw [e]; exact h.1
        · rw [e]
          rcases h.1 with e1 | e1 <;> rw [e1] <;> simp
      · intro d hdd
        rw [landed_droppingDisc] at hdd
        exact Option.noConfusion hdd
    · unfold updateGame at ht
      rw [hd] at ht
      simp only [hland, if_false] at ht
      have := Option.some.inj ht
      subst this
      refine ⟨h.1, ?_⟩
      intro d hdd
      have hdd := Option.some.inj hdd
      subst hdd
      exact h.2 disc hd

/-- Every reachable state satisfies `TurnInv`. -/
theorem reachable_turnInv (s : State) (h : Reachable s) : TurnInv s := by
  induction h with
  | init => exact turnInv_initial
  | click s x b _ ih => exact turnInv_click s x b ih
  | tick s s' hs ht ih => exact turnInv_tick s s' (reachable_inv s hs) ih ht
  | escape s _ ih => exact ih

/-- The grid after `setCell`, cell by cell. -/
theorem setCell_apply (g : Grid) (r : Fin 6) (c : Fin 7) (p : Player) (a : Fin 6) (b : Fin 7) :
    setCell g r c p a b = if a = r ∧ b = c then p else g a b := by
  unfold setCell
  by_cases ha : a = r
  · subst ha
    rw [Function.update_same]
    by_cases hb : b = c
    · subst hb
      rw [Function.update_same, if_pos ⟨rfl, rfl⟩]
    · rw [Function.update_noteq hb, if_neg (fun h => hb h.2)]
  · rw [Function.update_noteq ha, if_neg (fun h => ha h.1)]

/-- The state `lastDiscOfDraw` is reachable. -/
theorem reachable_lastDiscOfDraw : Reachable lastDiscOfDraw := by
  unfold lastDiscOfDraw
  cases hp : playColumns (drawnGame.take 41) initial with
  | none => exact Reachable.init
  | some s1 =>
    have h1 : Reachable s1 := reachable_playColumns _ _ _ Reachable.init hp
    simp only [Option.map_some', Option.some_bind]
    cases ht : ticks 9 (handleMouseClick s1 (GRID_OFFSET_X + 40) false) with
    | none => exact Reachable.init
    | some s2 =>
      exact reachable_ticks 9 _ s2 (Reachable.click s1 _ false h1) ht

/-- The disc dropping in `lastDiscOfDraw`. -/
theorem lastDiscOfDraw_disc :
    lastDiscOfDraw.droppingDisc =
      some { col := 0, currentY := 285, targetY := 300, player := Player.Two } := by
  decide!

/-- What the session shows before and after the last disc of `drawnGame` lands. -/
theorem lastDiscOfDraw_outcome :
    (outcome lastDiscOfDraw, (updateGame lastDiscOfDraw).map outcome) =
      ((GameState.Playing, 0, 0, "Player 2's Turn"),
        some (GameState.GameOver, 0, 0, "Game Over - Draw!")) := by
  decide!

/-- C18. Draw condition: in every state reachable from the constructor by
clicks, ticks and Escape presses, `isBoardFull` (which reads the top row only)
is true exactly when no cell is empty; and the tick on which a disc lands
returns having written the disc of the player to move, One or Two, into the
cell `(r, c)` that `getLowestEmptyRow` gives, which was empty, with every
other cell as before and no disc dropping any more.  That drop ends the game
as a draw (phase `GameOver`, both scores unchanged) if and only if `checkWin`
is false for it and every one of the 42 cells is occupied, which is the case
exactly when every cell other than `(r, c)` was occupied before. -/
theorem draw_condition (s : State) (hr : Reachable s) :
    (isBoardFull s.grid = true ↔ allOccupied s.grid) ∧
    ∀ disc, s.droppingDisc = some disc → disc.currentY + DROP_STEP ≥ disc.targetY →
      ∃ (s' : State) (r : Fin 6) (c : Fin 7),
        updateGame s = some s' ∧
        getLowestEmptyRow s.grid disc.col = (r.val : Int) ∧ disc.col = c.val ∧
        disc.player = s.currentPlayer ∧
        (disc.player = Player.One ∨ disc.player = Player.Two) ∧
        s.grid r c = Player.None ∧ s'.grid r c = disc.player ∧
        (∀ (r' : Fin 6) (c' : Fin 7), r' ≠ r ∨ c' ≠ c → s'.grid r' c' = s.grid r' c') ∧
        s'.droppingDisc = none ∧
        ((s'.currentState = GameState.GameOver ∧
            s'.player1Score = s.player1Score ∧ s'.player2Score = s.player2Score) ↔
          (checkWin s'.grid s.currentPlayer r c = false ∧ allOccupied s'.grid)) ∧
        (allOccupied s'.grid ↔
          ∀ (r' : Fin 6) (c' : Fin 7), r' ≠ r ∨ c' ≠ c → s.grid r' c' ≠ Player.None) ∧
        (isBoardFull s'.grid = true ↔ allOccupied s'.grid) := by
  have hinv := reachable_inv s hr
  have hturn := reachable_turnInv s hr
  refine ⟨isBoardFull_iff_allOccupied s.grid hinv.1, ?_⟩
  intro disc hd hland
  obtain ⟨r, c, hcol, hrow, hempty, _, hupd⟩ := inv_landing s hinv disc hd hland
  have hinv' := inv_tick s _ hinv hupd
  have hfull := isBoardFull_iff_allOccupied _ hinv'.1
  have hpl : disc.player = s.currentPlayer := hturn.2 disc hd
  have hpl2 : disc.player = Player.One ∨ disc.player = Player.Two := by
    rw [hpl]; exact hturn.1
  have hne : disc.player ≠ Player.None := by
    rcases hpl2 with e | e <;> rw [e] <;> decide
  have hwritten : (landed s disc r c).grid r c = disc.player := by
    rw [landed_grid, setCell_apply, if_pos ⟨rfl, rfl⟩]
  have hothers : ∀ (r' : Fin 6) (c' : Fin 7), r' ≠ r ∨ c' ≠ c →
      (landed s disc r c).grid r' c' = s.grid r' c' := by
    intro r' c' hrc
    rw [landed_grid, setCell_apply, if_neg]
    rintro ⟨h1, h2⟩
    rcases hrc with h | h
    · exact h h1
    · exact h h2
  refine ⟨landed s disc r c, r, c, hupd, hrow, hcol, hpl, hpl2, hempty, hwritten, hothers,
    landed_droppingDisc s disc r c, ?_, ?_, hfull⟩
  · rw [landed_outcome s disc r c (hinv.2 disc hd).1, ← hfull, landed_grid]
  · constructor
    · intro hall r' c' hrc
      rw [← hothers r' c' hrc]
      exact hall r' c'
    · intro hall r' c'
      by_cases hrc : r' = r ∧ c' = c
      · rw [hrc.1, hrc.2, hwritten]
        exact hne
      · rw [hothers r' c' (by
          by_cases h1 : r' = r
          · exact Or.inr fun h2 => hrc ⟨h1, h2⟩
          · exact Or.inl h1)]
        exact hall r' c' (by
          by_cases h1 : r' = r
          · exact Or.inr fun h2 => hrc ⟨h1, h2⟩
          · exact Or.inl h1)

/-- Witness for C18: the last disc of `drawnGame`, one tick before it lands.
Before the tick the phase is `Playing` with the scores 0 and 0; the tick ends
the game as a draw. -/
theorem draw_condition_witness :
    Reachable lastDiscOfDraw ∧
    lastDiscOfDraw.droppingDisc =
      some { col := 0, currentY := 285, targetY := 300, player := Player.Two } ∧
    (285 : Int) + DROP_STEP ≥ 300 ∧
    (outcome lastDiscOfDraw, (updateGame lastDiscOfDraw).map outcome) =
      ((GameState.Playing, 0, 0, "Player 2's Turn"),
        some (GameState.GameOver, 0, 0, "Game Over - Draw!")) ∧
    (isBoardFull lastDiscOfDraw.grid = true ↔ allOccupied lastDiscOfDraw.grid) ∧
    ∃ (s' : State) (r : Fin 6) (c : Fin 7),
      updateGame lastDiscOfDraw = some s' ∧
      getLowestEmptyRow lastDiscOfDraw.grid 0 = (r.val : Int) ∧ 0 = c.val ∧
      Player.Two = lastDiscOfDraw.currentPlayer ∧
      (Player.Two = Player.One ∨ Player.Two = Player.Two) ∧
      lastDiscOfDraw.grid r c = Player.None ∧ s'.grid r c = Player.Two ∧
      (∀ (r' : Fin 6) (c' : Fin 7), r' ≠ r ∨ c' ≠ c →
        s'.grid r' c' = lastDiscOfDraw.grid r' c') ∧
      s'.droppingDisc = none ∧
      ((s'.currentState = GameState.GameOver ∧
          s'.player1Score = lastDiscOfDraw.player1Score ∧
          s'.player2Score = lastDiscOfDraw.player2Score) ↔
        (checkWin s'.grid lastDiscOfDraw.currentPlayer r c = false ∧ allOccupied s'.grid)) ∧
      (allOccupied s'.grid ↔
        ∀ (r' : Fin 6) (c' : Fin 7), r' ≠ r ∨ c' ≠ c →
          lastDiscOfDraw.grid r' c' ≠ Player.None) ∧
      (isBoardFull s'.grid = true ↔ allOccupied s'.grid) :=
  ⟨reachable_lastDiscOfDraw, lastDiscOfDraw_disc, by decide, lastDiscOfDraw_outcome,
    (draw_condition lastDiscOfDraw reachable_lastDiscOfDraw).1,
    (draw_condition lastDiscOfDraw reachable_lastDiscOfDraw).2
      { col := 0, currentY := 285, targetY := 300, player := Player.Two }
      lastDiscOfDraw_disc (by decide)⟩

end ConnectFour

/-! ## TicTacToe: reply of the computer and immutable cells -/

namespace TicTacToe

/-- The call `makeAIMove` either plays an empty cell of the board it was given, through `makeMove`, or finds no empty cell and returns the state as it is. -/
theorem makeAIMove_cases (rand : Nat → Nat) (n : Nat) (s : State) :
    (∃ j rc, s.board j = Player.None ∧
        makeAIMove rand (n + 1) s = makeMove rand n { s with randCalls := rc } j) ∨
      ((∀ k, s.board k ≠ Player.None) ∧ makeAIMove rand (n + 1) s = some s) := by
  unfold makeAIMove
  obtain ⟨h1, h2, _⟩ := aiTryLoop_spec Player.O s.board (List.finRange 9) finRange_nine_sorted
  rcases hres : aiTryLoop Player.O (List.finRange 9) s.board with ⟨b1, r1⟩
  rw [hres] at h1 h2
  simp only at h1 h2
  subst h1
  cases r1 with
  | some i =>
    exact Or.inl ⟨i, s.randCalls, (h2 i rfl).2.1, rfl⟩
  | none =>
    simp only
    obtain ⟨g1, g2, _⟩ := aiTryLoop_spec Player.X s.board (List.finRange 9) finRange_nine_sorted
    rcases hres2 : aiTryLoop Player.X (List.finRange 9) s.board with ⟨b2, r2⟩
    rw [hres2] at g1 g2
    simp only at g1 g2
    subst g1
    cases r2 with
    | some i =>
      exact Or.inl ⟨i, s.randCalls, (g2 i rfl).2.1, rfl⟩
    | none =>
      simp only
      by_cases hlen : 0 < ((List.finRange 9).filter fun i => s.board i = Player.None).length
      · rw [dif_pos hlen]
        refine Or.inl ⟨_, s.randCalls + 1, ?_, rfl⟩
        have hmem := List.get_mem ((List.finRange 9).filter fun i => s.board i = Player.None)
          (rand s.randCalls % ((List.finRange 9).filter fun i => s.board i = Player.None).length)
          (Nat.mod_lt _ hlen)
        have := (List.mem_filter.1 hmem).2
        simpa using this
      · rw [dif_neg hlen]
        refine Or.inr ⟨?_, rfl⟩
        intro k hk
        apply hlen
        apply List.length_pos_of_mem (a := k)
        exact List.mem_filter.2 ⟨List.mem_finRange k, by simpa using hk⟩

/-- A move of O on an empty cell of a running game: the cell is taken, and the
call ends the game or passes the turn to X without a nested reply. -/
theorem makeMove_O_result (rand : Nat → Nat) (n : Nat) (s : State) (cell : Fin 9)
    (hc : s.board cell = Player.None) (hgo : s.gameOver = false)
    (hturn : s.currentPlayer = Player.O) :
    ∃ s', makeMove rand (n + 1) s cell = some s' ∧
      s'.board = Function.update s.board cell Player.O ∧
      (s'.gameOver = true ∨ s'.currentPlayer = Player.X) := by
  unfold makeMove
  by_cases h1 : (checkWin (Function.update s.board cell Player.O) ||
      checkDraw (Function.update s.board cell Player.O)) = true
  · simp [hc, hgo, hturn, h1]
  · simp [hc, hgo, hturn, h1]

/-- A call of `makeMove` by a side other than X returns without a nested reply. -/
theorem makeMove_returns_of_not_X (rand : Nat → Nat) (n : Nat) (s : State) (cell : Fin 9)
    (hturn : s.currentPlayer ≠ Player.X) :
    ∃ s', makeMove rand (n + 1) s cell = some s' := by
  unfold makeMove
  by_cases h0 : s.board cell = Player.None ∧ s.gameOver = false
  · rw [if_pos h0]
    by_cases h1 : (checkWin (Function.update s.board cell s.currentPlayer) ||
        checkDraw (Function.update s.board cell s.currentPlayer)) = true
    · simp only [h1, if_true]
      exact ⟨_, rfl⟩
    · simp only [h1, if_false, if_neg hturn]
      rw [if_neg (fun h : s.gameMode = GameMode.PvC ∧ Player.X = Player.O =>
        absurd h.2 (by decide))]
      exact ⟨_, rfl⟩
  · rw [if_neg h0]
    exact ⟨_, rfl⟩

/-- A call of `makeAIMove` by a side other than X returns. -/
theorem makeAIMove_returns_of_not_X (rand : Nat → Nat) (n : Nat) (s : State)
    (hturn : s.currentPlayer ≠ Player.X) :
    ∃ s', makeAIMove rand (n + 2) s = some s' := by
  rcases makeAIMove_cases rand (n + 1) s with ⟨j, rc, _, h⟩ | ⟨_, h⟩
  · rw [h]
    exact makeMove_returns_of_not_X rand n _ j hturn
  · exact ⟨s, h⟩

/-- With fuel 3 or more `makeMove` returns. -/
theorem makeMove_returns (rand : Nat → Nat) (n : Nat) (s : State) (cell : Fin 9) :
    ∃ s', makeMove rand (n + 3) s cell = some s' := by
  unfold makeMove
  by_cases h0 : s.board cell = Player.None ∧ s.gameOver = false
  · rw [if_pos h0]
    by_cases h1 : (checkWin (Function.update s.board cell s.currentPlayer) ||
        checkDraw (Function.update s.board cell s.currentPlayer)) = true
    · simp only [h1, if_true]
      exact ⟨_, rfl⟩
    · simp only [h1, if_false]
      by_cases h2 : s.gameMode = GameMode.PvC ∧
          (if s.currentPlayer = Player.X then Player.O else Player.X) = Player.O
      · rw [if_pos h2]
        exact makeAIMove_returns_of_not_X rand n _
          (fun e => absurd (h2.2.symm.trans e) (by decide))
      · rw [if_neg h2]
        exact ⟨_, rfl⟩
  · rw [if_neg h0]
    exact ⟨_, rfl⟩

/-- Whatever the fuel, a returning call of `makeMove` or `makeAIMove` leaves
every occupied cell with its owner. -/
theorem calls_keep_owners (rand : Nat → Nat) (fuel : Nat) :
    (∀ s cell s', makeMove rand fuel s cell = some s' →
        ∀ k, s.board k ≠ Player.None → s'.board k = s.board k) ∧
      (∀ s s', makeAIMove rand fuel s = some s' →
        ∀ k, s.board k ≠ Player.None → s'.board k = s.board k) := by
  induction fuel with
  | zero =>
    constructor
    · intro s cell s' h
      unfold makeMove at h
      exact Option.noConfusion h
    · intro s s' h
      unfold makeAIMove at h
      exact Option.noConfusion h
  | succ n ih =>
    constructor
    · intro s cell s' h k hk
      unfold makeMove at h
      by_cases h0 : s.board cell = Player.None ∧ s.gameOver = false
      · rw [if_pos h0] at h
        have hkc : k ≠ cell := fun e => hk (e ▸ h0.1)
        have hupd : Function.update s.board cell s.currentPlayer k = s.board k :=
          Function.update_noteq hkc _ _
        by_cases h1 : (checkWin (Function.update s.board cell s.currentPlayer) ||
            checkDraw (Function.update s.board cell s.currentPlayer)) = true
        · simp only [h1, if_true] at h
          rw [← Option.some.inj h]
          exact hupd
        · simp only [h1, if_false] at h
          by_cases h2 : s.gameMode = GameMode.PvC ∧
              (if s.currentPlayer = Player.X then Player.O else Player.X) = Player.O
          · rw [if_pos h2] at h
            have := ih.2 _ s' h k (by
              show Function.update s.board cell s.currentPlayer k ≠ _
              rw [hupd]; exact hk)
            exact this.trans hupd
          · rw [if_neg h2] at h
            rw [← Option.some.inj h]
            exact hupd
      · rw [if_neg h0] at h
        rw [← Option.some.inj h]
    · intro s s' h k hk
      rcases makeAIMove_cases rand n s with ⟨j, rc, _, he⟩ | ⟨_, he⟩
      · rw [he] at h
        exact ih.1 _ j s' h k hk
      · rw [he] at h
        rw [← Option.some.inj h]

/-- C24. Board cells are immutable once set: each trial loop of `makeAIMove`
leaves the board as it found it, and for every state, every cell and every
fuel of 3 or more `makeMove` returns with every cell that held X or O before
the call holding the same owner after it, the nested reply of the computer
included; a move on an occupied cell returns the state unchanged. -/
theorem cells_immutable_once_set (rand : Nat → Nat) (n : Nat) (s : State) (cell : Fin 9) :
    (∀ p b, (aiTryLoop p (List.finRange 9) b).1 = b) ∧
      ∃ s', makeMove rand (n + 3) s cell = some s' ∧
        (∀ k, s.board k ≠ Player.None → s'.board k = s.board k) ∧
        (s.board cell ≠ Player.None → s' = s) := by
  refine ⟨fun p b => (aiTryLoop_spec p b (List.finRange 9) finRange_nine_sorted).1, ?_⟩
  obtain ⟨s', hs'⟩ := makeMove_returns rand n s cell
  refine ⟨s', hs', (calls_keep_owners rand (n + 3)).1 s cell s' hs', ?_⟩
  intro hocc
  unfold makeMove at hs'
  rw [if_neg (fun h => hocc h.1)] at hs'
  exact (Option.some.inj hs').symm

/-- C23. Synchronous reply of the computer: in Player-vs-Computer mode, for
every running state with X to move, every empty cell `c` and every fuel of 3 or
more, `makeMove(c)` returns, and afterwards either `gameOver` is true, or it is
X's turn again and the board is the board before the call with X written into
`c` and O written into one other cell `j` that was empty; and every call of
`handleGameClick` from such a state returns with the game over or X to move,
so it is never O's turn between input events unless the game is over. -/
theorem ai_reply_is_synchronous (rand : Nat → Nat) (n : Nat) (s : State) (c : Fin 9)
    (hmode : s.gameMode = GameMode.PvC) (hgo : s.gameOver = false)
    (hturn : s.currentPlayer = Player.X) (hc : s.board c = Player.None) :
    (∃ s', makeMove rand (n + 3) s c = some s' ∧
        (s'.gameOver = true ∨
          (s'.currentPlayer = Player.X ∧
            ∃ j, j ≠ c ∧ s.board j = Player.None ∧
              s'.board = Function.update (Function.update s.board c Player.X) j Player.O))) ∧
      ∀ hit, ∃ s', handleGameClick rand (n + 3) s hit = some s' ∧
        (s'.gameOver = true ∨ s'.currentPlayer = Player.X) := by
  have main : ∀ c, s.board c = Player.None →
      ∃ s', makeMove rand (n + 3) s c = some s' ∧
        (s'.gameOver = true ∨
          (s'.currentPlayer = Player.X ∧
            ∃ j, j ≠ c ∧ s.board j = Player.None ∧
              s'.board = Function.update (Function.update s.board c Player.X) j Player.O)) := by
    intro c hc
    unfold makeMove
    rw [if_pos ⟨hc, hgo⟩]
    simp only [hturn, if_true]
    by_cases h1 : (checkWin (Function.update s.board c Player.X) ||
        checkDraw (Function.update s.board c Player.X)) = true
    · rw [if_pos h1]
      exact ⟨_, rfl, Or.inl rfl⟩
    · rw [if_neg h1, if_pos ⟨hmode, trivial⟩]
      rcases makeAIMove_cases rand (n + 1)
        { s with board := Function.update s.board c Player.X, currentPlayer := Player.O }
        with ⟨j, rc, hj, he⟩ | ⟨hfull, _⟩
      · rw [he]
        obtain ⟨s', hs', hb, hor⟩ := makeMove_O_result rand n
          { s with board := Function.update s.board c Player.X, currentPlayer := Player.O,
                   randCalls := rc } j hj hgo rfl
        have hjc : j ≠ c := by
          intro e
          rw [e] at hj
          simp at hj
        refine ⟨s', hs', ?_⟩
        rcases hor with h | h
        · exact Or.inl h
        · refine Or.inr ⟨h, j, hjc, ?_, hb⟩
          have : Function.update s.board c Player.X j = s.board j :=
            Function.update_noteq hjc _ _
          rw [← this]
          exact hj
      · exfalso
        apply h1
        have : checkDraw (Function.update s.board c Player.X) = true := by
          unfold checkDraw
          rw [List.all_eq_true]
          intro k _
          simpa using hfull k
        rw [this, Bool.or_true]
  refine ⟨main c hc, ?_⟩
  intro hit
  unfold handleGameClick
  rw [if_pos hgo, if_neg (by rw [hturn]; simp)]
  cases hit with
  | none => exact ⟨s, rfl, Or.inr hturn⟩
  | some i =>
    by_cases hi : s.board i = Player.None
    · obtain ⟨s', hs', hor⟩ := main i hi
      exact ⟨s', hs', hor.imp id fun h => h.1⟩
    · refine ⟨s, ?_, Or.inr hturn⟩
      show makeMove rand (n + 3) s i = some s
      unfold makeMove
      rw [if_neg (fun h => hi h.1)]

/-- Witness for C23: X plays cell 1 on the board `X . . / . O . / . . .`. -/
theorem ai_reply_is_synchronous_witness :
    (humanTurn openingBoard).gameMode = GameMode.PvC ∧
      (humanTurn openingBoard).gameOver = false ∧
      (humanTurn openingBoard).currentPlayer = Player.X ∧
      (humanTurn openingBoard).board 1 = Player.None ∧
      ((∃ s', makeMove (fun _ => 0) 3 (humanTurn openingBoard) 1 = some s' ∧
          (s'.gameOver = true ∨
            (s'.currentPlayer = Player.X ∧
              ∃ j, j ≠ 1 ∧ (humanTurn openingBoard).board j = Player.None ∧
                s'.board = Function.update
                  (Function.update (humanTurn openingBoard).board 1 Player.X) j Player.O))) ∧
        ∀ hit, ∃ s', handleGameClick (fun _ => 0) 3 (humanTurn openingBoard) hit = some s' ∧
          (s'.gameOver = true ∨ s'.currentPlayer = Player.X)) :=
  ⟨rfl, rfl, rfl, by decide,
    ai_reply_is_synchronous (fun _ => 0) 0 (humanTurn openingBoard) 1 rfl rfl rfl (by decide)⟩

end TicTacToe

/-! ## RockPaperScissors: phase GameOver and the tallies -/

namespace RockPaperScissors

/-- The call `makeChoice` always leaves the phase `RoundEnd`. -/
theorem makeChoice_currentState (s : State) (choice : Choice) (draw : Fin 3) :
    (makeChoice s choice draw).currentState = GameState.RoundEnd := rfl

theorem gameOverInv_of_ne {s : State} (h : s.currentState ≠ GameState.GameOver) :
    GameOverInv s := fun hgo => absurd hgo h

/-- A mouse click keeps `GameOverInv`. -/
theorem gameOverInv_click (s : State) (hit : MouseHit) (draw : Fin 3) (h : GameOverInv s) :
    GameOverInv (handleMouseClick s hit draw) := by
  unfold handleMouseClick
  cases hs : s.currentState with
  | SelectRounds =>
    simp only
    unfold handleRoundSelection
    cases (List.range 3).find? hit.roundButtons with
    | none => exact gameOverInv_of_ne (by rw [hs]; decide)
    | some i => exact gameOverInv_of_ne (by simp)
  | Playing =>
    simp only
    unfold handleChoiceSelection
    split_ifs
    all_goals first
      | exact gameOverInv_of_ne (by rw [makeChoice_currentState]; decide)
      | exact gameOverInv_of_ne (by rw [hs]; decide)
  | RoundEnd =>
    simp only
    split_ifs
    all_goals exact gameOverInv_of_ne (by simp)
  | GameOver =>
    simp only
    split_ifs
    · intro _; exact h hs
    · exact h

/-- A key press keeps `GameOverInv`. -/
theorem gameOverInv_key (s : State) (key : Key) (draw : Fin 3) (h : GameOverInv s) :
    GameOverInv (handleKeyPress s key draw) := by
  unfold handleKeyPress
  split_ifs with hc
  · cases key
    all_goals first
      | exact gameOverInv_of_ne (by simp only [makeChoice_currentState]; decide)
      | exact h
  · exact h

/-- A call of `updateGame` keeps `GameOverInv`. -/
theorem gameOverInv_tick (s : State) (deltaTime : Int) (h : GameOverInv s) :
    GameOverInv (updateGame s deltaTime) := by
  unfold updateGame
  cases hs : s.currentState with
  | SelectRounds => simp only; exact h
  | Playing =>
    simp only
    split_ifs
    · exact gameOverInv_of_ne (by simp [hs])
    · exact h
  | RoundEnd =>
    simp only
    split_ifs with h1 h2
    · intro _; exact h2
    · exact gameOverInv_of_ne (by simp)
    · exact gameOverInv_of_ne (by simp [hs])
  | GameOver => simp only; exact h

/-- Every reachable session state satisfies `GameOverInv`. -/
theorem reachable_gameOverInv (s : State) (h : Reachable s) : GameOverInv s := by
  induction h with
  | init a b c => exact gameOverInv_of_ne (by simp [initial])
  | click s hit draw _ ih => exact gameOverInv_click s hit draw ih
  | key s key draw _ ih => exact gameOverInv_key s key draw ih
  | escape s _ ih => exact ih
  | tick s dt _ ih => exact gameOverInv_tick s dt ih

theorem reachable_firstRound : Reachable firstRound :=
  Reachable.click _ _ _ (Reachable.init 0 0 0)

theorem reachable_winThenClick : Reachable winThenClick :=
  Reachable.click _ _ _ (Reachable.tick _ _ (Reachable.key _ _ _ reachable_firstRound))

theorem reachable_twoWinsThenWait : Reachable twoWinsThenWait :=
  Reachable.tick _ _ (Reachable.key _ _ _ reachable_winThenClick)

theorem reachable_threeWins : Reachable threeWins :=
  Reachable.key _ _ _ (Reachable.click _ _ _
    (Reachable.tick _ _ (Reachable.key _ _ _ reachable_winThenClick)))

/-- C25. Phase `GameOver` only on target score: in every state reachable from
the constructor through any sequence of mouse clicks, key presses and calls of
`updateGame`, `currentState = GameOver` implies `playerScore >= targetScore` or
`computerScore >= targetScore`. -/
theorem gameOver_only_on_target (s : State) (h : Reachable s)
    (hgo : s.currentState = GameState.GameOver) :
    s.playerScore ≥ s.targetScore ∨ s.computerScore ≥ s.targetScore :=
  reachable_gameOverInv s h hgo

/-- Witness for C25: a best of three in which the player has won two rounds
and the round-end delay has run out. -/
theorem gameOver_only_on_target_witness :
    Reachable twoWinsThenWait ∧ twoWinsThenWait.currentState = GameState.GameOver ∧
      (twoWinsThenWait.playerScore ≥ twoWinsThenWait.targetScore ∨
        twoWinsThenWait.computerScore ≥ twoWinsThenWait.targetScore) :=
  ⟨reachable_twoWinsThenWait, by decide,
    gameOver_only_on_target twoWinsThenWait reachable_twoWinsThenWait (by decide)⟩

/-- C28, as stated, fails. In a best of three (target score 2) the player
wins a round and clicks during the pause, wins a second round
(`determineRoundWinner` sets `GameOver` at tally 2, `makeChoice` overwrites the
phase with `RoundEnd`), clicks again one frame later (the click returns to
`Playing` without the test of the tallies that `updateGame` makes) and wins a
third round: the reachable state `threeWins` has `playerScore = 3` above
`targetScore = 2`. -/
theorem tally_exceeds_target :
    Reachable threeWins ∧ threeWins.shouldExit = false ∧
      threeWins.targetScore = 2 ∧ threeWins.playerScore = 3 ∧
      ¬ (threeWins.playerScore ≤ threeWins.targetScore) ∧
      (determineRoundWinner
        { winThenClick with playerChoice := Choice.Rock,
                            computerChoice := Choice.Scissors }).currentState
        = GameState.GameOver ∧
      (handleKeyPress winThenClick Key.R 2).currentState = GameState.RoundEnd ∧
      (handleKeyPress winThenClick Key.R 2).playerScore = 2 ∧
      (handleMouseClick (updateGame (handleKeyPress winThenClick Key.R 2) 16667)
        noHit 0).currentState = GameState.Playing :=
  ⟨reachable_threeWins, by decide, by decide, by decide, by decide, by decide, by decide,
    by decide, by decide⟩

end RockPaperScissors

/-! ## SnakeGame: body invariant, score and the reversal guard -/

namespace SnakeGame

/-- The call `setupGame` on the constructed object gives the fresh game. -/
theorem setupGame_freshGame :
    setupGame foodAhead 1 (constructed Difficulty.EASY false) =
      some { freshGame with gameStarted := false } := by
  rfl

/-- The first move of the fresh game eats the food. -/
theorem update_freshGame : update foodAhead 1 freshGame 150000 = some afterMeal := by
  rfl

/-- The call `spawnFood` changes neither body, direction, cell size nor score. -/
theorem spawnFood_core (rand : Nat → Nat × Nat) (fuel : Nat) :
    ∀ s s', spawnFood rand fuel s = some s' →
      s'.snake = s.snake ∧ s'.direction = s.direction ∧ s'.gridSize = s.gridSize ∧
        s'.score = s.score := by
  induction fuel with
  | zero =>
    intro s s' h
    unfold spawnFood at h
    exact Option.noConfusion h
  | succ n ih =>
    intro s s' h
    unfold spawnFood at h
    simp only at h
    split_ifs at h with hv
    · rw [← Option.some.inj h]
      exact ⟨rfl, rfl, rfl, rfl⟩
    · obtain ⟨a1, a2, a3, a4⟩ := ih _ s' h
      exact ⟨a1, a2, a3, a4⟩

/-- Placing an obstacle changes neither body, direction, cell size nor score. -/
theorem placeObstacle_core (rand : Nat → Nat × Nat) (fuel : Nat) :
    ∀ s s', placeObstacle rand fuel s = some s' →
      s'.snake = s.snake ∧ s'.direction = s.direction ∧ s'.gridSize = s.gridSize ∧
        s'.score = s.score := by
  induction fuel with
  | zero =>
    intro s s' h
    unfold placeObstacle at h
    exact Option.noConfusion h
  | succ n ih =>
    intro s s' h
    unfold placeObstacle at h
    simp only at h
    split_ifs at h with hv
    · rw [← Option.some.inj h]
      exact ⟨rfl, rfl, rfl, rfl⟩
    · obtain ⟨a1, a2, a3, a4⟩ := ih _ s' h
      exact ⟨a1, a2, a3, a4⟩

/-- The obstacle loop changes neither body, direction, cell size nor score. -/
theorem createObstaclesLoop_core (rand : Nat → Nat × Nat) (fuel count : Nat) :
    ∀ s s', createObstaclesLoop rand fuel count s = some s' →
      s'.snake = s.snake ∧ s'.direction = s.direction ∧ s'.gridSize = s.gridSize ∧
        s'.score = s.score := by
  induction count with
  | zero =>
    intro s s' h
    unfold createObstaclesLoop at h
    rw [← Option.some.inj h]
    exact ⟨rfl, rfl, rfl, rfl⟩
  | succ n ih =>
    intro s s' h
    unfold createObstaclesLoop at h
    cases hp : placeObstacle rand fuel s with
    | none => rw [hp] at h; exact Option.noConfusion h
    | some s1 =>
      rw [hp] at h
      obtain ⟨a1, a2, a3, a4⟩ := placeObstacle_core rand fuel s s1 hp
      obtain ⟨b1, b2, b3, b4⟩ := ih s1 s' h
      exact ⟨b1.trans a1, b2.trans a2, b3.trans a3, b4.trans a4⟩

/-- Body, direction, cell size and score after `setupGame`. -/
theorem setupGame_core (rand : Nat → Nat × Nat) (fuel : Nat) (s s' : State)
    (h : setupGame rand fuel s = some s') :
    s'.snake = [Vec.mk 400 300, Vec.mk (400 + 1 * s.gridSize) 300,
        Vec.mk (400 + 2 * s.gridSize) 300] ∧
      s'.direction = Vec.mk (-s.gridSize) 0 ∧ s'.gridSize = s.gridSize ∧ s'.score = 0 := by
  unfold setupGame at h
  simp only at h
  by_cases ho : s.hasObstacles = true
  · rw [if_pos ho] at h
    cases hc : createObstacles rand fuel
        { s with
          snake := [Vec.mk 400 300, Vec.mk (400 + 1 * s.gridSize) 300,
            Vec.mk (400 + 2 * s.gridSize) 300]
          direction := Vec.mk (-s.gridSize) 0
          score := 0
          gameOver := false
          showingHighScores := false
          moveInterval :=
            match s.speedDifficulty with
            | Difficulty.EASY => SPEED_EASY
            | Difficulty.MEDIUM => SPEED_MEDIUM
            | Difficulty.HARD => SPEED_HARD
          obstacles := [] } with
    | none => rw [hc] at h; exact Option.noConfusion h
    | some s1 =>
      rw [hc] at h
      obtain ⟨a1, a2, a3, a4⟩ := createObstaclesLoop_core rand fuel 8 _ s1 hc
      obtain ⟨b1, b2, b3, b4⟩ := spawnFood_core rand fuel s1 s' h
      exact ⟨b1.trans a1, b2.trans a2, b3.trans a3, b4.trans a4⟩
  · rw [if_neg ho] at h
    obtain ⟨b1, b2, b3, b4⟩ := spawnFood_core rand fuel _ s' h
    exact ⟨b1, b2, b3, b4⟩

/-- A game just started satisfies `Inv`. -/
theorem inv_start (rand : Nat → Nat × Nat) (fuel : Nat) (s0 s : State)
    (hgrid : s0.gridSize = 20) (h : setupGame rand fuel s0 = some s) :
    Inv { s with gameStarted := true } := by
  obtain ⟨h1, h2, h3, h4⟩ := setupGame_core rand fuel s0 s h
  rw [hgrid] at h1 h2 h3
  refine ⟨h3, ?_, ?_, ?_, ?_⟩
  · show axisAligned 20 s.direction
    rw [h2]
    exact Or.inr (Or.inl rfl)
  · show s.snake.Nodup
    rw [h1]
    decide
  · show 3 ≤ s.snake.length
    rw [h1]
    decide
  · show s.score = 10 * ((s.snake.length : Int) - 3)
    rw [h1, h4]
    decide

/-- Steering keeps `Inv`. -/
theorem steer_inv (s : State) (code : Key) (h : Inv s) : Inv (steer s code) := by
  obtain ⟨hg, hd, hn, hl, hs⟩ := h
  unfold steer
  cases code
  case Up =>
    simp only
    split_ifs
    · exact ⟨hg, by rw [hg]; exact Or.inr (Or.inr (Or.inr rfl)), hn, hl, hs⟩
    · exact ⟨hg, hd, hn, hl, hs⟩
  case Down =>
    simp only
    split_ifs
    · exact ⟨hg, by rw [hg]; exact Or.inr (Or.inr (Or.inl rfl)), hn, hl, hs⟩
    · exact ⟨hg, hd, hn, hl, hs⟩
  case Left =>
    simp only
    split_ifs
    · exact ⟨hg, by rw [hg]; exact Or.inr (Or.inl rfl), hn, hl, hs⟩
    · exact ⟨hg, hd, hn, hl, hs⟩
  case Right =>
    simp only
    split_ifs
    · exact ⟨hg, by rw [hg]; exact Or.inl rfl, hn, hl, hs⟩
    · exact ⟨hg, hd, hn, hl, hs⟩
  all_goals exact ⟨hg, hd, hn, hl, hs⟩

/-- A call of `handleEvents` keeps `Inv`. -/
theorem handleEvents_inv (evs : List Event) : ∀ s, Inv s → Inv (handleEvents evs s).1 := by
  induction evs with
  | nil => intro s h; exact h
  | cons ev rest ih =>
    intro s h
    cases ev with
    | Closed => exact h
    | Other => exact ih s h
    | KeyPressed code =>
      unfold handleEvents
      split_ifs
      · exact h
      · exact h
      · exact ih _ (steer_inv s code h)
      · exact ih s h

/-- A call of `handleGameOver` keeps `Inv`. -/
theorem handleGameOver_inv (s : State) (isHigh : Bool) (h : Inv s) :
    Inv (handleGameOver s isHigh) := by
  unfold handleGameOver
  split_ifs
  · exact h
  · exact h
  · exact h

/-- A step of one cell along an axis moves the point. -/
theorem add_ne_self (g : Int) (hg : g ≠ 0) (p d : Vec) (hd : axisAligned g d) : p.add d ≠ p := by
  intro h
  have hx : p.x + d.x = p.x := congrArg Vec.x h
  have hy : p.y + d.y = p.y := congrArg Vec.y h
  rcases hd with e | e | e | e <;> rw [e] at hx hy <;> simp at hx hy <;> omega

/-- What one call of `update` does to the body and the score. -/
theorem update_step (rand : Nat → Nat × Nat) (fuel : Nat) (s s' : State) (deltaTime : Int)
    (h : update rand fuel s deltaTime = some s') :
    s'.gridSize = s.gridSize ∧ s'.direction = s.direction ∧
      ((s'.snake = s.snake ∧ s'.score = s.score) ∨
        ∃ head body, s.snake = head :: body ∧
          (∀ segment, segment ∈ body → head.add s.direction ≠ segment) ∧
          ((head.add s.direction = s.food ∧ s'.snake = head.add s.direction :: s.snake ∧
              s'.score = s.score + 10) ∨
            (head.add s.direction ≠ s.food ∧
              s'.snake = (head.add s.direction :: s.snake).dropLast ∧ s'.score = s.score))) := by
  unfold update at h
  by_cases hgo : s.gameOver = true
  · rw [if_pos hgo] at h
    rw [← Option.some.inj h]
    exact ⟨rfl, rfl, Or.inl ⟨rfl, rfl⟩⟩
  · rw [if_neg hgo] at h
    simp only at h
    by_cases ht : s.moveTimer + deltaTime ≥ s.moveInterval
    · rw [if_pos ht] at h
      cases hsn : s.snake with
      | nil => rw [hsn] at h; exact Option.noConfusion h
      | cons head body =>
        rw [hsn] at h
        simp only at h
        split_ifs at h with hw hself hob hfood
        · rw [← Option.some.inj h]; exact ⟨rfl, rfl, Or.inl ⟨rfl, rfl⟩⟩
        · rw [← Option.some.inj h]; exact ⟨rfl, rfl, Or.inl ⟨rfl, rfl⟩⟩
        · rw [← Option.some.inj h]; exact ⟨rfl, rfl, Or.inl ⟨rfl, rfl⟩⟩
        · obtain ⟨b1, b2, b3, b4⟩ := spawnFood_core rand fuel _ s' h
          refine ⟨b3, b2, Or.inr ⟨head, body, rfl, ?_, Or.inl ⟨hfood, b1, b4⟩⟩⟩
          intro segment hseg heq
          apply hself
          rw [List.any_eq_true]
          exact ⟨segment, hseg, by simpa using heq⟩
        · rw [← Option.some.inj h]
          refine ⟨rfl, rfl, Or.inr ⟨head, body, rfl, ?_, Or.inr ⟨hfood, rfl, rfl⟩⟩⟩
          intro segment hseg heq
          apply hself
          rw [List.any_eq_true]
          exact ⟨segment, hseg, by simpa using heq⟩
    · rw [if_neg ht] at h
      rw [← Option.some.inj h]
      exact ⟨rfl, rfl, Or.inl ⟨rfl, rfl⟩⟩

/-- A call of `update` keeps `Inv`. -/
theorem update_inv (rand : Nat → Nat × Nat) (fuel : Nat) (s s' : State) (deltaTime : Int)
    (hinv : Inv s) (h : update rand fuel s deltaTime = some s') : Inv s' := by
  obtain ⟨hg, hd, hn, hl, hs⟩ := hinv
  obtain ⟨e1, e2, hcase⟩ := update_step rand fuel s s' deltaTime h
  refine ⟨e1.trans hg, e2 ▸ hd, ?_⟩
  rcases hcase with ⟨a1, a2⟩ | ⟨head, body, hsn, hnot, ⟨_, a1, a2⟩ | ⟨_, a1, a2⟩⟩
  · rw [a1, a2]
    exact ⟨hn, hl, hs⟩
  · have hnew : (head.add s.direction :: s.snake).Nodup := by
      rw [hsn] at hn ⊢
      refine List.nodup_cons.2 ⟨?_, hn⟩
      intro hmem
      rcases List.mem_cons.1 hmem with e | e
      · exact add_ne_self 20 (by decide) head s.direction hd e
      · exact hnot _ e rfl
    rw [a1, a2, hs]
    refine ⟨hnew, ?_, ?_⟩
    · simp only [List.length_cons]; omega
    · simp only [List.length_cons]; push_cast; ring
  · have hnew : (head.add s.direction :: s.snake).Nodup := by
      rw [hsn] at hn ⊢
      refine List.nodup_cons.2 ⟨?_, hn⟩
      intro hmem
      rcases List.mem_cons.1 hmem with e | e
      · exact add_ne_self 20 (by decide) head s.direction hd e
      · exact hnot _ e rfl
    have hlen : (head.add s.direction :: s.snake).dropLast.length = s.snake.length := by
      simp [List.length_dropLast]
    rw [a1, a2, hlen]
    exact ⟨hnew.sublist (List.dropLast_sublist _), hl, hs⟩

/-- Every reachable state of the snake game satisfies `Inv`. -/
theorem reachable_snake_inv (s : State) (h : Reachable s) : Inv s := by
  induction h with
  | start rand fuel s0 s hgrid h => exact inv_start rand fuel s0 s hgrid h
  | events evs s _ ih => exact handleEvents_inv evs s ih
  | tick rand fuel s s' dt _ h ih => exact update_inv rand fuel s s' dt ih h
  | over s isHigh _ ih => exact handleGameOver_inv s isHigh ih

theorem reachable_freshGame : Reachable freshGame :=
  Reachable.start foodAhead 1 (constructed Difficulty.EASY false) _ rfl setupGame_freshGame

theorem reachable_upThenRight : Reachable upThenRight :=
  Reachable.events _ _ reachable_freshGame

theorem reachable_afterMeal : Reachable afterMeal :=
  Reachable.tick foodAhead 1 freshGame afterMeal 150000 reachable_freshGame update_freshGame

/-- With a valid pair among the next `fuel` draws `spawnFood` returns. -/
theorem spawnFood_returns (rand : Nat → Nat × Nat) (fuel : Nat) :
    ∀ (s : State) (k : Nat), k < fuel → foodValid s (rand (s.drawCount + k)) = true →
      ∃ s', spawnFood rand fuel s = some s' := by
  induction fuel with
  | zero => intro s k hk; omega
  | succ n ih =>
    intro s k hk hv
    unfold spawnFood
    simp only
    split_ifs with hvalid
    · exact ⟨_, rfl⟩
    · cases k with
      | zero =>
        exfalso
        apply hvalid
        simpa [foodValid] using hv
      | succ k =>
        apply ih _ k (by omega)
        have : s.drawCount + 1 + k = s.drawCount + (k + 1) := by omega
        show foodValid _ (rand (s.drawCount + 1 + k)) = true
        rw [this]
        exact hv

/-- A call of `update` on a non-empty snake returns, given that a valid pair
is among the next `fuel` draws when the move lands on the food. -/
theorem update_returns (rand : Nat → Nat × Nat) (fuel : Nat) (s : State) (deltaTime : Int)
    (hsn : s.snake ≠ [])
    (hfood : ∀ head body, s.snake = head :: body → head.add s.direction = s.food →
      ∃ k, k < fuel ∧
        foodValid
          { s with
            moveTimer := 0
            snake := head.add s.direction :: head :: body
            score := s.score + 10 }
          (rand (s.drawCount + k)) = true) :
    ∃ s', update rand fuel s deltaTime = some s' := by
  unfold update
  by_cases hgo : s.gameOver = true
  · rw [if_pos hgo]
    exact ⟨_, rfl⟩
  · rw [if_neg hgo]
    simp only
    by_cases ht : s.moveTimer + deltaTime ≥ s.moveInterval
    · rw [if_pos ht]
      cases hs : s.snake with
      | nil => exact absurd hs hsn
      | cons head body =>
        simp only
        split_ifs with _ _ _ hf
        · exact ⟨_, rfl⟩
        · exact ⟨_, rfl⟩
        · exact ⟨_, rfl⟩
        · obtain ⟨k, hk, hv⟩ := hfood head body hs hf
          exact spawnFood_returns rand fuel _ k hk hv
        · exact ⟨_, rfl⟩
    · rw [if_neg ht]
      exact ⟨_, rfl⟩

/-- The first move of the fresh game returns by `update_returns`: the pair
drawn after the meal is valid. -/
theorem update_returns_freshGame : ∃ s', update foodAhead 1 freshGame 150000 = some s' :=
  update_returns foodAhead 1 freshGame 150000 (by decide)
    (fun head body hs _ => ⟨0, by decide, by
      have h1 : head = Vec.mk 400 300 := (List.cons.inj hs).1.symm
      have h2 : body = [Vec.mk 420 300, Vec.mk 440 300] := (List.cons.inj hs).2.symm
      subst h1 h2
      rfl⟩)

/-- C22. Snake body invariant: in every state reachable from `setupGame`
through any sequence of `handleEvents`, `update` and `handleGameOver` calls the
snake body contains no two equal positions; and in such a state a due move of
a running game whose new head coincides with an existing segment returns with
`gameOver` set and the body as it was. -/
theorem snake_body_nodup (s : State) (h : Reachable s) :
    s.snake.Nodup ∧
      ∀ (rand : Nat → Nat × Nat) (fuel : Nat) (deltaTime : Int) (head : Vec) (body : List Vec),
        s.snake = head :: body → s.gameOver = false →
        s.moveTimer + deltaTime ≥ s.moveInterval → head.add s.direction ∈ s.snake →
        ∃ s', update rand fuel s deltaTime = some s' ∧ s'.gameOver = true ∧
          s'.snake = s.snake := by
  obtain ⟨_, hd, hn, _, _⟩ := reachable_snake_inv s h
  refine ⟨hn, ?_⟩
  intro rand fuel deltaTime head body hsn hgo ht hmem
  have hbody : head.add s.direction ∈ body := by
    rw [hsn] at hmem
    rcases List.mem_cons.1 hmem with e | e
    · exact absurd e (add_ne_self 20 (by decide) head s.direction hd)
    · exact e
  have hany : (body.any fun segment => head.add s.direction = segment) = true := by
    rw [List.any_eq_true]
    exact ⟨_, hbody, by simp⟩
  unfold update
  rw [if_neg (by rw [hgo]; decide)]
  simp only
  rw [if_pos ht]
  rw [hsn]
  simp only
  split_ifs with hw
  · exact ⟨_, rfl, rfl, rfl⟩
  · exact ⟨_, rfl, rfl, rfl⟩

/-- Witness for C22: the fresh game after the key presses Up and Right, whose
next move would put the head on the second segment. -/
theorem snake_body_nodup_witness :
    Reachable upThenRight ∧
      (upThenRight.snake.Nodup ∧
        ∀ (rand : Nat → Nat × Nat) (fuel : Nat) (deltaTime : Int) (head : Vec)
          (body : List Vec),
          upThenRight.snake = head :: body → upThenRight.gameOver = false →
          upThenRight.moveTimer + deltaTime ≥ upThenRight.moveInterval →
          head.add upThenRight.direction ∈ upThenRight.snake →
          ∃ s', update rand fuel upThenRight deltaTime = some s' ∧ s'.gameOver = true ∧
            s'.snake = upThenRight.snake) :=
  ⟨reachable_upThenRight, snake_body_nodup upThenRight reachable_upThenRight⟩

/-- C29. Score tracks growth: in every state reachable from `setupGame`
through any sequence of `handleEvents`, `update` and `handleGameOver` calls the
snake has at least 3 segments and `score = 10 * (segments - 3)`; and every
returning call of `update` from such a state either commits a move onto the
food, putting the new head in front of the whole body (one segment more) and
adding exactly 10 points, or leaves both the length and the score unchanged. -/
theorem score_tracks_growth (s : State) (h : Reachable s) :
    3 ≤ s.snake.length ∧ s.score = 10 * ((s.snake.length : Int) - 3) ∧
      ∀ (rand : Nat → Nat × Nat) (fuel : Nat) (deltaTime : Int) (s' : State),
        update rand fuel s deltaTime = some s' →
        (∃ head body, s.snake = head :: body ∧ head.add s.direction = s.food ∧
            s'.snake = head.add s.direction :: s.snake ∧
            s'.snake.length = s.snake.length + 1 ∧ s'.score = s.score + 10) ∨
          (s'.snake.length = s.snake.length ∧ s'.score = s.score) := by
  obtain ⟨_, _, _, hl, hs⟩ := reachable_snake_inv s h
  refine ⟨hl, hs, ?_⟩
  intro rand fuel deltaTime s' hupd
  obtain ⟨_, _, hcase⟩ := update_step rand fuel s s' deltaTime hupd
  rcases hcase with ⟨a1, a2⟩ | ⟨head, body, hsn, _, ⟨hf, a1, a2⟩ | ⟨_, a1, a2⟩⟩
  · exact Or.inr ⟨by rw [a1], a2⟩
  · exact Or.inl ⟨head, body, hsn, hf, a1, by rw [a1]; rfl, a2⟩
  · refine Or.inr ⟨?_, a2⟩
    rw [a1]
    simp [List.length_dropLast]

/-- Witness for C29: the fresh game, whose first move eats the food at
`(380, 300)` and gives four segments and 10 points. -/
theorem score_tracks_growth_witness :
    Reachable freshGame ∧ update foodAhead 1 freshGame 150000 = some afterMeal ∧
      afterMeal.snake.length = 4 ∧ afterMeal.score = 10 ∧
      (3 ≤ freshGame.snake.length ∧
        freshGame.score = 10 * ((freshGame.snake.length : Int) - 3) ∧
        ∀ (rand : Nat → Nat × Nat) (fuel : Nat) (deltaTime : Int) (s' : State),
          update rand fuel freshGame deltaTime = some s' →
          (∃ head body, freshGame.snake = head :: body ∧
              head.add freshGame.direction = freshGame.food ∧
              s'.snake = head.add freshGame.direction :: freshGame.snake ∧
              s'.snake.length = freshGame.snake.length + 1 ∧
              s'.score = freshGame.score + 10) ∨
            (s'.snake.length = freshGame.snake.length ∧ s'.score = freshGame.score)) :=
  ⟨reachable_freshGame, update_freshGame, rfl, rfl,
    score_tracks_growth freshGame reachable_freshGame⟩

/-- C21, as stated, fails. In the game right after its start (snake
`(400,300), (420,300), (440,300)` heading left, not over) the key presses Up
and Right polled before the next move are both accepted, because each request
is compared with the pending direction only: Up turns the pending direction to
`(0, -20)`, Right then turns it to `(20, 0)`. At commit time head + direction
is `(420, 300)`, the segment directly behind the head, and the move ends the
game by self-collision with the body unchanged, whatever the random source. -/
theorem reversal_guard_bypassed :
    Reachable freshGame ∧ Reachable upThenRight ∧
      freshGame.gameStarted = true ∧ freshGame.gameOver = false ∧
      freshGame.snake = [Vec.mk 400 300, Vec.mk 420 300, Vec.mk 440 300] ∧
      freshGame.direction = Vec.mk (-20) 0 ∧
      (handleEvents [Event.KeyPressed Key.Up] freshGame).1.direction = Vec.mk 0 (-20) ∧
      upThenRight.snake = [Vec.mk 400 300, Vec.mk 420 300, Vec.mk 440 300] ∧
      upThenRight.direction = Vec.mk 20 0 ∧
      (Vec.mk 400 300).add upThenRight.direction = Vec.mk 420 300 ∧
      ∀ (rand : Nat → Nat × Nat) (fuel : Nat),
        (update rand fuel upThenRight 150000).map (fun s => (s.gameOver, s.snake)) =
          some (true, [Vec.mk 400 300, Vec.mk 420 300, Vec.mk 440 300]) :=
  ⟨reachable_freshGame, reachable_upThenRight, rfl, rfl, rfl, rfl, rfl, rfl, rfl, rfl,
    fun _ _ => rfl⟩

end SnakeGame
